import Mathlib

/-!
# DSE graph extension: JSON writers, graph options and graph statements

A shallow embedding of `dse_graph.hpp` (classes `GraphWriter`, `GraphObject`,
`GraphArray`, `GraphOptions`, `GraphStatement`, `GraphResultSet`) and of the
date range codec declared in `date_range.hpp`.  Byte strings are lists of
characters, binary blobs are lists of bytes, a failed C++ assertion is the
result `none`, and an object that is reached through a pointer lives in an
explicit memory.
-/

namespace DseGraph

/-- A byte string (`const char*` with an explicit length, a `StringBuffer`). -/
abbrev Buf := List Char

/-! ## The JSON writer base class -/

/-- Modelled from the spec: the enum `datastax::rapidjson::Type` named in the
signature of `GraphWriter::add_writer`; its declaration is in the JSON library
header, which is not among the sources. -/
inductive JsonType where
  | kNullType
  | kFalseType
  | kTrueType
  | kObjectType
  | kArrayType
  | kStringType
  | kNumberType
  deriving DecidableEq, Repr

/-- Modelled from the spec: one entry of the nesting stack of the JSON writer
base class (`json::Writer`, not among the sources): how many values the open
container has received and whether it is an array. -/
structure Level where
  valueCount : Nat
  inArray : Bool
  deriving DecidableEq, Repr

/-- State of a `GraphWriter`: the member `buffer_` of the class together with
the state it inherits from the JSON writer base class (the nesting stack and
the flag saying that the top-level value has been started). -/
structure GraphWriter where
  buffer_ : Buf
  level_stack_ : List Level
  hasRoot_ : Bool
  deriving DecidableEq, Repr

/-- The double quote character. -/
def quoteChar : Char := Char.ofNat 0x22

/-- The backslash character. -/
def backslashChar : Char := Char.ofNat 0x5C

/-- Modelled from the spec: the sixteen hexadecimal digits the JSON writer
base class uses in a `\u00XX` escape. -/
def hexDigits (n : Nat) : Char :=
  ['0', '1', '2', '3', '4', '5', '6', '7', '8', '9', 'A', 'B', 'C', 'D', 'E', 'F'].getD n '0'

/-- Modelled from the spec: the escape table of the JSON writer base class
(not among the sources): control characters, the double quote and the
backslash are escaped, every other character is written as it is.  The result
is the character written after the backslash. -/
def escape (c : Char) : Option Char :=
  if c.toNat < 0x20 then
    if c.toNat = 0x08 then some 'b'
    else if c.toNat = 0x09 then some 't'
    else if c.toNat = 0x0A then some 'n'
    else if c.toNat = 0x0C then some 'f'
    else if c.toNat = 0x0D then some 'r'
    else some 'u'
  else if c = quoteChar then some quoteChar
  else if c = backslashChar then some backslashChar
  else none

/-- Modelled from the spec: the text written for one character of a string. -/
def WriteChar (c : Char) : Buf :=
  match escape c with
  | none => [c]
  | some e =>
    if e = 'u' then
      [backslashChar, 'u', '0', '0', hexDigits (c.toNat / 16), hexDigits (c.toNat % 16)]
    else [backslashChar, e]

/-- Modelled from the spec: `WriteString` of the JSON writer base class, a
JSON string literal. -/
def WriteString (str : Buf) : Buf :=
  quoteChar :: (str.map WriteChar).flatten ++ [quoteChar]

/-- Modelled from the spec: `WriteNull` of the JSON writer base class. -/
def WriteNull : Buf := ['n', 'u', 'l', 'l']

/-- Modelled from the spec: `WriteBool` of the JSON writer base class. -/
def WriteBool (b : Bool) : Buf :=
  if b then ['t', 'r', 'u', 'e'] else ['f', 'a', 'l', 's', 'e']

/-- Modelled from the spec: `WriteInt` / `WriteInt64` of the JSON writer base
class, the decimal text of a signed integer. -/
def WriteInt (i : Int) : Buf :=
  if i < 0 then '-' :: Nat.toDigits 10 i.natAbs else Nat.toDigits 10 i.natAbs

/-- The value of a `cass_int32_t`: a signed integer of 32 bits. -/
def toInt32 (v : Int) : Int := (v + 2 ^ 31) % 2 ^ 32 - 2 ^ 31

/-- The value of a `cass_int64_t`: a signed integer of 64 bits. -/
def toInt64 (v : Int) : Int := (v + 2 ^ 63) % 2 ^ 64 - 2 ^ 63

/-- The conversion `static_cast<datastax::rapidjson::SizeType>(length)` of
`add_string` and `add_key`: `SizeType` is an unsigned integer of 32 bits. -/
def toSizeType (length : Nat) : Nat := length % 2 ^ 32

/-- Modelled from the spec: the separator the JSON writer base class writes
before the next value: nothing at the top level and before the first value of
a container, a comma between the elements of an array and between the members
of an object, a colon between a key and its value. -/
def separator (w : GraphWriter) : Buf :=
  match w.level_stack_ with
  | [] => []
  | level :: _ =>
    if level.valueCount > 0 then
      if level.inArray then [',']
      else if level.valueCount % 2 = 0 then [','] else [':']
    else []

/-- Modelled from the spec: `Prefix` of the JSON writer base class (not among
the sources), called before every value.  Inside a container it writes the
separator and counts the value; a value at a key position of an object must be
a string.  At the top level it asserts that no top-level value exists yet
("writing any value after the top-level value is already complete is a
programmer error") and records that one does now. -/
def Prefix (type : JsonType) (w : GraphWriter) : Option GraphWriter :=
  match w.level_stack_ with
  | level :: rest =>
    if !level.inArray && level.valueCount % 2 = 0 && type ≠ JsonType.kStringType then none
    else
      some { w with
        buffer_ := w.buffer_ ++ separator w
        level_stack_ := { level with valueCount := level.valueCount + 1 } :: rest }
  | [] => if w.hasRoot_ then none else some { w with hasRoot_ := true }

/-- Append bytes to the buffer of the writer. -/
def Put (bytes : Buf) (w : GraphWriter) : GraphWriter :=
  { w with buffer_ := w.buffer_ ++ bytes }

/-- Modelled from the spec: `IsComplete` of the JSON writer base class: the
top-level value has been started and no container is open. -/
def IsComplete (w : GraphWriter) : Bool := w.hasRoot_ && w.level_stack_.isEmpty

/-- Modelled from the spec: `Null` of the JSON writer base class. -/
def Null (w : GraphWriter) : Option GraphWriter :=
  (Prefix JsonType.kNullType w).map (Put WriteNull)

/-- Modelled from the spec: `Bool` of the JSON writer base class. -/
def JBool (b : Bool) (w : GraphWriter) : Option GraphWriter :=
  (Prefix (if b then JsonType.kTrueType else JsonType.kFalseType) w).map (Put (WriteBool b))

/-- Modelled from the spec: `Int` of the JSON writer base class. -/
def JInt (i : Int) (w : GraphWriter) : Option GraphWriter :=
  (Prefix JsonType.kNumberType w).map (Put (WriteInt i))

/-- Modelled from the spec: `Int64` of the JSON writer base class. -/
def Int64 (i : Int) (w : GraphWriter) : Option GraphWriter :=
  (Prefix JsonType.kNumberType w).map (Put (WriteInt i))

/-- Modelled from the spec: `Double` of the JSON writer base class.  A double
is given by the digits the writer prints for it (no digits for a value that is
not a number or is infinite, which the writer does not print). -/
def Double (digits : Buf) (w : GraphWriter) : Option GraphWriter :=
  (Prefix JsonType.kNumberType w).map (Put digits)

/-- Modelled from the spec: `String` of the JSON writer base class with an
explicit length: the first `length` characters of `str`. -/
def JString (str : Buf) (length : Nat) (w : GraphWriter) : Option GraphWriter :=
  (Prefix JsonType.kStringType w).map (Put (WriteString (str.take length)))

/-- Modelled from the spec: `String` of the JSON writer base class on a
NUL-terminated string: the characters before the first NUL. -/
def CString (str : Buf) (w : GraphWriter) : Option GraphWriter :=
  let s := str.takeWhile (fun c => c.toNat ≠ 0)
  JString s s.length w

/-- Modelled from the spec: `Key` of the JSON writer base class, which writes
a string. -/
def Key (str : Buf) (length : Nat) (w : GraphWriter) : Option GraphWriter :=
  JString str length w

/-- Modelled from the spec: `StartObject` of the JSON writer base class. -/
def StartObject (w : GraphWriter) : Option GraphWriter :=
  (Prefix JsonType.kObjectType w).map fun w1 =>
    Put ['{'] { w1 with level_stack_ := { valueCount := 0, inArray := false } :: w1.level_stack_ }

/-- Modelled from the spec: `EndObject` of the JSON writer base class: "emits
the matching close token"; asserts that the innermost open container is an
object. -/
def EndObject (w : GraphWriter) : Option GraphWriter :=
  match w.level_stack_ with
  | [] => none
  | level :: rest =>
    if level.inArray then none
    else some (Put ['}'] { w with level_stack_ := rest })

/-- Modelled from the spec: `StartArray` of the JSON writer base class. -/
def StartArray (w : GraphWriter) : Option GraphWriter :=
  (Prefix JsonType.kArrayType w).map fun w1 =>
    Put ['['] { w1 with level_stack_ := { valueCount := 0, inArray := true } :: w1.level_stack_ }

/-- Modelled from the spec: `EndArray` of the JSON writer base class; asserts
that the innermost open container is an array. -/
def EndArray (w : GraphWriter) : Option GraphWriter :=
  match w.level_stack_ with
  | [] => none
  | level :: rest =>
    if level.inArray then some (Put [']'] { w with level_stack_ := rest })
    else none

/-- Modelled from the spec: `Reset` of the JSON writer base class together
with `buffer_.Clear()`: "discards the buffer and restarts an empty top-level
value". -/
def Reset (w : GraphWriter) : GraphWriter :=
  { w with hasRoot_ := false, level_stack_ := [] }

/-- Modelled from the spec: `Clear` of the string buffer. -/
def Clear (w : GraphWriter) : GraphWriter :=
  { w with buffer_ := [] }

/-! ## GraphWriter -/

namespace GraphWriter

/-- The constructor `GraphWriter()`: an empty buffer and a fresh JSON writer. -/
def new : GraphWriter := { buffer_ := [], level_stack_ := [], hasRoot_ := false }

/-- The bytes `data()` points to. -/
def data (w : GraphWriter) : Buf := w.buffer_

/-- The number of bytes written, `length()`. -/
def length (w : GraphWriter) : Nat := w.buffer_.length

/-- The method `is_complete()`. -/
def is_complete (w : GraphWriter) : Bool := IsComplete w

/-- The method `add_null()`. -/
def add_null (w : GraphWriter) : Option GraphWriter := Null w

/-- The method `add_bool(value)`; `value` is true for every `cass_bool_t`
other than `cass_false`. -/
def add_bool (value : Bool) (w : GraphWriter) : Option GraphWriter := JBool value w

/-- The method `add_int32(value)`. -/
def add_int32 (value : Int) (w : GraphWriter) : Option GraphWriter := JInt (toInt32 value) w

/-- The method `add_int64(value)`. -/
def add_int64 (value : Int) (w : GraphWriter) : Option GraphWriter := Int64 (toInt64 value) w

/-- The method `add_double(value)`, the double given by its digits. -/
def add_double (digits : Buf) (w : GraphWriter) : Option GraphWriter := Double digits w

/-- The method `add_string(string, length)`: `string` holds `length`
characters, and the length is converted to `SizeType`. -/
def add_string (string : Buf) (w : GraphWriter) : Option GraphWriter :=
  JString string (toSizeType string.length) w

/-- The method `add_key(key, length)`. -/
def add_key (key : Buf) (w : GraphWriter) : Option GraphWriter :=
  Key key (toSizeType key.length) w

/-- Modelled from the spec: the method `add_point(x, y)`, declared in the
class and defined in a file that is not among the sources: "two doubles
emitted as the well-known-text rendering", "POINT (x y)", written as a string.
The doubles are given by their digits. -/
def add_point (x y : Buf) (w : GraphWriter) : Option GraphWriter :=
  CString (['P', 'O', 'I', 'N', 'T', ' ', '('] ++ x ++ [' '] ++ y ++ [')']) w

/-- The method `add_line_string(line_string)`; the line string is given by its
well-known text `to_wkt()`. -/
def add_line_string (wkt : Buf) (w : GraphWriter) : Option GraphWriter := CString wkt w

/-- The method `add_polygon(polygon)`; the polygon is given by its well-known
text `to_wkt()`. -/
def add_polygon (wkt : Buf) (w : GraphWriter) : Option GraphWriter := CString wkt w

/-- The method `add_writer(writer, type)`: `Prefix(type)`, then the bytes of
the buffer of `writer` are copied to the end of the buffer. -/
def add_writer (writer : GraphWriter) (type : JsonType) (w : GraphWriter) :
    Option GraphWriter :=
  let length := writer.buffer_.length
  (Prefix type w).map (Put (writer.buffer_.take length))

/-- The method `reset()`. -/
def reset (w : GraphWriter) : GraphWriter := Reset (Clear w)

/-- The protected method `start_object()`. -/
def start_object (w : GraphWriter) : Option GraphWriter := StartObject w

/-- The protected method `end_object()`. -/
def end_object (w : GraphWriter) : Option GraphWriter := EndObject w

/-- The protected method `start_array()`. -/
def start_array (w : GraphWriter) : Option GraphWriter := StartArray w

/-- The protected method `end_array()`. -/
def end_array (w : GraphWriter) : Option GraphWriter := EndArray w

end GraphWriter

/-! ## GraphObject and GraphArray -/

namespace GraphObject

/-- The constructor `GraphObject()`. -/
def new : Option GraphWriter := GraphWriter.start_object GraphWriter.new

/-- The method `GraphObject::reset()`. -/
def reset (w : GraphWriter) : Option GraphWriter :=
  GraphWriter.start_object (GraphWriter.reset w)

/-- The method `GraphObject::finish()`. -/
def finish (w : GraphWriter) : Option GraphWriter :=
  if !GraphWriter.is_complete w then GraphWriter.end_object w else some w

end GraphObject

namespace GraphArray

/-- The constructor `GraphArray()`. -/
def new : Option GraphWriter := GraphWriter.start_array GraphWriter.new

/-- The method `GraphArray::reset()`. -/
def reset (w : GraphWriter) : Option GraphWriter :=
  GraphWriter.start_array (GraphWriter.reset w)

/-- The method `GraphArray::finish()`. -/
def finish (w : GraphWriter) : Option GraphWriter :=
  if !GraphWriter.is_complete w then GraphWriter.end_array w else some w

end GraphArray

/-! ## Sequences of calls -/

/-- One call of a value-appending method of `GraphWriter`. -/
inductive Op where
  | add_null
  | add_bool (value : Bool)
  | add_int32 (value : Int)
  | add_int64 (value : Int)
  | add_double (digits : Buf)
  | add_string (string : Buf)
  | add_key (key : Buf)
  | add_point (x y : Buf)
  | add_line_string (wkt : Buf)
  | add_polygon (wkt : Buf)
  | add_writer (writer : GraphWriter) (type : JsonType)
  deriving DecidableEq, Repr

/-- Make one value-appending call. -/
def Op.apply : Op → GraphWriter → Option GraphWriter
  | .add_null, w => GraphWriter.add_null w
  | .add_bool value, w => GraphWriter.add_bool value w
  | .add_int32 value, w => GraphWriter.add_int32 value w
  | .add_int64 value, w => GraphWriter.add_int64 value w
  | .add_double digits, w => GraphWriter.add_double digits w
  | .add_string string, w => GraphWriter.add_string string w
  | .add_key key, w => GraphWriter.add_key key w
  | .add_point x y, w => GraphWriter.add_point x y w
  | .add_line_string wkt, w => GraphWriter.add_line_string wkt w
  | .add_polygon wkt, w => GraphWriter.add_polygon wkt w
  | .add_writer writer type, w => GraphWriter.add_writer writer type w

/-- Make a sequence of value-appending calls, stopping at a failed assertion. -/
def runOps : List Op → GraphWriter → Option GraphWriter
  | [], w => some w
  | op :: ops, w => (op.apply w).bind (runOps ops)

/-- The kind of JSON value a value-appending call announces to `Prefix`. -/
def Op.type : Op → JsonType
  | .add_null => JsonType.kNullType
  | .add_bool value => if value then JsonType.kTrueType else JsonType.kFalseType
  | .add_int32 _ => JsonType.kNumberType
  | .add_int64 _ => JsonType.kNumberType
  | .add_double _ => JsonType.kNumberType
  | .add_string _ => JsonType.kStringType
  | .add_key _ => JsonType.kStringType
  | .add_point _ _ => JsonType.kStringType
  | .add_line_string _ => JsonType.kStringType
  | .add_polygon _ => JsonType.kStringType
  | .add_writer _ type => type

/-- The top of the nesting stack after one more value. -/
def bump : List Level → List Level
  | [] => []
  | level :: rest => { level with valueCount := level.valueCount + 1 } :: rest

/-- The three kinds of writer. -/
inductive Kind where
  | plain
  | object
  | array
  deriving DecidableEq, Repr

/-- One call of the public interface of a writer. -/
inductive Call where
  | add (op : Op)
  | reset
  | finish
  deriving DecidableEq, Repr

/-- The constructor of a writer of the given kind. -/
def Kind.new : Kind → Option GraphWriter
  | .plain => some GraphWriter.new
  | .object => GraphObject.new
  | .array => GraphArray.new

/-- The method `reset()` of a writer of the given kind. -/
def Kind.reset : Kind → GraphWriter → Option GraphWriter
  | .plain, w => some (GraphWriter.reset w)
  | .object, w => GraphObject.reset w
  | .array, w => GraphArray.reset w

/-- The method `finish()` of a writer of the given kind; a plain `GraphWriter`
has none, the call is then no call at all. -/
def Kind.finish : Kind → GraphWriter → Option GraphWriter
  | .plain, w => some w
  | .object, w => GraphObject.finish w
  | .array, w => GraphArray.finish w

/-- Make one call of the public interface. -/
def Kind.call (k : Kind) : Call → GraphWriter → Option GraphWriter
  | .add op, w => op.apply w
  | .reset, w => k.reset w
  | .finish, w => k.finish w

/-- Make a sequence of calls of the public interface on the given state. -/
def Kind.runFrom (k : Kind) : List Call → GraphWriter → Option GraphWriter
  | [], w => some w
  | c :: cs, w => (k.call c w).bind (k.runFrom cs)

/-- Construct a writer of the given kind and make a sequence of calls of its
public interface. -/
def Kind.run (k : Kind) (cs : List Call) : Option GraphWriter :=
  k.new.bind (k.runFrom cs)

/-- The shape of the states of a writer of the given kind: a plain writer has
no open container; a `GraphObject` (a `GraphArray`) has started its top-level
value and has at most one open container, an object (an array). -/
def Kind.inv (k : Kind) (w : GraphWriter) : Bool :=
  match k, w.level_stack_ with
  | .plain, [] => true
  | .object, [] => w.hasRoot_
  | .array, [] => w.hasRoot_
  | .object, [level] => w.hasRoot_ && !level.inArray
  | .array, [level] => w.hasRoot_ && level.inArray
  | _, _ => false

/-- The close token of the container of a `GraphObject` or a `GraphArray`. -/
def Kind.closeToken : Kind → Buf
  | .plain => []
  | .object => ['}']
  | .array => [']']

/-! ## The request handle and the header map -/

/-- Modelled from the spec: the consistency levels `CassConsistency` of the
driver header, which is not among the sources. -/
inductive CassConsistency where
  | CASS_CONSISTENCY_UNKNOWN
  | CASS_CONSISTENCY_ANY
  | CASS_CONSISTENCY_ONE
  | CASS_CONSISTENCY_TWO
  | CASS_CONSISTENCY_THREE
  | CASS_CONSISTENCY_QUORUM
  | CASS_CONSISTENCY_ALL
  | CASS_CONSISTENCY_LOCAL_QUORUM
  | CASS_CONSISTENCY_EACH_QUORUM
  | CASS_CONSISTENCY_SERIAL
  | CASS_CONSISTENCY_LOCAL_SERIAL
  | CASS_CONSISTENCY_LOCAL_ONE
  deriving DecidableEq, Repr

/-- Modelled from the spec: the status codes `CassError` of the execution
collaborator that the graph classes meet: success, and the code of the
bind-parameter operation for a position the parameter list does not have. -/
inductive CassError where
  | CASS_OK
  | CASS_ERROR_LIB_INDEX_OUT_OF_BOUNDS
  deriving DecidableEq, Repr

/-- Modelled from the spec: `CassCustomPayload`, the header map: "an owned map
of string keys to opaque byte-string values". -/
abbrev CassCustomPayload := List (Buf × Buf)

/-- Modelled from the spec: `cass_custom_payload_new`, an empty header map. -/
def cass_custom_payload_new : CassCustomPayload := []

/-- Modelled from the spec: `cass_custom_payload_set_n`: "(re)inserts the
corresponding entry into the header map, replacing any prior value for that
key".  The key is the first `name_length` characters of `name`. -/
def cass_custom_payload_set_n (payload : CassCustomPayload) (name : Buf) (name_length : Nat)
    (value : Buf) (value_size : Nat) : CassCustomPayload :=
  payload.filter (fun item => item.1 ≠ name.take name_length) ++
    [(name.take name_length, value.take value_size)]

/-- The value the header map holds for a key, if any. -/
def CassCustomPayload.find? (payload : CassCustomPayload) (name : Buf) : Option Buf :=
  (List.find? (fun item => decide (item.1 = name)) payload).map Prod.snd

/-- Modelled from the spec: the request handle `CassStatement` of the execution
collaborator: the query text, the positional parameters (unset or a byte
string), the header map, the request timeout (an unsigned 64-bit count of
milliseconds) and the write timestamp. -/
structure CassStatement where
  query : Buf
  parameters : List (Option Buf)
  custom_payload : Option CassCustomPayload
  request_timeout_ms : Nat
  timestamp : Option Int
  deriving DecidableEq, Repr

/-- Modelled from the spec: `cass_statement_new_n`: a request for the query
with `parameter_count` unset parameters, no header map, no timeout override
and no timestamp. -/
def cass_statement_new_n (query : Buf) (length : Nat) (parameter_count : Nat) : CassStatement :=
  { query := query.take length
    parameters := List.replicate parameter_count none
    custom_payload := none
    request_timeout_ms := 2 ^ 64 - 1
    timestamp := none }

/-- Modelled from the spec: `cass_statement_set_custom_payload`: "propagates
the header map onto the underlying request handle". -/
def cass_statement_set_custom_payload (statement : CassStatement)
    (payload : CassCustomPayload) : CassStatement :=
  { statement with custom_payload := some payload }

/-- Modelled from the spec: `cass_statement_set_request_timeout`. -/
def cass_statement_set_request_timeout (statement : CassStatement) (timeout_ms : Nat) :
    CassStatement :=
  { statement with request_timeout_ms := timeout_ms }

/-- Modelled from the spec: `cass_statement_reset_parameters`: "resets the
request handle's parameter list" to `count` unset parameters. -/
def cass_statement_reset_parameters (statement : CassStatement) (count : Nat) : CassStatement :=
  { statement with parameters := List.replicate count none }

/-- Modelled from the spec: `cass_statement_bind_string_n`, the bind-parameter
operation: sets the parameter at `index` to the first `value_length` bytes of
`value`, or signals that the parameter list has no such position. -/
def cass_statement_bind_string_n (statement : CassStatement) (index : Nat) (value : Buf)
    (value_length : Nat) : CassError × CassStatement :=
  if index < statement.parameters.length then
    (CassError.CASS_OK,
      { statement with parameters := statement.parameters.set index (some (value.take value_length)) })
  else (CassError.CASS_ERROR_LIB_INDEX_OUT_OF_BOUNDS, statement)

/-- The conversion `static_cast<cass_uint64_t>` of a signed 64-bit integer. -/
def toUInt64 (v : Int) : Nat := (v % 2 ^ 64).toNat

/-! ## GraphOptions -/

/-- The macro `DSE_GRAPH_OPTION_LANGUAGE_KEY`. -/
def DSE_GRAPH_OPTION_LANGUAGE_KEY : Buf := "graph-language".toList

/-- The macro `DSE_GRAPH_OPTION_SOURCE_KEY`. -/
def DSE_GRAPH_OPTION_SOURCE_KEY : Buf := "graph-source".toList

/-- The macro `DSE_GRAPH_OPTION_NAME_KEY`. -/
def DSE_GRAPH_OPTION_NAME_KEY : Buf := "graph-name".toList

/-- The macro `DSE_GRAPH_OPTION_READ_CONSISTENCY_KEY`. -/
def DSE_GRAPH_OPTION_READ_CONSISTENCY_KEY : Buf := "graph-read-consistency".toList

/-- The macro `DSE_GRAPH_OPTION_WRITE_CONSISTENCY_KEY`. -/
def DSE_GRAPH_OPTION_WRITE_CONSISTENCY_KEY : Buf := "graph-write-consistency".toList

/-- The macro `DSE_GRAPH_REQUEST_TIMEOUT`. -/
def DSE_GRAPH_REQUEST_TIMEOUT : Buf := "request-timeout".toList

/-- The macro `DSE_GRAPH_DEFAULT_LANGUAGE`. -/
def DSE_GRAPH_DEFAULT_LANGUAGE : Buf := "gremlin-groovy".toList

/-- The macro `DSE_GRAPH_DEFAULT_SOURCE`. -/
def DSE_GRAPH_DEFAULT_SOURCE : Buf := "g".toList

/-- The macro `DSE_GRAPH_ANALYTICS_SOURCE`. -/
def DSE_GRAPH_ANALYTICS_SOURCE : Buf := "a".toList

/-- The length `sizeof(literal) - 1` of a string literal: the terminating NUL
is not counted. -/
def sizeofLiteral (literal : Buf) : Nat := literal.length + 1

/-- State of a `GraphOptions`: the header map and the typed fields. -/
structure GraphOptions where
  payload_ : CassCustomPayload
  graph_language_ : Buf
  graph_name_ : Buf
  graph_source_ : Buf
  read_consistency_ : CassConsistency
  write_consistency_ : CassConsistency
  request_timeout_ms_ : Int
  deriving DecidableEq, Repr

namespace GraphOptions

/-- The method `payload()`. -/
def payload (o : GraphOptions) : CassCustomPayload := o.payload_

/-- The method `set_graph_language(graph_language)`. -/
def set_graph_language (graph_language : Buf) (o : GraphOptions) : GraphOptions :=
  { o with
    payload_ := cass_custom_payload_set_n o.payload_ DSE_GRAPH_OPTION_LANGUAGE_KEY
      (sizeofLiteral DSE_GRAPH_OPTION_LANGUAGE_KEY - 1) graph_language graph_language.length
    graph_language_ := graph_language }

/-- The method `graph_source()`. -/
def graph_source (o : GraphOptions) : Buf := o.graph_source_

/-- The method `set_graph_source(graph_source)`. -/
def set_graph_source (graph_source : Buf) (o : GraphOptions) : GraphOptions :=
  { o with
    payload_ := cass_custom_payload_set_n o.payload_ DSE_GRAPH_OPTION_SOURCE_KEY
      (sizeofLiteral DSE_GRAPH_OPTION_SOURCE_KEY - 1) graph_source graph_source.length
    graph_source_ := graph_source }

/-- The method `set_graph_name(graph_name)`. -/
def set_graph_name (graph_name : Buf) (o : GraphOptions) : GraphOptions :=
  { o with
    payload_ := cass_custom_payload_set_n o.payload_ DSE_GRAPH_OPTION_NAME_KEY
      (sizeofLiteral DSE_GRAPH_OPTION_NAME_KEY - 1) graph_name graph_name.length
    graph_name_ := graph_name }

/-- The method `request_timeout_ms()`. -/
def request_timeout_ms (o : GraphOptions) : Int := o.request_timeout_ms_

/-- The constructor `GraphOptions()`. -/
def new : GraphOptions :=
  set_graph_source DSE_GRAPH_DEFAULT_SOURCE
    (set_graph_language DSE_GRAPH_DEFAULT_LANGUAGE
      { payload_ := cass_custom_payload_new
        graph_language_ := []
        graph_name_ := []
        graph_source_ := []
        read_consistency_ := CassConsistency.CASS_CONSISTENCY_UNKNOWN
        write_consistency_ := CassConsistency.CASS_CONSISTENCY_UNKNOWN
        request_timeout_ms_ := 0 })

end GraphOptions

/-! ## GraphStatement -/

/-- State of a `GraphStatement`. -/
structure GraphStatement where
  query_ : Buf
  graph_source_ : Buf
  wrapped_ : CassStatement
  deriving DecidableEq, Repr

namespace GraphStatement

/-- The constructor `GraphStatement(query, length, options)`; `options` is
`none` for a NULL pointer. -/
def new (query : Buf) (length : Nat) (options : Option GraphOptions) : GraphStatement :=
  let wrapped := cass_statement_new_n query length 0
  match options with
  | some options =>
    let wrapped := cass_statement_set_custom_payload wrapped options.payload
    let wrapped := cass_statement_set_request_timeout wrapped
      (toUInt64 options.request_timeout_ms)
    { query_ := query.take length, graph_source_ := options.graph_source, wrapped_ := wrapped }
  | none =>
    let default_options := GraphOptions.new
    let wrapped := cass_statement_set_custom_payload wrapped default_options.payload
    let wrapped := cass_statement_set_request_timeout wrapped
      (toUInt64 default_options.request_timeout_ms)
    { query_ := query.take length, graph_source_ := default_options.graph_source,
      wrapped_ := wrapped }

/-- The method `graph_source()`. -/
def graph_source (s : GraphStatement) : Buf := s.graph_source_

/-- The method `wrapped()`. -/
def wrapped (s : GraphStatement) : CassStatement := s.wrapped_

/-- The method `bind_values(values)`; `values` is `none` for a NULL pointer.
The result is the status code and the statement afterwards. -/
def bind_values (values : Option GraphWriter) (s : GraphStatement) :
    CassError × GraphStatement :=
  match values with
  | some values =>
    let wrapped := cass_statement_reset_parameters s.wrapped_ 1
    let r := cass_statement_bind_string_n wrapped 0 (GraphWriter.data values)
      (GraphWriter.length values)
    (r.1, { s with wrapped_ := r.2 })
  | none =>
    let wrapped := cass_statement_reset_parameters s.wrapped_ 0
    (CassError.CASS_OK, { s with wrapped_ := wrapped })

end GraphStatement

/-! ## GraphOptions: the consistency setters, sequences of setter calls -/

/-- Modelled from the spec: the consistency-to-string function
`cass_consistency_string` of the driver, which is not among the sources: the
"canonical string name" of a consistency level. -/
def cass_consistency_string : CassConsistency → Buf
  | .CASS_CONSISTENCY_UNKNOWN => "UNKNOWN".toList
  | .CASS_CONSISTENCY_ANY => "ANY".toList
  | .CASS_CONSISTENCY_ONE => "ONE".toList
  | .CASS_CONSISTENCY_TWO => "TWO".toList
  | .CASS_CONSISTENCY_THREE => "THREE".toList
  | .CASS_CONSISTENCY_QUORUM => "QUORUM".toList
  | .CASS_CONSISTENCY_ALL => "ALL".toList
  | .CASS_CONSISTENCY_LOCAL_QUORUM => "LOCAL_QUORUM".toList
  | .CASS_CONSISTENCY_EACH_QUORUM => "EACH_QUORUM".toList
  | .CASS_CONSISTENCY_SERIAL => "SERIAL".toList
  | .CASS_CONSISTENCY_LOCAL_SERIAL => "LOCAL_SERIAL".toList
  | .CASS_CONSISTENCY_LOCAL_ONE => "LOCAL_ONE".toList

/-- The C function `strlen`: the number of characters before the first NUL. -/
def strlen (s : Buf) : Nat := (s.takeWhile (fun c => c.toNat ≠ 0)).length

namespace GraphOptions

/-- The method `set_graph_read_consistency(consistency)`. -/
def set_graph_read_consistency (consistency : CassConsistency) (o : GraphOptions) :
    GraphOptions :=
  let name := cass_consistency_string consistency
  { o with
    payload_ := cass_custom_payload_set_n o.payload_ DSE_GRAPH_OPTION_READ_CONSISTENCY_KEY
      (sizeofLiteral DSE_GRAPH_OPTION_READ_CONSISTENCY_KEY - 1) name (strlen name)
    read_consistency_ := consistency }

/-- The method `set_graph_write_consistency(consistency)`. -/
def set_graph_write_consistency (consistency : CassConsistency) (o : GraphOptions) :
    GraphOptions :=
  let name := cass_consistency_string consistency
  { o with
    payload_ := cass_custom_payload_set_n o.payload_ DSE_GRAPH_OPTION_WRITE_CONSISTENCY_KEY
      (sizeofLiteral DSE_GRAPH_OPTION_WRITE_CONSISTENCY_KEY - 1) name (strlen name)
    write_consistency_ := consistency }

/-- Modelled from the spec: the method `set_request_timeout_ms(timeout_ms)`,
declared in the class and defined in a file that is not among the sources.
It "writes the typed shadow field".  Of the header map the spec says that each
setter "(re)inserts the corresponding entry into the header map, replacing any
prior value for that key", and also that the timeout is "not placed in the
header map"; so the header value written for a timeout, if one is written, is
the parameter `header` (`none`: the setter leaves the header map alone).  "No
deletion of a sub-field is supported; only overwrite." -/
def set_request_timeout_ms (header : Int → Option Buf) (timeout_ms : Int) (o : GraphOptions) :
    GraphOptions :=
  { o with
    payload_ :=
      match header timeout_ms with
      | some value =>
        cass_custom_payload_set_n o.payload_ DSE_GRAPH_REQUEST_TIMEOUT
          (sizeofLiteral DSE_GRAPH_REQUEST_TIMEOUT - 1) value value.length
      | none => o.payload_
    request_timeout_ms_ := timeout_ms }

end GraphOptions

/-- One call of a setter of `GraphOptions`: the six setters of the class. -/
inductive Setter where
  | set_graph_language (graph_language : Buf)
  | set_graph_source (graph_source : Buf)
  | set_graph_name (graph_name : Buf)
  | set_graph_read_consistency (consistency : CassConsistency)
  | set_graph_write_consistency (consistency : CassConsistency)
  | set_request_timeout_ms (timeout_ms : Int)
  deriving DecidableEq, Repr

/-- Make one setter call; `header` is the parameter of
`set_request_timeout_ms`. -/
def Setter.apply (header : Int → Option Buf) : Setter → GraphOptions → GraphOptions
  | .set_graph_language graph_language, o => GraphOptions.set_graph_language graph_language o
  | .set_graph_source graph_source, o => GraphOptions.set_graph_source graph_source o
  | .set_graph_name graph_name, o => GraphOptions.set_graph_name graph_name o
  | .set_graph_read_consistency consistency, o =>
    GraphOptions.set_graph_read_consistency consistency o
  | .set_graph_write_consistency consistency, o =>
    GraphOptions.set_graph_write_consistency consistency o
  | .set_request_timeout_ms timeout_ms, o =>
    GraphOptions.set_request_timeout_ms header timeout_ms o

/-- The header key of a setter. -/
def Setter.key : Setter → Buf
  | .set_graph_language _ => DSE_GRAPH_OPTION_LANGUAGE_KEY
  | .set_graph_source _ => DSE_GRAPH_OPTION_SOURCE_KEY
  | .set_graph_name _ => DSE_GRAPH_OPTION_NAME_KEY
  | .set_graph_read_consistency _ => DSE_GRAPH_OPTION_READ_CONSISTENCY_KEY
  | .set_graph_write_consistency _ => DSE_GRAPH_OPTION_WRITE_CONSISTENCY_KEY
  | .set_request_timeout_ms _ => DSE_GRAPH_REQUEST_TIMEOUT

/-- Make a sequence of setter calls, the first of the list first. -/
def runSetters (header : Int → Option Buf) : List Setter → GraphOptions → GraphOptions
  | [], o => o
  | c :: cs, o => runSetters header cs (c.apply header o)

/-- The number of entries the header map holds for a key. -/
def CassCustomPayload.count (payload : CassCustomPayload) (name : Buf) : Nat :=
  List.countP (fun item => decide (item.1 = name)) payload

/-! ## GraphStatement: the timestamp, the collaborator as a parameter -/

/-- Modelled from the spec: `cass_statement_set_timestamp`, the set-timestamp
operation of the execution collaborator: records the write timestamp on the
request. -/
def cass_statement_set_timestamp (statement : CassStatement) (timestamp : Int) :
    CassError × CassStatement :=
  (CassError.CASS_OK, { statement with timestamp := some timestamp })

/-- The method `GraphStatement::set_timestamp(timestamp)`.  The result is the
status code and the statement afterwards. -/
def GraphStatement.set_timestamp (timestamp : Int) (s : GraphStatement) :
    CassError × GraphStatement :=
  let r := cass_statement_set_timestamp s.wrapped_ timestamp
  (r.1, { s with wrapped_ := r.2 })

/-- The operations of the execution collaborator that `bind_values` and
`set_timestamp` call, taken as parameters: any behaviour and any status code. -/
structure Collaborator where
  reset_parameters : CassStatement → Nat → CassStatement
  bind_string_n : CassStatement → Nat → Buf → Nat → CassError × CassStatement
  set_timestamp : CassStatement → Int → CassError × CassStatement

/-- The collaborator as modelled above. -/
def Collaborator.driver : Collaborator :=
  { reset_parameters := cass_statement_reset_parameters
    bind_string_n := cass_statement_bind_string_n
    set_timestamp := cass_statement_set_timestamp }

/-- The method `bind_values(values)` over any collaborator. -/
def GraphStatement.bind_values_on (c : Collaborator) (values : Option GraphWriter)
    (s : GraphStatement) : CassError × GraphStatement :=
  match values with
  | some values =>
    let wrapped := c.reset_parameters s.wrapped_ 1
    let r := c.bind_string_n wrapped 0 (GraphWriter.data values) (GraphWriter.length values)
    (r.1, { s with wrapped_ := r.2 })
  | none =>
    let wrapped := c.reset_parameters s.wrapped_ 0
    (CassError.CASS_OK, { s with wrapped_ := wrapped })

/-- The method `set_timestamp(timestamp)` over any collaborator. -/
def GraphStatement.set_timestamp_on (c : Collaborator) (timestamp : Int) (s : GraphStatement) :
    CassError × GraphStatement :=
  let r := c.set_timestamp s.wrapped_ timestamp
  (r.1, { s with wrapped_ := r.2 })

/-! ## GraphOptions: objects in memory, clone -/

/-- A `GraphOptions` object in memory.  The member `payload_` is a pointer
(`CassCustomPayload* payload_`): here the address of a header map.  The other
members are held in the object. -/
structure OptionsObject where
  payload_ : Nat
  graph_language_ : Buf
  graph_name_ : Buf
  graph_source_ : Buf
  read_consistency_ : CassConsistency
  write_consistency_ : CassConsistency
  request_timeout_ms_ : Int
  deriving DecidableEq, Repr

/-- The memory: the header maps and the `GraphOptions` objects, each at the
address that is its position in the list.  Two objects may point to the same
header map. -/
structure Memory where
  payloads : List CassCustomPayload
  objects : List OptionsObject
  deriving DecidableEq, Repr

/-- The state of an object whose pointer leads to the header map `payload`. -/
def OptionsObject.view (object : OptionsObject) (payload : CassCustomPayload) : GraphOptions :=
  { payload_ := payload
    graph_language_ := object.graph_language_
    graph_name_ := object.graph_name_
    graph_source_ := object.graph_source_
    read_consistency_ := object.read_consistency_
    write_consistency_ := object.write_consistency_
    request_timeout_ms_ := object.request_timeout_ms_ }

/-- The object with the typed fields of `o` and a pointer to the header map at
`address`. -/
def OptionsObject.store (address : Nat) (o : GraphOptions) : OptionsObject :=
  { payload_ := address
    graph_language_ := o.graph_language_
    graph_name_ := o.graph_name_
    graph_source_ := o.graph_source_
    read_consistency_ := o.read_consistency_
    write_consistency_ := o.write_consistency_
    request_timeout_ms_ := o.request_timeout_ms_ }

/-- The address of the header map of the object at address `p`. -/
def Memory.payloadOf (m : Memory) (p : Nat) : Option Nat :=
  m.objects[p]?.map (fun object => object.payload_)

/-- The state of the object at address `p`: its typed fields and the header
map its pointer leads to. -/
def Memory.read (m : Memory) (p : Nat) : Option GraphOptions :=
  match m.objects[p]? with
  | none => none
  | some object =>
    match m.payloads[object.payload_]? with
    | none => none
    | some payload => some (object.view payload)

/-- A setter is called on the object at address `p`: it changes the header map
the object points to, in place, and the typed fields of the object.  There is
nothing to call at an address that holds no object. -/
def Memory.call (header : Int → Option Buf) (m : Memory) (p : Nat) (c : Setter) : Memory :=
  match m.objects[p]? with
  | none => m
  | some object =>
    match m.payloads[object.payload_]? with
    | none => m
    | some payload =>
      { payloads := m.payloads.set object.payload_ (c.apply header (object.view payload)).payload_
        objects := m.objects.set p
          (OptionsObject.store object.payload_ (c.apply header (object.view payload))) }

/-- A sequence of setter calls on the object at address `p`. -/
def Memory.calls (header : Int → Option Buf) (m : Memory) (p : Nat) : List Setter → Memory
  | [] => m
  | c :: cs => Memory.calls header (m.call header p c) p cs

/-- Modelled from the spec: the header map of a clone: "new header map, new
owned buffers": a map made with `cass_custom_payload_new` and filled, entry by
entry, with `cass_custom_payload_set_n`. -/
def copy_payload (payload : CassCustomPayload) : CassCustomPayload :=
  payload.foldl
    (fun copy item => cass_custom_payload_set_n copy item.1 item.1.length item.2 item.2.length)
    cass_custom_payload_new

/-- Modelled from the spec: the state of the object `clone()` returns (the
method is declared in the class and defined in a file that is not among the
sources): "clone performs a full independent copy (new header map, new owned
buffers)". -/
def GraphOptions.clone (o : GraphOptions) : GraphOptions :=
  { payload_ := copy_payload o.payload_
    graph_language_ := o.graph_language_
    graph_name_ := o.graph_name_
    graph_source_ := o.graph_source_
    read_consistency_ := o.read_consistency_
    write_consistency_ := o.write_consistency_
    request_timeout_ms_ := o.request_timeout_ms_ }

/-- Modelled from the spec: `clone()` called on the object at address `p`: a
new header map and a new object that points to it are allocated; the result is
the address of the new object and the memory afterwards. -/
def Memory.clone (m : Memory) (p : Nat) : Option (Nat × Memory) :=
  match m.read p with
  | none => none
  | some o =>
    some (m.objects.length,
      { payloads := m.payloads ++ [(GraphOptions.clone o).payload_]
        objects := m.objects ++ [OptionsObject.store m.payloads.length (GraphOptions.clone o)] })

/-! ## GraphResult and GraphResultSet -/

/-- Modelled from the spec: `GraphResult`, the JSON value class of the library
(`typedef json::Value GraphResult`; the class is not among the sources): "a
recursive, tagged-union value: {null, boolean, integer, float, string,
array-of-Result, object-of-(key, Result) pairs with insertion order
preserved}".  A float is given by its digits. -/
inductive GraphResult where
  | null
  | boolean (value : Bool)
  | integer (value : Int)
  | float (digits : Buf)
  | string (value : Buf)
  | array (elements : List GraphResult)
  | object (members : List (Buf × GraphResult))

/-- Modelled from the spec: the tags `type` reports (the tests name
`DSE_GRAPH_RESULT_TYPE_OBJECT` and `DSE_GRAPH_RESULT_TYPE_ARRAY`; the enum is
in the driver header, not among the sources).  An integer and a float are both
a JSON number. -/
inductive DseGraphResultType where
  | DSE_GRAPH_RESULT_TYPE_NULL
  | DSE_GRAPH_RESULT_TYPE_BOOL
  | DSE_GRAPH_RESULT_TYPE_NUMBER
  | DSE_GRAPH_RESULT_TYPE_STRING
  | DSE_GRAPH_RESULT_TYPE_OBJECT
  | DSE_GRAPH_RESULT_TYPE_ARRAY
  deriving DecidableEq, Repr

namespace GraphResult

/-- Modelled from the spec: "`type` reports the tagged variant". -/
def type : GraphResult → DseGraphResultType
  | .null => .DSE_GRAPH_RESULT_TYPE_NULL
  | .boolean _ => .DSE_GRAPH_RESULT_TYPE_BOOL
  | .integer _ => .DSE_GRAPH_RESULT_TYPE_NUMBER
  | .float _ => .DSE_GRAPH_RESULT_TYPE_NUMBER
  | .string _ => .DSE_GRAPH_RESULT_TYPE_STRING
  | .array _ => .DSE_GRAPH_RESULT_TYPE_ARRAY
  | .object _ => .DSE_GRAPH_RESULT_TYPE_OBJECT

/-- Modelled from the spec: `member_count`, the number of entries of an
object; there is none for another variant. -/
def member_count : GraphResult → Option Nat
  | .object members => some members.length
  | _ => none

/-- Modelled from the spec: `key(i)`, the key of entry `i` of an object, "in
their original insertion order". -/
def key : GraphResult → Nat → Option Buf
  | .object members, i => members[i]?.map Prod.fst
  | _, _ => none

/-- Modelled from the spec: `member(i)`, the value of entry `i` of an object,
"in their original insertion order". -/
def member : GraphResult → Nat → Option GraphResult
  | .object members, i => members[i]?.map Prod.snd
  | _, _ => none

/-- Modelled from the spec: the number of elements of an array. -/
def element_count : GraphResult → Option Nat
  | .array elements => some elements.length
  | _ => none

/-- Modelled from the spec: "`element(i)` indexes an array". -/
def element : GraphResult → Nat → Option GraphResult
  | .array elements, i => elements[i]?
  | _, _ => none

/-- Modelled from the spec: the value an object holds under a well-known key
("a `label` key, a `properties` key"): the first entry with that key. -/
def find_member : GraphResult → Buf → Option GraphResult
  | .object members, name => (List.find? (fun entry => decide (entry.1 = name)) members).map Prod.snd
  | _, _ => none

/-- Modelled from the spec: the label of a graph element, the value under the
key "label". -/
def label (r : GraphResult) : Option GraphResult := r.find_member "label".toList

/-- Modelled from the spec: the properties of a graph element, the value under
the key "properties". -/
def properties (r : GraphResult) : Option GraphResult := r.find_member "properties".toList

end GraphResult

/-- The graph-element row with label `L` and one property `P` whose array has
the one element with the members "id" (`I`) and "value" (`V`), in that order. -/
def graphElementRow (L : GraphResult) (P : Buf) (I V : GraphResult) : GraphResult :=
  .object [("label".toList, L),
    ("properties".toList,
      .object [(P, .array [.object [("id".toList, I), ("value".toList, V)]])])]

/-! ## The JSON text of a row and the JSON parser -/

mutual
/-- The JSON text of a value, without whitespace: what the JSON writer writes
for it (`WriteNull`, `WriteBool`, `WriteInt`, `WriteString`); a float is
written by its digits, the elements of an array and the members of an object
in their order. -/
def GraphResult.text : GraphResult → Buf
  | .null => WriteNull
  | .boolean value => WriteBool value
  | .integer value => WriteInt value
  | .float digits => digits
  | .string value => WriteString value
  | .array elements => '[' :: GraphResult.elementsText elements ++ [']']
  | .object members => '{' :: GraphResult.membersText members ++ ['}']
/-- The JSON text of the elements of an array, separated by commas. -/
def GraphResult.elementsText : List GraphResult → Buf
  | [] => []
  | [element] => element.text
  | element :: next :: elements =>
    element.text ++ ',' :: GraphResult.elementsText (next :: elements)
/-- The JSON text of the members of an object, separated by commas. -/
def GraphResult.membersText : List (Buf × GraphResult) → Buf
  | [] => []
  | [(key, value)] => WriteString key ++ ':' :: value.text
  | (key, value) :: next :: members =>
    WriteString key ++ ':' :: value.text ++ ',' :: GraphResult.membersText (next :: members)
end

/-- Modelled from the spec: JSON whitespace: space, line feed, carriage return
and tab. -/
def isWhitespace (c : Char) : Bool :=
  c.toNat = 0x20 ∨ c.toNat = 0x0A ∨ c.toNat = 0x0D ∨ c.toNat = 0x09

/-- Modelled from the spec: `SkipWhitespace` of the JSON reader (the reader is
part of the JSON library and not among the sources). -/
def SkipWhitespace (input : Buf) : Buf := input.dropWhile isWhitespace

/-- Modelled from the spec: the rest of a literal name (`null`, `true`,
`false`) is read: the input has to go on with `literal`. -/
def expectLiteral (literal input : Buf) : Option Buf :=
  if input.take literal.length = literal then some (input.drop literal.length) else none

/-- Modelled from the spec: the character a JSON escape stands for, given the
character after the backslash; `u` is read by `ParseUnicode`. -/
def unescape (e : Char) : Option Char :=
  if e = quoteChar then some quoteChar
  else if e = backslashChar then some backslashChar
  else if e = '/' then some '/'
  else if e = 'b' then some (Char.ofNat 0x08)
  else if e = 'f' then some (Char.ofNat 0x0C)
  else if e = 'n' then some (Char.ofNat 0x0A)
  else if e = 'r' then some (Char.ofNat 0x0D)
  else if e = 't' then some (Char.ofNat 0x09)
  else none

/-- The value of a hexadecimal digit. -/
def hexValue (c : Char) : Option Nat :=
  if '0'.toNat ≤ c.toNat ∧ c.toNat ≤ '9'.toNat then some (c.toNat - '0'.toNat)
  else if 'A'.toNat ≤ c.toNat ∧ c.toNat ≤ 'F'.toNat then some (c.toNat - 'A'.toNat + 10)
  else if 'a'.toNat ≤ c.toNat ∧ c.toNat ≤ 'f'.toNat then some (c.toNat - 'a'.toNat + 10)
  else none

/-- Modelled from the spec: `ParseHex4` of the JSON reader: the code unit
given by four hexadecimal digits. -/
def ParseHex4 (h1 h2 h3 h4 : Char) : Option Nat :=
  match hexValue h1, hexValue h2, hexValue h3, hexValue h4 with
  | some d1, some d2, some d3, some d4 => some (((d1 * 16 + d2) * 16 + d3) * 16 + d4)
  | _, _, _, _ => none

/-- Modelled from the spec: the bytes of a code point in UTF-8, the encoding
of the scratch document. -/
def Encode (codepoint : Nat) : Buf :=
  if codepoint < 0x80 then [Char.ofNat codepoint]
  else if codepoint < 0x800 then
    [Char.ofNat (0xC0 + codepoint / 0x40), Char.ofNat (0x80 + codepoint % 0x40)]
  else if codepoint < 0x10000 then
    [Char.ofNat (0xE0 + codepoint / 0x1000), Char.ofNat (0x80 + codepoint / 0x40 % 0x40),
      Char.ofNat (0x80 + codepoint % 0x40)]
  else
    [Char.ofNat (0xF0 + codepoint / 0x40000), Char.ofNat (0x80 + codepoint / 0x1000 % 0x40),
      Char.ofNat (0x80 + codepoint / 0x40 % 0x40), Char.ofNat (0x80 + codepoint % 0x40)]

/-- The characters `front` are put before the string a parser returns. -/
def prepend (front : Buf) (parsed : Option (Buf × Buf)) : Option (Buf × Buf) :=
  parsed.map (fun p => (front ++ p.1, p.2))

/-- Modelled from the spec: the second half of a surrogate pair: a `\u`
escape with a code unit from DC00 to DFFF has to follow. -/
def ParseSurrogate (codepoint : Nat) : Buf → Option (Buf × Buf)
  | b :: u :: l1 :: l2 :: l3 :: l4 :: rest =>
    if b = backslashChar ∧ u = 'u' then
      match ParseHex4 l1 l2 l3 l4 with
      | none => none
      | some codepoint2 =>
        if 0xDC00 ≤ codepoint2 ∧ codepoint2 ≤ 0xDFFF then
          some (Encode ((codepoint - 0xD800) * 0x400 + (codepoint2 - 0xDC00) + 0x10000), rest)
        else none
    else none
  | _ => none

/-- Modelled from the spec: a `\u` escape, read after the `u`: four
hexadecimal digits, and the second half when they are the first half of a
surrogate pair. -/
def ParseUnicode : Buf → Option (Buf × Buf)
  | h1 :: h2 :: h3 :: h4 :: rest =>
    match ParseHex4 h1 h2 h3 h4 with
    | none => none
    | some codepoint =>
      if 0xD800 ≤ codepoint ∧ codepoint ≤ 0xDBFF then ParseSurrogate codepoint rest
      else some (Encode codepoint, rest)
  | _ => none

/-- Modelled from the spec: an escape of a JSON string, read after the
backslash: the characters it stands for and the remaining input. -/
def ParseEscape : Buf → Option (Buf × Buf)
  | [] => none
  | e :: rest =>
    if e = 'u' then ParseUnicode rest
    else
      match unescape e with
      | none => none
      | some d => some ([d], rest)

/-- Modelled from the spec: `ParseString` of the JSON reader, after the
opening quote: the characters up to the closing quote, escapes resolved, and
the input after the closing quote.  A control character that is not escaped is
malformed.  One unit of fuel is used for each character or escape read. -/
def ParseString : Nat → Buf → Option (Buf × Buf)
  | 0, _ => none
  | _ + 1, [] => none
  | fuel + 1, c :: rest =>
    if c = quoteChar then some ([], rest)
    else if c = backslashChar then
      match ParseEscape rest with
      | none => none
      | some (bytes, rest1) => prepend bytes (ParseString fuel rest1)
    else if c.toNat < 0x20 then none
    else prepend [c] (ParseString fuel rest)

/-- The characters a JSON number is made of: digits, signs, the decimal point
and the exponent mark. -/
def isNumberChar (c : Char) : Bool :=
  c.isDigit || c == '-' || c == '+' || c == '.' || c == 'e' || c == 'E'

/-- The number a sequence of decimal digits stands for. -/
def digitsValue (digits : Buf) : Nat :=
  digits.foldl (fun value c => value * 10 + (c.toNat - '0'.toNat)) 0

/-- One decimal digit or more. -/
def isDigits (s : Buf) : Bool := !s.isEmpty && s.all Char.isDigit

/-- The integer part of a JSON number: `0`, or digits that do not start with
`0`. -/
def isIntegerPart (s : Buf) : Bool :=
  match s with
  | [] => false
  | c :: rest => c.isDigit && rest.all Char.isDigit && (c != '0' || rest.isEmpty)

/-- The exponent of a JSON number, after the exponent mark: a sign or none,
then digits. -/
def isExponent (s : Buf) : Bool :=
  match s with
  | [] => false
  | c :: rest => if c = '+' ∨ c = '-' then isDigits rest else isDigits (c :: rest)

/-- What follows the integer part of a JSON number that is no integer: a
fraction, an exponent, or a fraction and an exponent. -/
def isFraction (s : Buf) : Bool :=
  match s with
  | [] => true
  | c :: rest =>
    if c = '.' then
      isDigits (rest.takeWhile Char.isDigit) &&
        (match rest.dropWhile Char.isDigit with
          | [] => true
          | e :: exponent => (e == 'e' || e == 'E') && isExponent exponent)
    else (c == 'e' || c == 'E') && isExponent rest

/-- Modelled from the spec: the value of a JSON number without its sign
(`body`): an integer when there is neither fraction nor exponent and the value
fits 64 bits (signed for a negative number, unsigned otherwise), a float
otherwise, given by its digits. -/
def numberOf (minus : Bool) (body lexeme : Buf) : Option GraphResult :=
  if isIntegerPart (body.takeWhile Char.isDigit) then
    match body.dropWhile Char.isDigit with
    | [] =>
      if minus then
        if digitsValue (body.takeWhile Char.isDigit) ≤ 2 ^ 63 then
          some (.integer (-(digitsValue (body.takeWhile Char.isDigit) : Int)))
        else some (.float lexeme)
      else
        if digitsValue (body.takeWhile Char.isDigit) < 2 ^ 64 then
          some (.integer (digitsValue (body.takeWhile Char.isDigit)))
        else some (.float lexeme)
    | c :: tail => if isFraction (c :: tail) then some (.float lexeme) else none
  else none

/-- Modelled from the spec: the value of the text of a JSON number; there is
none for a text that is no JSON number. -/
def classifyNumber (lexeme : Buf) : Option GraphResult :=
  match lexeme with
  | [] => none
  | c :: body => if c = '-' then numberOf true body lexeme else numberOf false lexeme lexeme

/-- Modelled from the spec: `ParseNumber` of the JSON reader: the number is
the longest run of number characters at the start of the input, and that run
has to be a JSON number. -/
def ParseNumber (input : Buf) : Option (GraphResult × Buf) :=
  (classifyNumber (input.takeWhile isNumberChar)).map
    (fun value => (value, input.dropWhile isNumberChar))

mutual
/-- Modelled from the spec: `ParseValue` of the JSON reader: the value at the
start of the input, after whitespace, and the remaining input; `none` is
malformed JSON.  The fuel bounds the recursion. -/
def ParseValue : Nat → Buf → Option (GraphResult × Buf)
  | 0, _ => none
  | fuel + 1, input =>
    match SkipWhitespace input with
    | [] => none
    | c :: rest =>
      if c = 'n' then (expectLiteral ['u', 'l', 'l'] rest).map (fun r => (.null, r))
      else if c = 't' then (expectLiteral ['r', 'u', 'e'] rest).map (fun r => (.boolean true, r))
      else if c = 'f' then
        (expectLiteral ['a', 'l', 's', 'e'] rest).map (fun r => (.boolean false, r))
      else if c = quoteChar then
        (ParseString rest.length rest).map (fun p => (.string p.1, p.2))
      else if c = '[' then
        match SkipWhitespace rest with
        | [] => none
        | d :: rest1 =>
          if d = ']' then some (.array [], rest1)
          else (ParseArray fuel (d :: rest1)).map (fun p => (.array p.1, p.2))
      else if c = '{' then
        match SkipWhitespace rest with
        | [] => none
        | d :: rest1 =>
          if d = '}' then some (.object [], rest1)
          else (ParseObject fuel (d :: rest1)).map (fun p => (.object p.1, p.2))
      else ParseNumber (c :: rest)
/-- Modelled from the spec: `ParseArray` of the JSON reader, after the opening
bracket of an array that is not empty: the elements in their order, up to the
closing bracket. -/
def ParseArray : Nat → Buf → Option (List GraphResult × Buf)
  | 0, _ => none
  | fuel + 1, input =>
    match ParseValue fuel input with
    | none => none
    | some (element, rest) =>
      match SkipWhitespace rest with
      | [] => none
      | c :: rest1 =>
        if c = ',' then (ParseArray fuel rest1).map (fun p => (element :: p.1, p.2))
        else if c = ']' then some ([element], rest1)
        else none
/-- Modelled from the spec: `ParseObject` of the JSON reader, after the
opening brace of an object that is not empty: the members, each a key, a colon
and a value, in their order, up to the closing brace.  A member is added after
those read before it, also when its key is there already. -/
def ParseObject : Nat → Buf → Option (List (Buf × GraphResult) × Buf)
  | 0, _ => none
  | fuel + 1, input =>
    match SkipWhitespace input with
    | [] => none
    | q :: rest =>
      if q = quoteChar then
        match ParseString rest.length rest with
        | none => none
        | some (key, rest1) =>
          match SkipWhitespace rest1 with
          | [] => none
          | colon :: rest2 =>
            if colon = ':' then
              match ParseValue fuel rest2 with
              | none => none
              | some (value, rest3) =>
                match SkipWhitespace rest3 with
                | [] => none
                | c :: rest4 =>
                  if c = ',' then
                    (ParseObject fuel rest4).map (fun p => ((key, value) :: p.1, p.2))
                  else if c = '}' then some ([(key, value)], rest4)
                  else none
            else none
      else none
end

/-- Modelled from the spec: `Parse` of the scratch document: "parses the
current row's raw value into the scratch document": the one value of the
input, with nothing but whitespace after it.  The fuel is the length of the
input. -/
def Parse (input : Buf) : Option GraphResult :=
  match ParseValue input.length input with
  | none => none
  | some (value, rest) => if SkipWhitespace rest = [] then some value else none

/-- The digits of a float node: number characters that form a JSON number
which is not read as an integer. -/
def isFloatLexeme (digits : Buf) : Bool :=
  digits.all isNumberChar &&
    (match classifyNumber digits with
      | some (.float _) => true
      | _ => false)

mutual
/-- The values a JSON text stands for: an integer fits 64 bits (signed or
unsigned), a float is given by the digits of a JSON number with a fraction or
an exponent (or an integer beyond 64 bits); the same holds for the elements of
an array and the members of an object. -/
def GraphResult.wellFormed : GraphResult → Bool
  | .null => true
  | .boolean _ => true
  | .integer value => decide (-2 ^ 63 ≤ value ∧ value < 2 ^ 64)
  | .float digits => isFloatLexeme digits
  | .string _ => true
  | .array elements => GraphResult.elementsWellFormed elements
  | .object members => GraphResult.membersWellFormed members
/-- Every element of an array is well formed. -/
def GraphResult.elementsWellFormed : List GraphResult → Bool
  | [] => true
  | element :: elements => element.wellFormed && GraphResult.elementsWellFormed elements
/-- The value of every member of an object is well formed. -/
def GraphResult.membersWellFormed : List (Buf × GraphResult) → Bool
  | [] => true
  | (_, value) :: members => value.wellFormed && GraphResult.membersWellFormed members
end

/-- What follows a number in the input ends the number: the input ends, or
goes on with a character that is not part of a number. -/
def endsNumber (rest : Buf) : Prop := ∀ c ∈ rest.head?, isNumberChar c = false

/-- The parser reads the text of the value `v` back: for every input that
starts with the text, and with fuel for the length of the text, it returns `v`
and the remaining input. -/
def ReadsBack (v : GraphResult) : Prop :=
  ∀ (rest : Buf) (fuel : Nat), endsNumber rest → v.text.length ≤ fuel →
    ParseValue fuel (v.text ++ rest) = some (v, rest)

/-- State of a `GraphResultSet`: the result handle `result_`, given by the raw
values of its rows, and the row iterator `rows_`, given by the number of rows
it has passed. -/
structure GraphResultSet where
  result_ : List Buf
  rows_ : Nat

/-- What `next()` signals. -/
inductive NextResult where
  | row (result : GraphResult)
  | end_of_sequence
  | decode_error

namespace GraphResultSet

/-- The constructor `GraphResultSet(result)`: an iterator before the first row. -/
def new (result : List Buf) : GraphResultSet := { result_ := result, rows_ := 0 }

/-- The method `count()`, the row count of the result handle. -/
def count (rs : GraphResultSet) : Nat := rs.result_.length

/-- Modelled from the spec: the method `next()`, declared in the class and
defined in a file that is not among the sources: "advances the row iterator;
if no more rows, signals end-of-sequence"; "on success, parses the current
row's raw value into the scratch document and returns a view rooted at the
row's top-level value"; "malformed JSON from the server is a fatal decode
error for that row". -/
def next (rs : GraphResultSet) : NextResult × GraphResultSet :=
  match rs.result_[rs.rows_]? with
  | none => (NextResult.end_of_sequence, rs)
  | some raw =>
    match Parse raw with
    | some result => (NextResult.row result, { rs with rows_ := rs.rows_ + 1 })
    | none => (NextResult.decode_error, { rs with rows_ := rs.rows_ + 1 })

end GraphResultSet

/-! ## The date range codec -/

/-- One byte of a binary blob (`Bytes`). -/
abbrev Byte := Fin 256

/-- The byte with the value `n` modulo 256. -/
def toByte (n : Nat) : Byte := ⟨n % 256, Nat.mod_lt n (by decide)⟩

/-- Modelled from the spec: the precision of a bound, "one of YEAR, MONTH,
DAY, HOUR, MINUTE, SECOND, MILLISECOND". -/
inductive DseDateRangePrecision where
  | YEAR
  | MONTH
  | DAY
  | HOUR
  | MINUTE
  | SECOND
  | MILLISECOND
  deriving DecidableEq, Repr

/-- Modelled from the spec: one bound of a range: its precision and a signed
64-bit count of milliseconds since the epoch. -/
structure DseDateRangeBound where
  precision : DseDateRangePrecision
  time_ms : Int
  deriving DecidableEq, Repr

/-- Modelled from the spec: the four kinds of range the leading tag byte
identifies: "{single instant, open-start interval, open-end interval, closed
interval}". -/
inductive DateRangeKind where
  | single
  | open_start
  | open_end
  | closed
  deriving DecidableEq, Repr

/-- Modelled from the spec: the value `DseDateRange` that `write_date_range`
takes (the struct is declared in a header that is not among the sources): "a
single instant or a bound/unbound interval with a precision tag per bound".
An open-start interval has only its upper bound, an open-end interval only its
lower bound. -/
inductive DseDateRange where
  | single (bound : DseDateRangeBound)
  | open_start (upper_bound : DseDateRangeBound)
  | open_end (lower_bound : DseDateRangeBound)
  | closed (lower_bound upper_bound : DseDateRangeBound)
  deriving DecidableEq, Repr

/-- The kind of a range. -/
def DseDateRange.kind : DseDateRange → DateRangeKind
  | .single _ => .single
  | .open_start _ => .open_start
  | .open_end _ => .open_end
  | .closed _ _ => .closed

/-- The bounds of a range, the lower one first. -/
def DseDateRange.bounds : DseDateRange → List DseDateRangeBound
  | .single bound => [bound]
  | .open_start upper_bound => [upper_bound]
  | .open_end lower_bound => [lower_bound]
  | .closed lower_bound upper_bound => [lower_bound, upper_bound]

/-- The number of bounds a range of the given kind has. -/
def DateRangeKind.boundCount : DateRangeKind → Nat
  | .single => 1
  | .open_start => 1
  | .open_end => 1
  | .closed => 2

/-- The length of the blob of a range of the given kind: the tag byte and,
for each bound, a precision byte and eight bytes of time. -/
def DateRangeKind.length (k : DateRangeKind) : Nat := 1 + 9 * k.boundCount

/-- The times of a range are 64-bit signed integers. -/
def DseDateRange.inRange (r : DseDateRange) : Prop :=
  ∀ b ∈ r.bounds, -2 ^ 63 ≤ b.time_ms ∧ b.time_ms < 2 ^ 63

/-- Modelled from the spec: the tag bytes of the binary layout.  The spec
names the tags and gives them no values, so the values are parameters: any
assignment of different bytes to the four kinds and to the seven precisions. -/
structure DateRangeLayout where
  kindTag : DateRangeKind → Byte
  precisionTag : DseDateRangePrecision → Byte
  kindTag_injective : ∀ a b, kindTag a = kindTag b → a = b
  precisionTag_injective : ∀ a b, precisionTag a = precisionTag b → a = b

/-- Modelled from the spec: "a fixed 64-bit signed integer": the eight bytes
of the two's complement of `v`, the most significant byte first. -/
def encode_int64 (v : Int) : List Byte :=
  let u := (v % 2 ^ 64).toNat
  [toByte (u / 2 ^ 56), toByte (u / 2 ^ 48), toByte (u / 2 ^ 40), toByte (u / 2 ^ 32),
   toByte (u / 2 ^ 24), toByte (u / 2 ^ 16), toByte (u / 2 ^ 8), toByte u]

/-- Modelled from the spec: the signed 64-bit integer that eight bytes hold,
the most significant byte first; nothing for another number of bytes. -/
def decode_int64 : List Byte → Option Int
  | [b0, b1, b2, b3, b4, b5, b6, b7] =>
    let u : Nat := b0.val * 2 ^ 56 + b1.val * 2 ^ 48 + b2.val * 2 ^ 40 + b3.val * 2 ^ 32 +
      b4.val * 2 ^ 24 + b5.val * 2 ^ 16 + b6.val * 2 ^ 8 + b7.val
    some (if u < 2 ^ 63 then (u : Int) else (u : Int) - 2 ^ 64)
  | _ => none

/-- Modelled from the spec: the bytes of a bound in the binary layout: "a
precision-tag byte ... followed by a fixed 64-bit signed integer count of
milliseconds-since-epoch". -/
def write_bound (layout : DateRangeLayout) (bound : DseDateRangeBound) : List Byte :=
  layout.precisionTag bound.precision :: encode_int64 bound.time_ms

/-- Modelled from the spec: the bytes of a range in the binary layout: "a
leading tag byte identifying {single instant, open-start interval, open-end
interval, closed interval}", then each present bound. -/
def write_date_range (layout : DateRangeLayout) (range : DseDateRange) : List Byte :=
  layout.kindTag range.kind :: (range.bounds.map (write_bound layout)).flatten

/-- The kind a tag byte identifies, if any. -/
def decode_kind (layout : DateRangeLayout) (tag : Byte) : Option DateRangeKind :=
  List.find? (fun k => decide (layout.kindTag k = tag))
    [DateRangeKind.single, DateRangeKind.open_start, DateRangeKind.open_end,
     DateRangeKind.closed]

/-- The precision a precision-tag byte identifies, if any. -/
def decode_precision (layout : DateRangeLayout) (tag : Byte) : Option DseDateRangePrecision :=
  List.find? (fun p => decide (layout.precisionTag p = tag))
    [DseDateRangePrecision.YEAR, DseDateRangePrecision.MONTH, DseDateRangePrecision.DAY,
     DseDateRangePrecision.HOUR, DseDateRangePrecision.MINUTE, DseDateRangePrecision.SECOND,
     DseDateRangePrecision.MILLISECOND]

/-- Modelled from the spec: the bound that nine bytes hold: a known precision
tag and eight bytes of time. -/
def decode_bound (layout : DateRangeLayout) : List Byte → Option DseDateRangeBound
  | [] => none
  | tag :: time =>
    match decode_precision layout tag, decode_int64 time with
    | some precision, some time_ms => some { precision := precision, time_ms := time_ms }
    | _, _ => none

/-- Modelled from the spec: the "format error" of the decoder. -/
inductive DateRangeError where
  | format_error
  deriving DecidableEq, Repr

/-- Modelled from the spec: the decoder of the date range blob, which is not
among the sources: "decoding is the exact inverse; any byte length other than
the fixed valid set (single bound vs dual bound, per precision tag) is a fatal
format error"; "decoding must reject unknown tag bytes and lengths that don't
match the declared tag". -/
def decode_date_range (layout : DateRangeLayout) : List Byte →
    Except DateRangeError DseDateRange
  | [] => .error .format_error
  | tag :: rest =>
    match decode_kind layout tag with
    | none => .error .format_error
    | some kind =>
      if rest.length + 1 ≠ kind.length then .error .format_error
      else
        match kind with
        | .single =>
          match decode_bound layout rest with
          | some bound => .ok (.single bound)
          | none => .error .format_error
        | .open_start =>
          match decode_bound layout rest with
          | some bound => .ok (.open_start bound)
          | none => .error .format_error
        | .open_end =>
          match decode_bound layout rest with
          | some bound => .ok (.open_end bound)
          | none => .error .format_error
        | .closed =>
          match decode_bound layout (rest.take 9), decode_bound layout (rest.drop 9) with
          | some lower_bound, some upper_bound => .ok (.closed lower_bound upper_bound)
          | _, _ => .error .format_error

/-- A layout, for examples: the kinds are tagged 0 to 3 and the precisions 0
to 6, in the order of their declaration. -/
def DateRangeLayout.example : DateRangeLayout :=
  { kindTag := fun k =>
      match k with
      | .single => 0
      | .open_start => 1
      | .open_end => 2
      | .closed => 3
    precisionTag := fun p =>
      match p with
      | .YEAR => 0
      | .MONTH => 1
      | .DAY => 2
      | .HOUR => 3
      | .MINUTE => 4
      | .SECOND => 5
      | .MILLISECOND => 6
    kindTag_injective := by intro a b; cases a <;> cases b <;> decide
    precisionTag_injective := by intro a b; cases a <;> cases b <;> decide }

/-! ## Writing the members of an object -/

/-- A value of a member of an object: null, a boolean, a 32-bit or a 64-bit
integer, or a string. -/
inductive MemberValue where
  | null
  | bool (value : Bool)
  | int32 (value : Int)
  | int64 (value : Int)
  | string (value : Buf)
  deriving DecidableEq, Repr

/-- The call `add_*` that matches a value. -/
def MemberValue.op : MemberValue → Op
  | .null => Op.add_null
  | .bool value => Op.add_bool value
  | .int32 value => Op.add_int32 value
  | .int64 value => Op.add_int64 value
  | .string value => Op.add_string value

/-- The calls that add one pair: `add_key`, then the matching `add_*`. -/
def pairOps (pair : Buf × MemberValue) : List Op := [Op.add_key pair.1, pair.2.op]

/-- A fresh `GraphObject` on which each pair is added and which is then
finished, as `create_object` and `bind` of the tests do. -/
def writeObject (pairs : List (Buf × MemberValue)) : Option GraphWriter :=
  (GraphObject.new.bind (runOps (pairs.flatMap pairOps))).bind GraphObject.finish

/-- A string needs no JSON escaping: none of its characters is escaped. -/
def escapeFree (s : Buf) : Prop := ∀ c ∈ s, escape c = none

/-- The values as the specification names them: null, booleans, integers of
32 and of 64 bits, strings that need no escaping. -/
def MemberValue.asSpecified : MemberValue → Prop
  | .null => True
  | .bool _ => True
  | .int32 value => -2 ^ 31 ≤ value ∧ value < 2 ^ 31
  | .int64 value => -2 ^ 63 ≤ value ∧ value < 2 ^ 63
  | .string value => escapeFree value

/-- A value whose string, if it is one, has a length that fits `SizeType`. -/
def MemberValue.fitsSizeType : MemberValue → Prop
  | .string value => value.length < 2 ^ 32
  | _ => True

/-- The text the specification gives for a value: the JSON literal, the
decimal number, the string between double quotes. -/
def MemberValue.text : MemberValue → Buf
  | .null => "null".toList
  | .bool true => "true".toList
  | .bool false => "false".toList
  | .int32 value => (toString value).toList
  | .int64 value => (toString value).toList
  | .string value => [quoteChar] ++ value ++ [quoteChar]

/-- The text the specification gives for an entry: the key between double
quotes, a colon, the value. -/
def entryText (pair : Buf × MemberValue) : Buf :=
  [quoteChar] ++ pair.1 ++ [quoteChar] ++ [':'] ++ pair.2.text

/-- The text the specification gives for the object: an opening brace, the
entries in insertion order separated by commas, a closing brace. -/
def objectText (pairs : List (Buf × MemberValue)) : Buf :=
  ['{'] ++ List.intercalate [','] (pairs.map entryText) ++ ['}']

/-! ## Lemmas on the JSON writer -/

theorem Prefix_some {type : JsonType} {w p : GraphWriter} (h : Prefix type w = some p) :
    p.buffer_ = w.buffer_ ++ separator w ∧ p.hasRoot_ = (w.hasRoot_ || w.level_stack_.isEmpty) ∧
      p.level_stack_ = bump w.level_stack_ := by
  unfold Prefix at h
  cases hs : w.level_stack_ with
  | nil =>
    rw [hs] at h
    cases hr : w.hasRoot_ <;> rw [hr] at h <;> simp at h
    subst h
    simp [separator, hs, hr, bump]
  | cons level rest =>
    rw [hs] at h
    simp only at h
    split at h
    · exact absurd h (by simp)
    · simp only [Option.some.injEq] at h
      subst h
      simp [bump, hs]

theorem Prefix_complete (type : JsonType) {w : GraphWriter} (h : IsComplete w = true) :
    Prefix type w = none := by
  unfold IsComplete at h
  simp only [Bool.and_eq_true, List.isEmpty_iff] at h
  simp [Prefix, h.1, h.2]

theorem Prefix_root (type : JsonType) {w : GraphWriter} (hs : w.level_stack_ = [])
    (hr : w.hasRoot_ = false) : Prefix type w = some { w with hasRoot_ := true } := by
  simp [Prefix, hs, hr]

theorem Prefix_inArray (type : JsonType) {w : GraphWriter} {n : Nat} {rest : List Level}
    (hs : w.level_stack_ = { valueCount := n, inArray := true } :: rest) :
    Prefix type w = some { w with
      buffer_ := w.buffer_ ++ separator w
      level_stack_ := { valueCount := n + 1, inArray := true } :: rest } := by
  simp [Prefix, hs]

theorem Op.apply_eq (op : Op) (w : GraphWriter) :
    ∃ bytes : Buf, op.apply w = (Prefix op.type w).map (Put bytes) := by
  cases op <;>
    first
    | exact ⟨_, rfl⟩

theorem Op.apply_some {op : Op} {w w1 : GraphWriter} (h : op.apply w = some w1) :
    w1.level_stack_ = bump w.level_stack_ ∧
      w1.hasRoot_ = (w.hasRoot_ || w.level_stack_.isEmpty) ∧
      ∃ bytes : Buf, w1.buffer_ = w.buffer_ ++ separator w ++ bytes := by
  obtain ⟨bytes, hb⟩ := Op.apply_eq op w
  rw [hb] at h
  cases hp : Prefix op.type w with
  | none => rw [hp] at h; simp at h
  | some p =>
    rw [hp] at h
    simp only [Option.map_some', Option.some.injEq] at h
    subst h
    obtain ⟨h1, h2, h3⟩ := Prefix_some hp
    exact ⟨by simp [Put, h3], by simp [Put, h2], bytes, by simp [Put, h1]⟩

theorem Op.apply_complete (op : Op) {w : GraphWriter} (h : IsComplete w = true) :
    op.apply w = none := by
  obtain ⟨bytes, hb⟩ := Op.apply_eq op w
  rw [hb, Prefix_complete _ h]
  rfl

theorem Kind.reset_eq_new (k : Kind) (w : GraphWriter) : k.reset w = k.new := by
  cases k <;> rfl

theorem GraphObject.object_new_eq :
    GraphObject.new = some { buffer_ := ['{'], level_stack_ := [{ valueCount := 0, inArray := false }],
                             hasRoot_ := true } := rfl

theorem GraphArray.array_new_eq :
    GraphArray.new = some { buffer_ := ['['], level_stack_ := [{ valueCount := 0, inArray := true }],
                            hasRoot_ := true } := rfl

theorem Kind.inv_new {k : Kind} {w : GraphWriter} (h : k.new = some w) : k.inv w = true := by
  cases k
  · simp only [Kind.new, Option.some.injEq] at h; subst h; rfl
  · simp only [Kind.new, GraphObject.object_new_eq, Option.some.injEq] at h; subst h; rfl
  · simp only [Kind.new, GraphArray.array_new_eq, Option.some.injEq] at h; subst h; rfl

theorem Kind.inv_apply {k : Kind} {op : Op} {w w1 : GraphWriter} (hi : k.inv w = true)
    (h : op.apply w = some w1) : k.inv w1 = true := by
  obtain ⟨h1, h2, -⟩ := Op.apply_some h
  unfold Kind.inv at hi ⊢
  rw [h1, h2]
  rcases hs : w.level_stack_ with _ | ⟨level, _ | ⟨l2, rest⟩⟩ <;> rw [hs] at hi <;>
    cases k <;> simp_all [bump]

theorem Kind.inv_runOps {k : Kind} (ops : List Op) {w w1 : GraphWriter} (hi : k.inv w = true)
    (h : runOps ops w = some w1) : k.inv w1 = true := by
  induction ops generalizing w with
  | nil => simp [runOps] at h; subst h; exact hi
  | cons op ops ih =>
    simp only [runOps] at h
    cases ha : op.apply w with
    | none => rw [ha] at h; simp at h
    | some w2 =>
      rw [ha] at h
      exact ih (Kind.inv_apply hi ha) h

theorem runOps_stack (ops : List Op) {w w1 : GraphWriter} (h : runOps ops w = some w1) :
    w1.level_stack_.length = w.level_stack_.length := by
  induction ops generalizing w with
  | nil => simp [runOps] at h; subst h; rfl
  | cons op ops ih =>
    simp only [runOps] at h
    cases ha : op.apply w with
    | none => rw [ha] at h; simp at h
    | some w2 =>
      rw [ha] at h
      rw [ih h, (Op.apply_some ha).1]
      cases w.level_stack_ <;> rfl

theorem Kind.new_stack {k : Kind} {w : GraphWriter} (hk : k ≠ Kind.plain) (h : k.new = some w) :
    w.level_stack_.length = 1 := by
  cases k
  · exact absurd rfl hk
  · simp only [Kind.new, GraphObject.object_new_eq, Option.some.injEq] at h; subst h; rfl
  · simp only [Kind.new, GraphArray.array_new_eq, Option.some.injEq] at h; subst h; rfl

theorem Kind.finish_open {k : Kind} {w : GraphWriter} (hk : k ≠ Kind.plain)
    (hi : k.inv w = true) (hs : w.level_stack_ ≠ []) :
    GraphWriter.is_complete w = false ∧
      k.finish w = some { w with
        buffer_ := w.buffer_ ++ [if k = Kind.object then '}' else ']']
        level_stack_ := [] } ∧
      w.hasRoot_ = true := by
  unfold Kind.inv at hi
  rcases hl : w.level_stack_ with _ | ⟨level, _ | ⟨l2, rest⟩⟩
  · exact absurd hl hs
  · rw [hl] at hi
    cases k
    · exact absurd rfl hk
    · simp only [Bool.and_eq_true, Bool.not_eq_true'] at hi
      simp [Kind.finish, GraphObject.finish, GraphWriter.is_complete, IsComplete, hl,
        GraphWriter.end_object, EndObject, hi.1, hi.2, Put]
    · simp only [Bool.and_eq_true] at hi
      simp [Kind.finish, GraphArray.finish, GraphWriter.is_complete, IsComplete, hl,
        GraphWriter.end_array, EndArray, hi.1, hi.2, Put]
  · rw [hl] at hi
    cases k <;> simp at hi

theorem runOps_take (ops : List Op) (n : Nat) {w w1 : GraphWriter}
    (h : runOps ops w = some w1) : ∃ wn, runOps (ops.take n) w = some wn := by
  induction ops generalizing w n with
  | nil => exact ⟨w, by simp [runOps]⟩
  | cons op ops ih =>
    cases n with
    | zero => exact ⟨w, by simp [runOps]⟩
    | succ n =>
      simp only [runOps] at h
      cases ha : op.apply w with
      | none => rw [ha] at h; simp at h
      | some w2 =>
        rw [ha] at h
        obtain ⟨wn, hn⟩ := ih n h
        exact ⟨wn, by simp [runOps, ha, hn]⟩

theorem runOps_open {k : Kind} (hk : k ≠ Kind.plain) (ops : List Op) {w0 w : GraphWriter}
    (h0 : k.new = some w0) (h : runOps ops w0 = some w) :
    k.inv w = true ∧ w.level_stack_ ≠ [] := by
  refine ⟨Kind.inv_runOps ops (Kind.inv_new h0) h, ?_⟩
  have hl := runOps_stack ops h
  rw [Kind.new_stack hk h0] at hl
  intro hnil
  rw [hnil] at hl
  simp at hl

theorem runOps_plain (ops : List Op) {w : GraphWriter}
    (h : runOps ops GraphWriter.new = some w) :
    ops.length ≤ 1 ∧ GraphWriter.is_complete w = !ops.isEmpty := by
  cases ops with
  | nil => simp [runOps] at h; subst h; exact ⟨by simp, rfl⟩
  | cons op ops =>
    simp only [runOps] at h
    cases ha : op.apply GraphWriter.new with
    | none => rw [ha] at h; simp at h
    | some w2 =>
      rw [ha] at h
      obtain ⟨h1, h2, -⟩ := Op.apply_some ha
      have hc : IsComplete w2 = true := by
        simp [IsComplete, h1, h2, GraphWriter.new, bump]
      cases ops with
      | nil =>
        simp only [runOps, Option.some_bind, Option.some.injEq] at h
        subst h
        exact ⟨by simp, by simpa [GraphWriter.is_complete] using hc⟩
      | cons op2 ops =>
        have hn : Op.apply op2 w2 = none := Op.apply_complete op2 hc
        simp [runOps, hn] at h

theorem Op.apply_new (op : Op) :
    ∃ w1, op.apply GraphWriter.new = some w1 ∧ GraphWriter.is_complete w1 = true := by
  obtain ⟨bytes, hb⟩ := Op.apply_eq op GraphWriter.new
  rw [Prefix_root op.type rfl rfl] at hb
  exact ⟨_, hb, rfl⟩

theorem Kind.finish_closed {k : Kind} {w : GraphWriter} (hk : k ≠ Kind.plain)
    (hi : k.inv w = true) (hs : w.level_stack_ = []) :
    GraphWriter.is_complete w = true ∧ k.finish w = some w := by
  unfold Kind.inv at hi
  rw [hs] at hi
  cases k
  · exact absurd rfl hk
  · simp only at hi
    simp [Kind.finish, GraphObject.finish, GraphWriter.is_complete, IsComplete, hs, hi]
  · simp only at hi
    simp [Kind.finish, GraphArray.finish, GraphWriter.is_complete, IsComplete, hs, hi]

theorem Kind.finish_open_token {k : Kind} (hk : k ≠ Kind.plain) :
    [if k = Kind.object then '}' else ']'] = k.closeToken := by
  cases k
  · exact absurd rfl hk
  · rfl
  · rfl

theorem Kind.inv_finish {k : Kind} {w w1 : GraphWriter} (hi : k.inv w = true)
    (h : k.finish w = some w1) : k.inv w1 = true := by
  by_cases hk : k = Kind.plain
  · subst hk
    simp only [Kind.finish, Option.some.injEq] at h
    subst h
    exact hi
  · by_cases hs : w.level_stack_ = []
    · rw [(Kind.finish_closed hk hi hs).2] at h
      simp only [Option.some.injEq] at h
      subst h
      exact hi
    · obtain ⟨-, hf, hr⟩ := Kind.finish_open hk hi hs
      rw [hf] at h
      simp only [Option.some.injEq] at h
      subst h
      cases k
      · exact absurd rfl hk
      · simpa [Kind.inv] using hr
      · simpa [Kind.inv] using hr

theorem Kind.inv_call {k : Kind} {c : Call} {w w1 : GraphWriter} (hi : k.inv w = true)
    (h : k.call c w = some w1) : k.inv w1 = true := by
  cases c with
  | add op => exact Kind.inv_apply hi h
  | reset =>
    simp only [Kind.call, Kind.reset_eq_new] at h
    exact Kind.inv_new h
  | finish => exact Kind.inv_finish hi h

theorem Kind.inv_runFrom {k : Kind} (cs : List Call) {w w1 : GraphWriter} (hi : k.inv w = true)
    (h : k.runFrom cs w = some w1) : k.inv w1 = true := by
  induction cs generalizing w with
  | nil => simp [Kind.runFrom] at h; subst h; exact hi
  | cons c cs ih =>
    simp only [Kind.runFrom] at h
    cases ha : k.call c w with
    | none => rw [ha] at h; simp at h
    | some w2 =>
      rw [ha] at h
      exact ih (Kind.inv_call hi ha) h

theorem Kind.inv_run {k : Kind} (cs : List Call) {w : GraphWriter} (h : k.run cs = some w) :
    k.inv w = true := by
  unfold Kind.run at h
  cases h0 : k.new with
  | none => rw [h0] at h; simp at h
  | some s =>
    rw [h0] at h
    exact Kind.inv_runFrom cs (Kind.inv_new h0) h

theorem Kind.complete_iff {k : Kind} {w : GraphWriter} (hk : k ≠ Kind.plain)
    (hi : k.inv w = true) : GraphWriter.is_complete w = true ↔ w.level_stack_ = [] := by
  constructor
  · intro hc
    by_contra hs
    rw [(Kind.finish_open hk hi hs).1] at hc
    simp at hc
  · intro hs
    exact (Kind.finish_closed hk hi hs).1

theorem Op.apply_inArray (op : Op) {w : GraphWriter} {n : Nat} {rest : List Level}
    (hs : w.level_stack_ = { valueCount := n, inArray := true } :: rest) :
    ∃ w1, op.apply w = some w1 := by
  obtain ⟨bytes, hb⟩ := Op.apply_eq op w
  rw [Prefix_inArray op.type hs] at hb
  exact ⟨_, hb⟩

theorem Op.apply_key_position (op : Op) {w : GraphWriter} {n : Nat} {rest : List Level}
    (hs : w.level_stack_ = { valueCount := n, inArray := false } :: rest)
    (ht : op.type = JsonType.kStringType) :
    ∃ w1, op.apply w = some w1 := by
  obtain ⟨bytes, hb⟩ := Op.apply_eq op w
  have hp : ∃ p, Prefix op.type w = some p := by
    simp [Prefix, hs, ht]
  obtain ⟨p, hp⟩ := hp
  rw [hp] at hb
  exact ⟨_, hb⟩

/-! ## Lemmas on the header map -/

theorem set_n_literal (payload : CassCustomPayload) (name value : Buf) :
    cass_custom_payload_set_n payload name (sizeofLiteral name - 1) value value.length =
      payload.filter (fun item => item.1 ≠ name) ++ [(name, value)] := by
  simp [cass_custom_payload_set_n, sizeofLiteral]

theorem find?_replace_self (payload : CassCustomPayload) (name value : Buf) :
    CassCustomPayload.find? (payload.filter (fun item => item.1 ≠ name) ++ [(name, value)]) name =
      some value := by
  induction payload with
  | nil => simp [CassCustomPayload.find?]
  | cons item rest ih =>
    by_cases h : item.1 = name
    · simpa [List.filter_cons, h] using ih
    · simp only [CassCustomPayload.find?] at ih ⊢
      simp [List.filter_cons, h, ih]

theorem filter_ne_cons_eq (rest : CassCustomPayload) {name : Buf} {item : Buf × Buf}
    (h : item.1 = name) :
    List.filter (fun item => decide (item.1 ≠ name)) (item :: rest) =
      List.filter (fun item => decide (item.1 ≠ name)) rest := by
  rw [List.filter_cons]
  simp [h]

theorem filter_ne_cons_ne (rest : CassCustomPayload) {name : Buf} {item : Buf × Buf}
    (h : item.1 ≠ name) :
    List.filter (fun item => decide (item.1 ≠ name)) (item :: rest) =
      item :: List.filter (fun item => decide (item.1 ≠ name)) rest := by
  rw [List.filter_cons]
  simp [h]

theorem find?_replace_other (payload : CassCustomPayload) {name other : Buf} (value : Buf)
    (h : other ≠ name) :
    CassCustomPayload.find? (payload.filter (fun item => item.1 ≠ name) ++ [(name, value)]) other =
      CassCustomPayload.find? payload other := by
  unfold CassCustomPayload.find?
  congr 1
  induction payload with
  | nil =>
    have h0 : decide (name = other) = false := decide_eq_false (Ne.symm h)
    simp only [List.filter_nil, List.nil_append, List.find?_cons, h0, List.find?_nil]
  | cons item rest ih =>
    by_cases h1 : item.1 = name
    · have h2 : decide (item.1 = other) = false :=
        decide_eq_false (by rw [h1]; exact Ne.symm h)
      rw [filter_ne_cons_eq rest h1, ih, List.find?_cons, h2]
    · rw [filter_ne_cons_ne rest h1, List.cons_append, List.find?_cons, List.find?_cons, ih]

theorem count_replace_self (payload : CassCustomPayload) (name value : Buf) :
    CassCustomPayload.count (payload.filter (fun item => item.1 ≠ name) ++ [(name, value)]) name =
      1 := by
  unfold CassCustomPayload.count
  induction payload with
  | nil => simp
  | cons item rest ih =>
    by_cases h : item.1 = name
    · rw [filter_ne_cons_eq rest h, ih]
    · have h2 : decide (item.1 = name) = false := decide_eq_false h
      rw [filter_ne_cons_ne rest h, List.cons_append, List.countP_cons, ih, h2]
      rfl

theorem mem_replace (payload : CassCustomPayload) (name value : Buf) (item : Buf × Buf) :
    item ∈ payload.filter (fun item => item.1 ≠ name) ++ [(name, value)] ↔
      (item ∈ payload ∧ item.1 ≠ name) ∨ item = (name, value) := by
  simp [List.mem_filter]

theorem mem_replace_key (payload : CassCustomPayload) (name value v : Buf) :
    (name, v) ∈ payload.filter (fun item => item.1 ≠ name) ++ [(name, value)] ↔ v = value := by
  rw [mem_replace]
  constructor
  · rintro (⟨-, h⟩ | h)
    · exact absurd rfl h
    · exact (Prod.mk.inj h).2
  · rintro rfl
    exact Or.inr rfl

theorem Setter.apply_payload (header : Int → Option Buf) (c : Setter) (o : GraphOptions) :
    (c.apply header o).payload_ = o.payload_ ∨
    ∃ value : Buf, (c.apply header o).payload_ =
      o.payload_.filter (fun item => item.1 ≠ c.key) ++ [(c.key, value)] := by
  cases c with
  | set_graph_language v => exact Or.inr ⟨v, set_n_literal _ _ _⟩
  | set_graph_source v => exact Or.inr ⟨v, set_n_literal _ _ _⟩
  | set_graph_name v => exact Or.inr ⟨v, set_n_literal _ _ _⟩
  | set_graph_read_consistency v =>
    refine Or.inr ⟨(cass_consistency_string v).take (strlen (cass_consistency_string v)), ?_⟩
    simp [Setter.apply, Setter.key, GraphOptions.set_graph_read_consistency,
      cass_custom_payload_set_n, sizeofLiteral]
  | set_graph_write_consistency v =>
    refine Or.inr ⟨(cass_consistency_string v).take (strlen (cass_consistency_string v)), ?_⟩
    simp [Setter.apply, Setter.key, GraphOptions.set_graph_write_consistency,
      cass_custom_payload_set_n, sizeofLiteral]
  | set_request_timeout_ms t =>
    cases ht : header t with
    | none =>
      left
      simp [Setter.apply, GraphOptions.set_request_timeout_ms, ht]
    | some value =>
      right
      refine ⟨value, ?_⟩
      simp only [Setter.apply, GraphOptions.set_request_timeout_ms, ht, Setter.key]
      exact set_n_literal _ _ _

theorem Setter.apply_payload_written (header : Int → Option Buf) (c : Setter)
    (o : GraphOptions) (hc : ∀ t, c = Setter.set_request_timeout_ms t → header t ≠ none) :
    ∃ value : Buf, (c.apply header o).payload_ =
      o.payload_.filter (fun item => item.1 ≠ c.key) ++ [(c.key, value)] := by
  cases c with
  | set_request_timeout_ms t =>
    cases ht : header t with
    | none => exact absurd ht (hc t rfl)
    | some value =>
      refine ⟨value, ?_⟩
      simp only [Setter.apply, GraphOptions.set_request_timeout_ms, ht, Setter.key]
      exact set_n_literal _ _ _
  | set_graph_language v => exact ⟨v, set_n_literal _ _ _⟩
  | set_graph_source v => exact ⟨v, set_n_literal _ _ _⟩
  | set_graph_name v => exact ⟨v, set_n_literal _ _ _⟩
  | set_graph_read_consistency v =>
    refine ⟨(cass_consistency_string v).take (strlen (cass_consistency_string v)), ?_⟩
    simp [Setter.apply, Setter.key, GraphOptions.set_graph_read_consistency,
      cass_custom_payload_set_n, sizeofLiteral]
  | set_graph_write_consistency v =>
    refine ⟨(cass_consistency_string v).take (strlen (cass_consistency_string v)), ?_⟩
    simp [Setter.apply, Setter.key, GraphOptions.set_graph_write_consistency,
      cass_custom_payload_set_n, sizeofLiteral]

theorem Setter.apply_find?_other (header : Int → Option Buf) (c : Setter) (o : GraphOptions)
    {name : Buf} (h : name ≠ c.key) :
    (c.apply header o).payload_.find? name = o.payload_.find? name := by
  rcases Setter.apply_payload header c o with hv | ⟨value, hv⟩
  · rw [hv]
  · rw [hv]
    exact find?_replace_other o.payload_ value h

theorem Setter.apply_mem_other (header : Int → Option Buf) (c : Setter) (o : GraphOptions)
    {item : Buf × Buf} (h : item.1 ≠ c.key) :
    item ∈ (c.apply header o).payload_ ↔ item ∈ o.payload_ := by
  rcases Setter.apply_payload header c o with hv | ⟨value, hv⟩
  · rw [hv]
  · rw [hv, mem_replace]
    constructor
    · rintro (⟨h1, -⟩ | h1)
      · exact h1
      · exact absurd (by rw [h1]) h
    · intro h1
      exact Or.inl ⟨h1, h⟩

theorem Setter.apply_find?_self (header : Int → Option Buf) (c : Setter) (o : GraphOptions)
    (hc : ∀ t, c = Setter.set_request_timeout_ms t → header t ≠ none) :
    (c.apply header o).payload_.find? c.key ≠ none := by
  obtain ⟨value, hv⟩ := Setter.apply_payload_written header c o hc
  rw [hv, find?_replace_self]
  simp

theorem Setter.apply_keeps (header : Int → Option Buf) (c : Setter) (o : GraphOptions)
    {name : Buf} (h : o.payload_.find? name ≠ none) :
    (c.apply header o).payload_.find? name ≠ none := by
  rcases Setter.apply_payload header c o with hv | ⟨value, hv⟩
  · rw [hv]
    exact h
  · by_cases hk : name = c.key
    · rw [hv, hk, find?_replace_self]
      simp
    · rw [Setter.apply_find?_other header c o hk]
      exact h

theorem runSetters_keeps (header : Int → Option Buf) (cs : List Setter) (o : GraphOptions)
    {name : Buf} (h : o.payload_.find? name ≠ none) :
    (runSetters header cs o).payload_.find? name ≠ none := by
  induction cs generalizing o with
  | nil => exact h
  | cons c cs ih => exact ih (c.apply header o) (Setter.apply_keeps header c o h)

/-! ## Lemmas on objects in memory -/

theorem filter_append_keys_nodup (payload : CassCustomPayload) (name value : Buf)
    (h : (payload.map Prod.fst).Nodup) :
    ((payload.filter (fun item => item.1 ≠ name) ++ [(name, value)]).map Prod.fst).Nodup := by
  rw [List.map_append, List.nodup_append]
  refine ⟨?_, by simp, ?_⟩
  · exact List.Nodup.sublist (List.Sublist.map Prod.fst (List.filter_sublist payload)) h
  · intro key hk1 hk2
    rw [List.map_singleton, List.mem_singleton] at hk2
    obtain ⟨item, hitem, hkey⟩ := List.mem_map.1 hk1
    have hne := (List.mem_filter.1 hitem).2
    rw [hkey, hk2] at hne
    simp at hne

theorem Setter.apply_keys_nodup (header : Int → Option Buf) (c : Setter) (o : GraphOptions)
    (h : (o.payload_.map Prod.fst).Nodup) :
    ((c.apply header o).payload_.map Prod.fst).Nodup := by
  rcases Setter.apply_payload header c o with h1 | ⟨value, h1⟩
  · rw [h1]; exact h
  · rw [h1]; exact filter_append_keys_nodup _ _ _ h

theorem runSetters_keys_nodup (header : Int → Option Buf) (cs : List Setter) (o : GraphOptions)
    (h : (o.payload_.map Prod.fst).Nodup) :
    ((runSetters header cs o).payload_.map Prod.fst).Nodup := by
  induction cs generalizing o with
  | nil => exact h
  | cons c cs ih => exact ih (c.apply header o) (Setter.apply_keys_nodup header c o h)

/-- Every state reached from the constructor by setter calls holds one entry
per key in its header map. -/
theorem GraphOptions.reachable_keys_nodup (header : Int → Option Buf) (cs : List Setter) :
    ((runSetters header cs GraphOptions.new).payload_.map Prod.fst).Nodup :=
  runSetters_keys_nodup header cs GraphOptions.new (by decide)

theorem copy_payload_foldl (acc payload : CassCustomPayload)
    (hnodup : (payload.map Prod.fst).Nodup)
    (hdisj : ∀ item ∈ payload, ∀ other ∈ acc, other.1 ≠ item.1) :
    payload.foldl
        (fun copy item =>
          cass_custom_payload_set_n copy item.1 item.1.length item.2 item.2.length) acc =
      acc ++ payload := by
  induction payload generalizing acc with
  | nil => simp
  | cons item rest ih =>
    have hstep : cass_custom_payload_set_n acc item.1 item.1.length item.2 item.2.length =
        acc ++ [item] := by
      simp only [cass_custom_payload_set_n, List.take_length]
      congr 1
      rw [List.filter_eq_self]
      intro other ho
      simpa using hdisj item (List.mem_cons_self item rest) other ho
    rw [List.foldl_cons, hstep]
    rw [List.map_cons] at hnodup
    have hn := List.nodup_cons.1 hnodup
    rw [ih (acc ++ [item]) hn.2]
    · simp
    · intro x hx other ho
      rcases List.mem_append.1 ho with h1 | h1
      · exact hdisj x (List.mem_cons_of_mem item hx) other h1
      · rw [List.mem_singleton] at h1
        subst h1
        intro heq
        exact hn.1 (by rw [heq]; exact List.mem_map_of_mem Prod.fst hx)

theorem copy_payload_eq (payload : CassCustomPayload) (h : (payload.map Prod.fst).Nodup) :
    copy_payload payload = payload := by
  unfold copy_payload cass_custom_payload_new
  rw [copy_payload_foldl [] payload h (fun _ _ other ho => absurd ho (List.not_mem_nil other))]
  rfl

theorem GraphOptions.clone_eq (o : GraphOptions) (h : (o.payload_.map Prod.fst).Nodup) :
    GraphOptions.clone o = o := by
  cases o
  simp only [GraphOptions.clone, copy_payload_eq _ h]

theorem Memory.read_some (m : Memory) (p : Nat) (o : GraphOptions) (h : m.read p = some o) :
    ∃ object payload, m.objects[p]? = some object ∧
      m.payloads[object.payload_]? = some payload ∧ object.view payload = o := by
  cases hop : m.objects[p]? with
  | none => simp [Memory.read, hop] at h
  | some object =>
    cases hpl : m.payloads[object.payload_]? with
    | none => simp [Memory.read, hop, hpl] at h
    | some payload =>
      simp only [Memory.read, hop, hpl] at h
      exact ⟨object, payload, rfl, hpl, Option.some.inj h⟩

theorem Memory.call_payloadOf (header : Int → Option Buf) (m : Memory) (q : Nat) (c : Setter)
    (x : Nat) : (m.call header q c).payloadOf x = m.payloadOf x := by
  cases hq : m.objects[q]? with
  | none => simp only [Memory.call, hq]
  | some object =>
    cases hp : m.payloads[object.payload_]? with
    | none => simp only [Memory.call, hq, hp]
    | some payload =>
      simp only [Memory.call, hq, hp, Memory.payloadOf]
      by_cases hx : q = x
      · subst hx
        have hlt : q < m.objects.length := by
          by_contra hge
          rw [List.getElem?_eq_none (Nat.le_of_not_lt hge)] at hq
          exact absurd hq (by simp)
        rw [List.getElem?_set_self hlt, hq]
        rfl
      · rw [List.getElem?_set_ne hx]

theorem Memory.call_read_other (header : Int → Option Buf) (m : Memory) (p q a b : Nat)
    (c : Setter) (hp : m.payloadOf p = some a) (hq : m.payloadOf q = some b) (hab : a ≠ b) :
    (m.call header q c).read p = m.read p := by
  have hpq : q ≠ p := by
    intro h
    subst h
    rw [hp] at hq
    exact hab (Option.some.inj hq)
  unfold Memory.payloadOf at hp hq
  cases hoq : m.objects[q]? with
  | none => simp [Memory.call, hoq]
  | some objq =>
    rw [hoq] at hq
    have hb : objq.payload_ = b := Option.some.inj hq
    cases hop : m.objects[p]? with
    | none => rw [hop] at hp; exact absurd hp (by simp)
    | some objp =>
      rw [hop] at hp
      have ha : objp.payload_ = a := Option.some.inj hp
      cases hpl : m.payloads[objq.payload_]? with
      | none => simp [Memory.call, hoq, hpl]
      | some payload =>
        have hne : objq.payload_ ≠ objp.payload_ := by
          rw [ha, hb]
          exact Ne.symm hab
        simp only [Memory.call, hoq, hpl, Memory.read, List.getElem?_set_ne hpq, hop,
          List.getElem?_set_ne hne]

theorem Memory.call_read_self (header : Int → Option Buf) (m : Memory) (q : Nat) (c : Setter)
    (o : GraphOptions) (h : m.read q = some o) :
    (m.call header q c).read q = some (c.apply header o) := by
  obtain ⟨objq, payload, hoq, hpl, ho⟩ := Memory.read_some m q o h
  have hq1 : q < m.objects.length := by
    by_contra hge
    rw [List.getElem?_eq_none (Nat.le_of_not_lt hge)] at hoq
    exact absurd hoq (by simp)
  have hq2 : objq.payload_ < m.payloads.length := by
    by_contra hge
    rw [List.getElem?_eq_none (Nat.le_of_not_lt hge)] at hpl
    exact absurd hpl (by simp)
  simp only [Memory.call, hoq, hpl, Memory.read, List.getElem?_set_self hq1,
    OptionsObject.store, List.getElem?_set_self hq2, ho]
  rfl

theorem Memory.calls_payloadOf (header : Int → Option Buf) (m : Memory) (q : Nat)
    (cs : List Setter) (x : Nat) : (m.calls header q cs).payloadOf x = m.payloadOf x := by
  induction cs generalizing m with
  | nil => rfl
  | cons c cs ih =>
    show ((m.call header q c).calls header q cs).payloadOf x = _
    rw [ih, Memory.call_payloadOf]

theorem Memory.calls_read_other (header : Int → Option Buf) (m : Memory) (p q a b : Nat)
    (cs : List Setter) (hp : m.payloadOf p = some a) (hq : m.payloadOf q = some b)
    (hab : a ≠ b) : (m.calls header q cs).read p = m.read p := by
  induction cs generalizing m with
  | nil => rfl
  | cons c cs ih =>
    show ((m.call header q c).calls header q cs).read p = _
    rw [ih (m.call header q c) (by rw [Memory.call_payloadOf]; exact hp)
      (by rw [Memory.call_payloadOf]; exact hq)]
    exact Memory.call_read_other header m p q a b c hp hq hab

theorem Memory.calls_read_self (header : Int → Option Buf) (m : Memory) (q : Nat)
    (cs : List Setter) (o : GraphOptions) (h : m.read q = some o) :
    (m.calls header q cs).read q = some (runSetters header cs o) := by
  induction cs generalizing m o with
  | nil => exact h
  | cons c cs ih =>
    show ((m.call header q c).calls header q cs).read q = _
    exact ih (m.call header q c) (c.apply header o) (Memory.call_read_self header m q c o h)

/-- The model can tell a shared header map from a copied one: when two objects
point to the same map, a setter called on one is seen through the other. -/
theorem Memory.shared_map_is_seen :
    Memory.read
        (Memory.call (fun _ => none)
          { payloads := [GraphOptions.new.payload_]
            objects := [OptionsObject.store 0 GraphOptions.new,
                        OptionsObject.store 0 GraphOptions.new] }
          1 (Setter.set_graph_name ['x'])) 0 ≠
      Memory.read
        { payloads := [GraphOptions.new.payload_]
          objects := [OptionsObject.store 0 GraphOptions.new,
                      OptionsObject.store 0 GraphOptions.new] } 0 := by
  decide

/-! ## Lemmas on the JSON parser -/

theorem SkipWhitespace_cons (c : Char) (rest : Buf) (h : isWhitespace c = false) :
    SkipWhitespace (c :: rest) = c :: rest := by
  simp [SkipWhitespace, List.dropWhile, h]

theorem expectLiteral_append (literal rest : Buf) :
    expectLiteral literal (literal ++ rest) = some rest := by
  unfold expectLiteral
  rw [List.take_left' rfl, List.drop_left' rfl, if_pos rfl]

theorem ParseHex4_control :
    ∀ n, n < 32 → ParseHex4 '0' '0' (hexDigits (n / 16)) (hexDigits (n % 16)) = some n := by
  decide

theorem escape_none {c : Char} (h : escape c = none) :
    c ≠ quoteChar ∧ c ≠ backslashChar ∧ ¬ c.toNat < 0x20 := by
  unfold escape at h
  split_ifs at h with h1 h2 h3 h4 h5 h6 h7 h8
  exact ⟨h7, h8, h1⟩

theorem eq_of_toNat {c : Char} {n : Nat} (h : c.toNat = n) : c = Char.ofNat n := by
  rw [← h, Char.ofNat_toNat]

theorem ParseEscape_control (c : Char) (tail : Buf) (h : c.toNat < 0x20) :
    ParseEscape
        ('u' :: '0' :: '0' :: hexDigits (c.toNat / 16) :: hexDigits (c.toNat % 16) :: tail) =
      some ([c], tail) := by
  have h1 : ¬ (0xD800 ≤ c.toNat ∧ c.toNat ≤ 0xDBFF) := by omega
  have h2 : c.toNat < 0x80 := by omega
  simp only [ParseEscape, ParseUnicode, ParseHex4_control c.toNat h, if_true, h1, if_false,
    Encode, h2, Char.ofNat_toNat]

/-- One character of a string, read back: what the writer writes for the
character `c` is a step of the string parser that gives `c`. -/
theorem ParseString_WriteChar (fuel : Nat) (c : Char) (tail : Buf) :
    ParseString (fuel + 1) (WriteChar c ++ tail) = prepend [c] (ParseString fuel tail) := by
  cases he : escape c with
  | none =>
    obtain ⟨h1, h2, h3⟩ := escape_none he
    simp only [WriteChar, he, List.singleton_append, ParseString, h1, h2, h3, if_false]
  | some e =>
    have hq : backslashChar ≠ quoteChar := by decide
    by_cases hu : e = 'u'
    · have hc : c.toNat < 0x20 := by
        unfold escape at he
        split_ifs at he with h1
        all_goals first
          | exact h1
          | (simp only [Option.some.injEq] at he; rw [← he] at hu; exact absurd hu (by decide))
      simp only [WriteChar, he, hu, if_true, List.cons_append, List.nil_append, ParseString, hq,
        if_false, ParseEscape_control c tail hc]
    · have hd : unescape e = some c := by
        unfold escape at he
        split_ifs at he with h1 h2 h3 h4 h5 h6 h7 h8
        all_goals simp only [Option.some.injEq] at he
        all_goals subst he
        · rw [eq_of_toNat h2]; decide
        · rw [eq_of_toNat h3]; decide
        · rw [eq_of_toNat h4]; decide
        · rw [eq_of_toNat h5]; decide
        · rw [eq_of_toNat h6]; decide
        · exact absurd rfl hu
        · rw [h7]; decide
        · rw [h8]; decide
      simp only [WriteChar, he, hu, if_false, List.cons_append, List.nil_append, ParseString, hq,
        if_true, ParseEscape, hd]

theorem ParseString_WriteString (s : Buf) (rest : Buf) (fuel : Nat) (h : s.length < fuel) :
    ParseString fuel ((s.map WriteChar).flatten ++ quoteChar :: rest) = some (s, rest) := by
  induction s generalizing fuel with
  | nil =>
    obtain ⟨f, rfl⟩ : ∃ f, fuel = f + 1 := ⟨fuel - 1, by omega⟩
    simp [ParseString]
  | cons c s ih =>
    obtain ⟨f, rfl⟩ : ∃ f, fuel = f + 1 := ⟨fuel - 1, by omega⟩
    rw [List.map_cons, List.flatten_cons, List.append_assoc, ParseString_WriteChar,
      ih f (by simpa using h)]
    rfl

theorem WriteChar_length (c : Char) : 1 ≤ (WriteChar c).length := by
  unfold WriteChar
  split
  · simp
  · split <;> simp

theorem WriteString_body_length (s : Buf) : s.length ≤ ((s.map WriteChar).flatten).length := by
  induction s with
  | nil => simp
  | cons c s ih =>
    have := WriteChar_length c
    simp only [List.map_cons, List.flatten_cons, List.length_append, List.length_cons]
    omega

theorem digitChar_spec :
    ∀ d, d < 10 → (Nat.digitChar d).isDigit = true ∧
      (Nat.digitChar d).toNat - '0'.toNat = d ∧ (Nat.digitChar d = '0' → d = 0) := by
  decide

theorem digitsValue_concat (front : Buf) (c : Char) :
    digitsValue (front ++ [c]) = digitsValue front * 10 + (c.toNat - '0'.toNat) := by
  simp [digitsValue, List.foldl_append]

theorem toDigitsCore_spec (fuel n : Nat) (ds : List Char) (h : n < fuel) :
    ∃ c rest, Nat.toDigitsCore 10 fuel n ds = c :: rest ++ ds ∧ c.isDigit = true ∧
      (∀ x ∈ rest, x.isDigit = true) ∧ (c = '0' → n = 0 ∧ rest = []) ∧
      digitsValue (c :: rest) = n := by
  induction fuel generalizing n ds with
  | zero => omega
  | succ fuel ih =>
    obtain ⟨hd1, hd2, hd3⟩ := digitChar_spec (n % 10) (Nat.mod_lt n (by decide))
    unfold Nat.toDigitsCore
    by_cases h0 : n / 10 = 0
    · have hn : n % 10 = n := Nat.mod_eq_of_lt (by omega)
      refine ⟨Nat.digitChar (n % 10), [], ?_, hd1, ?_, ?_, ?_⟩
      · simp [h0]
      · intro x hx; exact absurd hx (List.not_mem_nil x)
      · intro hc; exact ⟨by have := hd3 hc; omega, rfl⟩
      · simp only [digitsValue, List.foldl_cons, List.foldl_nil, Nat.zero_mul, Nat.zero_add]
        omega
    · obtain ⟨c, rest, h1, h2, h3, h4, h5⟩ :=
        ih (n / 10) (Nat.digitChar (n % 10) :: ds) (by omega)
      refine ⟨c, rest ++ [Nat.digitChar (n % 10)], ?_, h2, ?_, ?_, ?_⟩
      · simp [h0, h1]
      · intro x hx
        rcases List.mem_append.1 hx with hx | hx
        · exact h3 x hx
        · rw [List.mem_singleton] at hx; rw [hx]; exact hd1
      · intro hc; exact absurd (h4 hc).1 h0
      · rw [← List.cons_append, digitsValue_concat, h5, hd2]
        omega

theorem toDigits_spec (n : Nat) :
    ∃ c rest, Nat.toDigits 10 n = c :: rest ∧ c.isDigit = true ∧
      (∀ x ∈ rest, x.isDigit = true) ∧ (c = '0' → rest = []) ∧
      digitsValue (c :: rest) = n := by
  obtain ⟨c, rest, h1, h2, h3, h4, h5⟩ := toDigitsCore_spec (n + 1) n [] (Nat.lt_succ_self n)
  exact ⟨c, rest, by simpa [Nat.toDigits] using h1, h2, h3, fun hc => (h4 hc).2, h5⟩

theorem isNumberChar_of_isDigit {c : Char} (h : c.isDigit = true) : isNumberChar c = true := by
  simp [isNumberChar, h]

theorem isDigit_ne_minus {c : Char} (h : c.isDigit = true) : c ≠ '-' := by
  intro hc
  rw [hc] at h
  exact absurd h (by decide)

theorem numberOf_digits (minus : Bool) (c : Char) (rest lexeme : Buf) (hc : c.isDigit = true)
    (hrest : ∀ x ∈ rest, x.isDigit = true) (h0 : c = '0' → rest = []) :
    numberOf minus (c :: rest) lexeme =
      if minus then
        if digitsValue (c :: rest) ≤ 2 ^ 63 then
          some (.integer (-(digitsValue (c :: rest) : Int)))
        else some (.float lexeme)
      else
        if digitsValue (c :: rest) < 2 ^ 64 then some (.integer (digitsValue (c :: rest)))
        else some (.float lexeme) := by
  have hall : ∀ x ∈ c :: rest, x.isDigit = true := by
    intro x hx
    rcases List.mem_cons.1 hx with hx | hx
    · rw [hx]; exact hc
    · exact hrest x hx
  have h1 : (c :: rest).takeWhile Char.isDigit = c :: rest := List.takeWhile_eq_self_iff.2 hall
  have h2 : (c :: rest).dropWhile Char.isDigit = [] := List.dropWhile_eq_nil_iff.2 hall
  have h3 : isIntegerPart (c :: rest) = true := by
    simp only [isIntegerPart, hc, Bool.true_and, Bool.and_eq_true, List.all_eq_true,
      Bool.or_eq_true, bne_iff_ne, ne_eq, List.isEmpty_iff]
    refine ⟨hrest, ?_⟩
    by_cases hz : c = '0'
    · exact Or.inr (h0 hz)
    · exact Or.inl hz
  unfold numberOf
  rw [h1, h2, h3]
  rfl

theorem classifyNumber_WriteInt (i : Int) (h1 : -2 ^ 63 ≤ i) (h2 : i < 2 ^ 64) :
    classifyNumber (WriteInt i) = some (.integer i) ∧
      ∀ x ∈ WriteInt i, isNumberChar x = true := by
  obtain ⟨c, rest, hd, hc, hrest, h0, hv⟩ := toDigits_spec i.natAbs
  unfold WriteInt
  by_cases hneg : i < 0
  · rw [if_pos hneg, hd]
    constructor
    · simp only [classifyNumber, if_true]
      rw [numberOf_digits true c rest _ hc hrest h0, hv]
      have hle : i.natAbs ≤ 2 ^ 63 := by omega
      simp only [if_true, hle]
      congr 2
      omega
    · intro x hx
      rcases List.mem_cons.1 hx with hx | hx
      · rw [hx]; decide
      · rcases List.mem_cons.1 hx with hx | hx
        · rw [hx]; exact isNumberChar_of_isDigit hc
        · exact isNumberChar_of_isDigit (hrest x hx)
  · rw [if_neg hneg, hd]
    constructor
    · simp only [classifyNumber, isDigit_ne_minus hc, if_false]
      rw [numberOf_digits false c rest _ hc hrest h0, hv]
      have hlt : i.natAbs < 2 ^ 64 := by omega
      simp only [hlt, if_true, Bool.false_eq_true, if_false]
      congr 2
      omega
    · intro x hx
      rcases List.mem_cons.1 hx with hx | hx
      · rw [hx]; exact isNumberChar_of_isDigit hc
      · exact isNumberChar_of_isDigit (hrest x hx)

theorem ParseNumber_lexeme (lexeme rest : Buf) (value : GraphResult)
    (hall : ∀ x ∈ lexeme, isNumberChar x = true) (hrest : endsNumber rest)
    (hvalue : classifyNumber lexeme = some value) :
    ParseNumber (lexeme ++ rest) = some (value, rest) := by
  have h1 : (lexeme ++ rest).takeWhile isNumberChar = lexeme := by
    rw [List.takeWhile_append_of_pos hall]
    cases rest with
    | nil => simp
    | cons c rest =>
      have hc : isNumberChar c = false := hrest c (by simp)
      simp [List.takeWhile_cons, hc]
  have h2 : (lexeme ++ rest).dropWhile isNumberChar = rest := by
    rw [List.dropWhile_append_of_pos hall]
    cases rest with
    | nil => simp
    | cons c rest =>
      have hc : isNumberChar c = false := hrest c (by simp)
      simp [List.dropWhile_cons, hc]
  unfold ParseNumber
  rw [h1, h2, hvalue]
  rfl

theorem classifyNumber_float {digits : Buf} (h : isFloatLexeme digits = true) :
    classifyNumber digits = some (.float digits) ∧ ∀ x ∈ digits, isNumberChar x = true := by
  unfold isFloatLexeme at h
  rw [Bool.and_eq_true] at h
  refine ⟨?_, List.all_eq_true.1 h.1⟩
  have h2 := h.2
  have hform : ∀ (minus : Bool) (body : Buf) (r : GraphResult),
      numberOf minus body digits = some r → (∃ n, r = .integer n) ∨ r = .float digits := by
    intro minus body r hr
    unfold numberOf at hr
    by_cases h1 : isIntegerPart (body.takeWhile Char.isDigit) = true
    · rw [if_pos h1] at hr
      cases hd : body.dropWhile Char.isDigit with
      | nil =>
        rw [hd] at hr
        simp only at hr
        split_ifs at hr <;> simp only [Option.some.injEq] at hr <;> subst hr <;> simp
      | cons c tail =>
        rw [hd] at hr
        simp only at hr
        split_ifs at hr
        simp only [Option.some.injEq] at hr
        subst hr
        simp
    · rw [if_neg h1] at hr
      exact absurd hr (by simp)
  cases hc : classifyNumber digits with
  | none => rw [hc] at h2; exact absurd h2 (by simp)
  | some r =>
    rw [hc] at h2
    have hr : (∃ n, r = .integer n) ∨ r = .float digits := by
      unfold classifyNumber at hc
      split at hc
      · exact absurd hc (by simp)
      · split_ifs at hc
        · exact hform _ _ _ hc
        · exact hform _ _ _ hc
    rcases hr with ⟨n, hn⟩ | hr
    · subst hn; exact absurd h2 (by simp)
    · rw [hr]

theorem numberChar_dispatch {c : Char} (h : isNumberChar c = true) :
    isWhitespace c = false ∧ c ≠ 'n' ∧ c ≠ 't' ∧ c ≠ 'f' ∧ c ≠ quoteChar ∧ c ≠ '[' ∧
      c ≠ '{' ∧ c ≠ ']' := by
  refine ⟨?_, ?_, ?_, ?_, ?_, ?_, ?_, ?_⟩
  · cases hw : isWhitespace c with
    | false => rfl
    | true =>
      exfalso
      simp only [isWhitespace, Bool.decide_or, Bool.or_eq_true, decide_eq_true_eq] at hw
      rcases hw with hw | hw | hw | hw <;>
        (rw [eq_of_toNat hw] at h; exact absurd h (by decide))
  all_goals (intro heq; rw [heq] at h; exact absurd h (by decide))

theorem endsNumber_cons {c : Char} (rest : Buf) (h : isNumberChar c = false) :
    endsNumber (c :: rest) := by
  intro x hx
  simp only [List.head?_cons, Option.mem_def, Option.some.injEq] at hx
  rw [← hx]
  exact h

theorem ParseValue_number (lexeme rest : Buf) (value : GraphResult) (fuel : Nat)
    (hall : ∀ x ∈ lexeme, isNumberChar x = true) (hrest : endsNumber rest)
    (hvalue : classifyNumber lexeme = some value) :
    ParseValue (fuel + 1) (lexeme ++ rest) = some (value, rest) := by
  cases lexeme with
  | nil => exact absurd hvalue (by simp [classifyNumber])
  | cons c tail =>
    obtain ⟨h0, h1, h2, h3, h4, h5, h6, _⟩ := numberChar_dispatch (hall c (List.mem_cons_self c tail))
    have hp := ParseNumber_lexeme (c :: tail) rest value hall hrest hvalue
    rw [List.cons_append] at hp ⊢
    simp only [ParseValue, SkipWhitespace_cons c _ h0, h1, h2, h3, h4, h5, h6, if_false, hp]

theorem text_head_integer (i : Int) : ∃ c tail, WriteInt i = c :: tail := by
  obtain ⟨c, rest, hd, _⟩ := toDigits_spec i.natAbs
  unfold WriteInt
  split_ifs
  · exact ⟨'-', _, rfl⟩
  · exact ⟨c, rest, hd⟩

theorem elementsWellFormed_mem {elements : List GraphResult}
    (h : GraphResult.elementsWellFormed elements = true) :
    ∀ e ∈ elements, e.wellFormed = true := by
  induction elements with
  | nil => intro e he; exact absurd he (List.not_mem_nil e)
  | cons x xs ih =>
    simp only [GraphResult.elementsWellFormed, Bool.and_eq_true] at h
    intro e he
    rcases List.mem_cons.1 he with he | he
    · rw [he]; exact h.1
    · exact ih h.2 e he

theorem membersWellFormed_mem {members : List (Buf × GraphResult)}
    (h : GraphResult.membersWellFormed members = true) :
    ∀ m ∈ members, m.2.wellFormed = true := by
  induction members with
  | nil => intro e he; exact absurd he (List.not_mem_nil e)
  | cons x xs ih =>
    obtain ⟨key, value⟩ := x
    simp only [GraphResult.membersWellFormed, Bool.and_eq_true] at h
    intro e he
    rcases List.mem_cons.1 he with he | he
    · rw [he]; exact h.1
    · exact ih h.2 e he

/-- The text of a value starts with a character that is no whitespace and
does not close an array. -/
theorem text_head (v : GraphResult) (hv : v.wellFormed = true) :
    ∃ c tail, v.text = c :: tail ∧ isWhitespace c = false ∧ c ≠ ']' := by
  cases v with
  | null => exact ⟨'n', _, rfl, by decide, by decide⟩
  | boolean b => cases b <;> exact ⟨_, _, rfl, by decide, by decide⟩
  | integer i =>
    simp only [GraphResult.wellFormed, decide_eq_true_eq] at hv
    obtain ⟨c, tail, hc⟩ := text_head_integer i
    have hn := (classifyNumber_WriteInt i hv.1 hv.2).2 c (by rw [hc]; exact List.mem_cons_self c tail)
    obtain ⟨h0, _, _, _, _, _, _, h7⟩ := numberChar_dispatch hn
    exact ⟨c, tail, by simp only [GraphResult.text, hc], h0, h7⟩
  | float digits =>
    simp only [GraphResult.wellFormed] at hv
    obtain ⟨h1, h2⟩ := classifyNumber_float hv
    cases digits with
    | nil => exact absurd h1 (by simp [classifyNumber])
    | cons c tail =>
      obtain ⟨h0, _, _, _, _, _, _, h7⟩ := numberChar_dispatch (h2 c (List.mem_cons_self c tail))
      exact ⟨c, tail, by simp only [GraphResult.text], h0, h7⟩
  | string s => exact ⟨quoteChar, _, by simp only [GraphResult.text, WriteString]; rfl, by decide, by decide⟩
  | array es => exact ⟨'[', _, by simp only [GraphResult.text]; rfl, by decide, by decide⟩
  | object ms => exact ⟨'{', _, by simp only [GraphResult.text]; rfl, by decide, by decide⟩

theorem ParseArray_text (elements : List GraphResult) (hne : elements ≠ [])
    (h : ∀ e ∈ elements, ReadsBack e) (rest : Buf) (fuel : Nat)
    (hf : (GraphResult.elementsText elements).length + 1 ≤ fuel) :
    ParseArray fuel (GraphResult.elementsText elements ++ ']' :: rest) =
      some (elements, rest) := by
  induction elements generalizing fuel with
  | nil => exact absurd rfl hne
  | cons e es ih =>
    obtain ⟨f, rfl⟩ : ∃ f, fuel = f + 1 := ⟨fuel - 1, by omega⟩
    cases es with
    | nil =>
      simp only [GraphResult.elementsText] at hf ⊢
      have he := h e (List.mem_cons_self e []) (']' :: rest) f
        (endsNumber_cons rest (by decide)) (by omega)
      have hc : (']' : Char) ≠ ',' := by decide
      simp only [ParseArray, he, SkipWhitespace_cons ']' rest (by decide), hc, if_false, if_true]
    | cons e1 es =>
      simp only [GraphResult.elementsText, List.length_append, List.length_cons] at hf
      have he := h e (List.mem_cons_self e _)
        (',' :: (GraphResult.elementsText (e1 :: es) ++ ']' :: rest)) f
        (endsNumber_cons _ (by decide)) (by omega)
      have ht := ih (by simp) (fun x hx => h x (List.mem_cons_of_mem e hx)) f (by omega)
      simp only [GraphResult.elementsText, List.append_assoc, List.cons_append]
      simp only [ParseArray, he, SkipWhitespace_cons ',' _ (by decide), if_true, ht,
        Option.map_some']

theorem ParseObject_text (members : List (Buf × GraphResult)) (hne : members ≠ [])
    (h : ∀ m ∈ members, ReadsBack m.2) (rest : Buf) (fuel : Nat)
    (hf : (GraphResult.membersText members).length + 1 ≤ fuel) :
    ParseObject fuel (GraphResult.membersText members ++ '}' :: rest) =
      some (members, rest) := by
  induction members generalizing fuel with
  | nil => exact absurd rfl hne
  | cons m ms ih =>
    obtain ⟨key, value⟩ := m
    obtain ⟨f, rfl⟩ : ∃ f, fuel = f + 1 := ⟨fuel - 1, by omega⟩
    have hq : isWhitespace quoteChar = false := by decide
    cases ms with
    | nil =>
      simp only [GraphResult.membersText, List.length_append, List.length_cons, WriteString] at hf
      have hv := h (key, value) (List.mem_cons_self _ []) ('}' :: rest) f
        (endsNumber_cons rest (by decide)) (by show value.text.length ≤ f; omega)
      have hs := ParseString_WriteString key (':' :: (value.text ++ '}' :: rest))
        ((key.map WriteChar).flatten ++ quoteChar :: ':' :: (value.text ++ '}' :: rest)).length
        (by have := WriteString_body_length key; simp only [List.length_append, List.length_cons]; omega)
      have hc : ('}' : Char) ≠ ',' := by decide
      simp only [GraphResult.membersText, WriteString, List.cons_append, List.append_assoc,
        List.nil_append]
      simp only [ParseObject, SkipWhitespace_cons quoteChar _ hq, if_true, hs,
        SkipWhitespace_cons ':' _ (by decide), hv, SkipWhitespace_cons '}' rest (by decide), hc,
        if_false]
    | cons m1 ms =>
      simp only [GraphResult.membersText, List.length_append, List.length_cons, WriteString] at hf
      have hv := h (key, value) (List.mem_cons_self _ _)
        (',' :: (GraphResult.membersText (m1 :: ms) ++ '}' :: rest)) f
        (endsNumber_cons _ (by decide)) (by show value.text.length ≤ f; omega)
      have hs := ParseString_WriteString key
        (':' :: (value.text ++ ',' :: (GraphResult.membersText (m1 :: ms) ++ '}' :: rest)))
        ((key.map WriteChar).flatten ++ quoteChar :: ':' ::
          (value.text ++ ',' :: (GraphResult.membersText (m1 :: ms) ++ '}' :: rest))).length
        (by have := WriteString_body_length key; simp only [List.length_append, List.length_cons]; omega)
      have ht := ih (by simp) (fun x hx => h x (List.mem_cons_of_mem _ hx)) f (by omega)
      simp only [GraphResult.membersText, WriteString, List.cons_append, List.append_assoc,
        List.nil_append]
      simp only [ParseObject, SkipWhitespace_cons quoteChar _ hq, if_true, hs,
        SkipWhitespace_cons ':' _ (by decide), hv, SkipWhitespace_cons ',' _ (by decide), ht,
        Option.map_some']

/-- The parser reads back the text of every well-formed value. -/
theorem ParseValue_text : ∀ (v : GraphResult), v.wellFormed = true → ReadsBack v
  | .null, _ => by
    intro rest fuel _ hf
    obtain ⟨f, rfl⟩ : ∃ f, fuel = f + 1 := ⟨fuel - 1, by simp [GraphResult.text, WriteNull] at hf; omega⟩
    have h := expectLiteral_append ['u', 'l', 'l'] rest
    simp only [GraphResult.text, WriteNull, List.cons_append, List.nil_append] at h ⊢
    simp only [ParseValue, SkipWhitespace_cons 'n' _ (by decide), if_true, h, Option.map_some']
  | .boolean true, _ => by
    intro rest fuel _ hf
    obtain ⟨f, rfl⟩ : ∃ f, fuel = f + 1 := ⟨fuel - 1, by simp [GraphResult.text, WriteBool] at hf; omega⟩
    have h := expectLiteral_append ['r', 'u', 'e'] rest
    have h1 : ('t' : Char) ≠ 'n' := by decide
    simp only [GraphResult.text, WriteBool, List.cons_append, List.nil_append, if_true] at h ⊢
    simp only [ParseValue, SkipWhitespace_cons 't' _ (by decide), h1, if_false, if_true, h,
      Option.map_some']
  | .boolean false, _ => by
    intro rest fuel _ hf
    obtain ⟨f, rfl⟩ : ∃ f, fuel = f + 1 := ⟨fuel - 1, by simp [GraphResult.text, WriteBool] at hf; omega⟩
    have h := expectLiteral_append ['a', 'l', 's', 'e'] rest
    have h1 : ('f' : Char) ≠ 'n' := by decide
    have h2 : ('f' : Char) ≠ 't' := by decide
    simp only [GraphResult.text, WriteBool, List.cons_append, List.nil_append, if_false,
      Bool.false_eq_true] at h ⊢
    simp only [ParseValue, SkipWhitespace_cons 'f' _ (by decide), h1, h2, if_false, if_true, h,
      Option.map_some']
  | .integer i, hv => by
    intro rest fuel hrest hf
    simp only [GraphResult.wellFormed, decide_eq_true_eq] at hv
    obtain ⟨h1, h2⟩ := classifyNumber_WriteInt i hv.1 hv.2
    obtain ⟨c, tail, hc⟩ := text_head_integer i
    obtain ⟨f, rfl⟩ : ∃ f, fuel = f + 1 :=
      ⟨fuel - 1, by simp only [GraphResult.text, hc, List.length_cons] at hf; omega⟩
    exact ParseValue_number (WriteInt i) rest (.integer i) f h2 hrest h1
  | .float digits, hv => by
    intro rest fuel hrest hf
    simp only [GraphResult.wellFormed] at hv
    obtain ⟨h1, h2⟩ := classifyNumber_float hv
    have hne : digits ≠ [] := by
      intro h0
      rw [h0] at h1
      exact absurd h1 (by simp [classifyNumber])
    obtain ⟨f, rfl⟩ : ∃ f, fuel = f + 1 :=
      ⟨fuel - 1, by
        have := List.length_pos.2 hne
        simp only [GraphResult.text] at hf
        omega⟩
    exact ParseValue_number digits rest (.float digits) f h2 hrest h1
  | .string s, _ => by
    intro rest fuel _ hf
    obtain ⟨f, rfl⟩ : ∃ f, fuel = f + 1 :=
      ⟨fuel - 1, by simp [GraphResult.text, WriteString] at hf; omega⟩
    have hs := ParseString_WriteString s rest
      ((s.map WriteChar).flatten ++ quoteChar :: rest).length
      (by have := WriteString_body_length s; simp only [List.length_append, List.length_cons]; omega)
    have h1 : quoteChar ≠ 'n' := by decide
    have h2 : quoteChar ≠ 't' := by decide
    have h3 : quoteChar ≠ 'f' := by decide
    simp only [GraphResult.text, WriteString, List.cons_append, List.append_assoc,
      List.nil_append]
    simp only [ParseValue, SkipWhitespace_cons quoteChar _ (by decide), h1, h2, h3, if_false,
      if_true, hs, Option.map_some']
  | .array elements, hv => by
    intro rest fuel _ hf
    simp only [GraphResult.wellFormed] at hv
    have hwf := elementsWellFormed_mem hv
    have hread : ∀ x ∈ elements, ReadsBack x := fun x hx => ParseValue_text x (hwf x hx)
    obtain ⟨f, rfl⟩ : ∃ f, fuel = f + 1 := ⟨fuel - 1, by simp [GraphResult.text] at hf; omega⟩
    have h1 : ('[' : Char) ≠ 'n' := by decide
    have h2 : ('[' : Char) ≠ 't' := by decide
    have h3 : ('[' : Char) ≠ 'f' := by decide
    have h4 : ('[' : Char) ≠ quoteChar := by decide
    simp only [GraphResult.text, List.cons_append, List.append_assoc, List.nil_append,
      List.singleton_append]
    cases elements with
    | nil =>
      simp only [GraphResult.elementsText, List.nil_append]
      simp only [ParseValue, SkipWhitespace_cons '[' _ (by decide), h1, h2, h3, h4, if_false,
        if_true, SkipWhitespace_cons ']' _ (by decide)]
    | cons e es =>
      have ht := ParseArray_text (e :: es) (by simp) hread rest f
        (by simp only [GraphResult.text, List.length_cons, List.length_append] at hf; omega)
      obtain ⟨c, tail, hc, hw, hb⟩ : ∃ c tail,
          GraphResult.elementsText (e :: es) ++ ']' :: rest = c :: tail ∧
            isWhitespace c = false ∧ c ≠ ']' := by
        obtain ⟨c, tail, hc, hw, hb⟩ := text_head e (hwf e (List.mem_cons_self e es))
        cases es with
        | nil =>
          exact ⟨c, _, by simp only [GraphResult.elementsText, hc, List.cons_append]; rfl, hw, hb⟩
        | cons e1 es =>
          exact ⟨c, _, by simp only [GraphResult.elementsText, hc, List.cons_append]; rfl, hw, hb⟩
      rw [hc] at ht ⊢
      simp only [ParseValue, SkipWhitespace_cons '[' _ (by decide), h1, h2, h3, h4, if_false,
        if_true, SkipWhitespace_cons c _ hw, hb, ht, Option.map_some']
  | .object members, hv => by
    intro rest fuel _ hf
    simp only [GraphResult.wellFormed] at hv
    have hwf := membersWellFormed_mem hv
    have hread : ∀ x ∈ members, ReadsBack x.2 := fun x hx => ParseValue_text x.2 (hwf x hx)
    obtain ⟨f, rfl⟩ : ∃ f, fuel = f + 1 := ⟨fuel - 1, by simp [GraphResult.text] at hf; omega⟩
    have h1 : ('{' : Char) ≠ 'n' := by decide
    have h2 : ('{' : Char) ≠ 't' := by decide
    have h3 : ('{' : Char) ≠ 'f' := by decide
    have h4 : ('{' : Char) ≠ quoteChar := by decide
    have h5 : ('{' : Char) ≠ '[' := by decide
    simp only [GraphResult.text, List.cons_append, List.append_assoc, List.nil_append,
      List.singleton_append]
    cases members with
    | nil =>
      simp only [GraphResult.membersText, List.nil_append]
      simp only [ParseValue, SkipWhitespace_cons '{' _ (by decide), h1, h2, h3, h4, h5, if_false,
        if_true, SkipWhitespace_cons '}' _ (by decide)]
    | cons m ms =>
      have ht := ParseObject_text (m :: ms) (by simp) hread rest f
        (by simp only [GraphResult.text, List.length_cons, List.length_append] at hf; omega)
      obtain ⟨tail, hc⟩ : ∃ tail,
          GraphResult.membersText (m :: ms) ++ '}' :: rest = quoteChar :: tail := by
        obtain ⟨key, value⟩ := m
        cases ms with
        | nil =>
          exact ⟨_, by simp only [GraphResult.membersText, WriteString, List.cons_append]; rfl⟩
        | cons m1 ms =>
          exact ⟨_, by simp only [GraphResult.membersText, WriteString, List.cons_append]; rfl⟩
      have hb : quoteChar ≠ '}' := by decide
      rw [hc] at ht ⊢
      simp only [ParseValue, SkipWhitespace_cons '{' _ (by decide), h1, h2, h3, h4, h5, if_false,
        if_true, SkipWhitespace_cons quoteChar _ (by decide), hb, ht, Option.map_some']
termination_by v => sizeOf v
decreasing_by
  · have := List.sizeOf_lt_of_mem hx
    simp only [GraphResult.array.sizeOf_spec]
    omega
  · have := List.sizeOf_lt_of_mem hx
    obtain ⟨key, value⟩ := x
    simp only [GraphResult.object.sizeOf_spec, Prod.mk.sizeOf_spec] at this ⊢
    omega

theorem Parse_text (v : GraphResult) (hv : v.wellFormed = true) : Parse v.text = some v := by
  have h := ParseValue_text v hv [] v.text.length (fun c hc => absurd hc (by simp)) (Nat.le_refl _)
  rw [List.append_nil] at h
  simp [Parse, h, SkipWhitespace]

/-! ## Lemmas on the date range codec -/

theorem encode_decode_int64 (bytes : List Byte) (v : Int) (h : decode_int64 bytes = some v) :
    encode_int64 v = bytes ∧ bytes.length = 8 ∧ -2 ^ 63 ≤ v ∧ v < 2 ^ 63 := by
  unfold decode_int64 at h
  split at h
  · rename_i b0 b1 b2 b3 b4 b5 b6 b7
    simp only [Option.some.injEq] at h
    have h0 := b0.isLt
    have h1 := b1.isLt
    have h2 := b2.isLt
    have h3 := b3.isLt
    have h4 := b4.isLt
    have h5 := b5.isLt
    have h6 := b6.isLt
    have h7 := b7.isLt
    generalize hu : b0.val * 2 ^ 56 + b1.val * 2 ^ 48 + b2.val * 2 ^ 40 + b3.val * 2 ^ 32 +
      b4.val * 2 ^ 24 + b5.val * 2 ^ 16 + b6.val * 2 ^ 8 + b7.val = u at h
    have hv : (v % 2 ^ 64).toNat = u := by
      split at h <;> omega
    refine ⟨?_, rfl, ?_, ?_⟩
    · unfold encode_int64
      simp only [hv, toByte]
      have e0 : u / 2 ^ 56 % 256 = b0.val := by omega
      have e1 : u / 2 ^ 48 % 256 = b1.val := by omega
      have e2 : u / 2 ^ 40 % 256 = b2.val := by omega
      have e3 : u / 2 ^ 32 % 256 = b3.val := by omega
      have e4 : u / 2 ^ 24 % 256 = b4.val := by omega
      have e5 : u / 2 ^ 16 % 256 = b5.val := by omega
      have e6 : u / 2 ^ 8 % 256 = b6.val := by omega
      have e7 : u % 256 = b7.val := by omega
      simp only [e0, e1, e2, e3, e4, e5, e6, e7]
    · split at h <;> omega
    · split at h <;> omega
  · exact absurd h (by simp)

theorem find?_tag_of_injective {α : Type} [DecidableEq α] (f : α → Byte)
    (hf : ∀ a b, f a = f b → a = b) (l : List α) (x : α) (hx : x ∈ l) :
    List.find? (fun k => decide (f k = f x)) l = some x := by
  induction l with
  | nil => exact absurd hx (by simp)
  | cons a rest ih =>
    by_cases h : f a = f x
    · rw [List.find?_cons_of_pos _ (by simpa using h), hf a x h]
    · rw [List.find?_cons_of_neg _ (by simpa using h)]
      rcases List.mem_cons.1 hx with hax | hr
      · exact absurd (by rw [hax]) h
      · exact ih hr

theorem decode_kind_tag (layout : DateRangeLayout) (k : DateRangeKind) :
    decode_kind layout (layout.kindTag k) = some k :=
  find?_tag_of_injective layout.kindTag layout.kindTag_injective _ k (by cases k <;> simp)

theorem decode_kind_some {layout : DateRangeLayout} {tag : Byte} {k : DateRangeKind}
    (h : decode_kind layout tag = some k) : layout.kindTag k = tag := by
  have := List.find?_some h
  simpa using this

theorem decode_kind_none {layout : DateRangeLayout} {tag : Byte}
    (h : ∀ k, layout.kindTag k ≠ tag) : decode_kind layout tag = none := by
  unfold decode_kind
  rw [List.find?_eq_none]
  intro k _
  simpa using h k

theorem decode_precision_some {layout : DateRangeLayout} {tag : Byte}
    {p : DseDateRangePrecision} (h : decode_precision layout tag = some p) :
    layout.precisionTag p = tag := by
  have := List.find?_some h
  simpa using this

theorem encode_decode_bound {layout : DateRangeLayout} {bytes : List Byte}
    {b : DseDateRangeBound} (h : decode_bound layout bytes = some b) :
    write_bound layout b = bytes ∧ bytes.length = 9 ∧ -2 ^ 63 ≤ b.time_ms ∧
      b.time_ms < 2 ^ 63 := by
  cases bytes with
  | nil => exact absurd h (by simp [decode_bound])
  | cons tag time =>
    simp only [decode_bound] at h
    cases hp : decode_precision layout tag with
    | none => rw [hp] at h; simp at h
    | some p =>
      cases ht : decode_int64 time with
      | none => rw [hp, ht] at h; simp at h
      | some t =>
        rw [hp, ht] at h
        simp only [Option.some.injEq] at h
        subst h
        obtain ⟨h1, h2, h3, h4⟩ := encode_decode_int64 time t ht
        refine ⟨?_, by simp [h2], h3, h4⟩
        simp only [write_bound, decode_precision_some hp, h1]

theorem decode_date_range_ok {layout : DateRangeLayout} {bytes : List Byte} {r : DseDateRange}
    (h : decode_date_range layout bytes = Except.ok r) :
    write_date_range layout r = bytes ∧ r.inRange ∧ bytes.length = r.kind.length := by
  cases bytes with
  | nil => simp [decode_date_range] at h
  | cons tag rest =>
    simp only [decode_date_range] at h
    cases hk : decode_kind layout tag with
    | none => rw [hk] at h; simp at h
    | some k =>
      rw [hk] at h
      have htag := decode_kind_some hk
      simp only at h
      split at h
      · simp at h
      · rename_i hlen
        have hlen : rest.length + 1 = k.length := by simpa using hlen
        cases k with
        | single =>
          simp only at h
          cases hb : decode_bound layout rest with
          | none => rw [hb] at h; simp at h
          | some b =>
            rw [hb] at h
            simp only [Except.ok.injEq] at h
            subst h
            obtain ⟨h1, -, h3, h4⟩ := encode_decode_bound hb
            refine ⟨by simp [write_date_range, DseDateRange.kind, DseDateRange.bounds, htag, h1],
              ?_, by simpa [DseDateRange.kind] using hlen⟩
            intro x hx
            simp only [DseDateRange.bounds, List.mem_singleton] at hx
            subst hx
            exact ⟨h3, h4⟩
        | open_start =>
          simp only at h
          cases hb : decode_bound layout rest with
          | none => rw [hb] at h; simp at h
          | some b =>
            rw [hb] at h
            simp only [Except.ok.injEq] at h
            subst h
            obtain ⟨h1, -, h3, h4⟩ := encode_decode_bound hb
            refine ⟨by simp [write_date_range, DseDateRange.kind, DseDateRange.bounds, htag, h1],
              ?_, by simpa [DseDateRange.kind] using hlen⟩
            intro x hx
            simp only [DseDateRange.bounds, List.mem_singleton] at hx
            subst hx
            exact ⟨h3, h4⟩
        | open_end =>
          simp only at h
          cases hb : decode_bound layout rest with
          | none => rw [hb] at h; simp at h
          | some b =>
            rw [hb] at h
            simp only [Except.ok.injEq] at h
            subst h
            obtain ⟨h1, -, h3, h4⟩ := encode_decode_bound hb
            refine ⟨by simp [write_date_range, DseDateRange.kind, DseDateRange.bounds, htag, h1],
              ?_, by simpa [DseDateRange.kind] using hlen⟩
            intro x hx
            simp only [DseDateRange.bounds, List.mem_singleton] at hx
            subst hx
            exact ⟨h3, h4⟩
        | closed =>
          simp only at h
          cases hl : decode_bound layout (rest.take 9) with
          | none => rw [hl] at h; simp at h
          | some l =>
            cases hu : decode_bound layout (rest.drop 9) with
            | none => rw [hl, hu] at h; simp at h
            | some u =>
              rw [hl, hu] at h
              simp only [Except.ok.injEq] at h
              subst h
              obtain ⟨l1, -, l3, l4⟩ := encode_decode_bound hl
              obtain ⟨u1, -, u3, u4⟩ := encode_decode_bound hu
              refine ⟨?_, ?_, by simpa [DseDateRange.kind] using hlen⟩
              · simp [write_date_range, DseDateRange.kind, DseDateRange.bounds, htag, l1, u1,
                  List.take_append_drop]
              · intro x hx
                simp only [DseDateRange.bounds, List.mem_cons, List.mem_singleton,
                  List.not_mem_nil, or_false] at hx
                rcases hx with hx | hx
                · subst hx; exact ⟨l3, l4⟩
                · subst hx; exact ⟨u3, u4⟩

/-! ## Lemmas on writing the members of an object -/

theorem WriteString_escapeFree (s : Buf) (h : escapeFree s) :
    WriteString s = [quoteChar] ++ s ++ [quoteChar] := by
  have hf : (s.map WriteChar).flatten = s := by
    induction s with
    | nil => rfl
    | cons c rest ih =>
      have hc : escape c = none := h c (List.mem_cons_self c rest)
      have hr : escapeFree rest := fun x hx => h x (List.mem_cons_of_mem c hx)
      simp only [List.map_cons, List.flatten_cons, ih hr, WriteChar, hc]
      rfl
  simp [WriteString, hf]

theorem WriteInt_eq_toString (v : Int) : WriteInt v = (toString v).toList := by
  cases v with
  | ofNat m =>
    have h : ¬ (Int.ofNat m < 0) := by simp
    simp only [WriteInt, h, if_false]
    rfl
  | negSucc m =>
    have h : Int.negSucc m < 0 := Int.negSucc_lt_zero m
    simp only [WriteInt, h, if_true]
    rfl

theorem toInt32_of_range {v : Int} (h : -2 ^ 31 ≤ v ∧ v < 2 ^ 31) : toInt32 v = v := by
  unfold toInt32
  omega

theorem toInt64_of_range {v : Int} (h : -2 ^ 63 ≤ v ∧ v < 2 ^ 63) : toInt64 v = v := by
  unfold toInt64
  omega

theorem take_toSizeType {s : Buf} (h : s.length < 2 ^ 32) : s.take (toSizeType s.length) = s := by
  unfold toSizeType
  rw [Nat.mod_eq_of_lt h, List.take_length]

theorem add_key_step (buf : Buf) (root : Bool) (m : Nat) (key : Buf) (hm : m % 2 = 0)
    (hk : escapeFree key) (hl : key.length < 2 ^ 32) :
    (Op.add_key key).apply
        { buffer_ := buf, level_stack_ := [{ valueCount := m, inArray := false }],
          hasRoot_ := root } =
      some { buffer_ := buf ++ (if m > 0 then [','] else []) ++ ([quoteChar] ++ key ++ [quoteChar])
             level_stack_ := [{ valueCount := m + 1, inArray := false }]
             hasRoot_ := root } := by
  simp only [Op.apply, GraphWriter.add_key, Key, JString, take_toSizeType hl,
    WriteString_escapeFree key hk, Prefix, separator, Put, hm]
  by_cases h0 : m > 0 <;> simp [h0, Put]

theorem add_value_step (buf : Buf) (root : Bool) (m : Nat) (v : MemberValue) (hm : m % 2 = 1)
    (hv : v.asSpecified) (hl : v.fitsSizeType) :
    v.op.apply
        { buffer_ := buf, level_stack_ := [{ valueCount := m, inArray := false }],
          hasRoot_ := root } =
      some { buffer_ := buf ++ [':'] ++ v.text
             level_stack_ := [{ valueCount := m + 1, inArray := false }]
             hasRoot_ := root } := by
  have h0 : m > 0 := by omega
  have h1 : ¬ (m % 2 = 0) := by omega
  cases v with
  | null =>
    simp [MemberValue.op, Op.apply, GraphWriter.add_null, Null, Prefix, separator, Put, h0, h1,
      hm, WriteNull, MemberValue.text]
  | bool b =>
    cases b <;>
      simp [MemberValue.op, Op.apply, GraphWriter.add_bool, JBool, Prefix, separator, Put, h0,
        h1, hm, WriteBool, MemberValue.text]
  | int32 n =>
    simp [MemberValue.op, Op.apply, GraphWriter.add_int32, JInt, Prefix, separator, Put, h0, h1,
      hm, toInt32_of_range hv, WriteInt_eq_toString, MemberValue.text]
  | int64 n =>
    simp [MemberValue.op, Op.apply, GraphWriter.add_int64, Int64, Prefix, separator, Put, h0, h1,
      hm, toInt64_of_range hv, WriteInt_eq_toString, MemberValue.text]
  | string str =>
    simp [MemberValue.op, Op.apply, GraphWriter.add_string, JString, Prefix, separator, Put, h0,
      h1, hm, take_toSizeType hl, WriteString_escapeFree str hv, MemberValue.text]

theorem pair_step (buf : Buf) (root : Bool) (n : Nat) (pair : Buf × MemberValue)
    (hk : escapeFree pair.1) (hkl : pair.1.length < 2 ^ 32) (hv : pair.2.asSpecified)
    (hvl : pair.2.fitsSizeType) :
    runOps (pairOps pair)
        { buffer_ := buf, level_stack_ := [{ valueCount := 2 * n, inArray := false }],
          hasRoot_ := root } =
      some { buffer_ := buf ++ (if n > 0 then [','] else []) ++ entryText pair
             level_stack_ := [{ valueCount := 2 * (n + 1), inArray := false }]
             hasRoot_ := root } := by
  have hc : (2 * n > 0) = (n > 0) := by
    apply propext
    omega
  simp only [pairOps, runOps, add_key_step buf root (2 * n) pair.1 (by omega) hk hkl,
    Option.some_bind, hc]
  rw [add_value_step _ root (2 * n + 1) pair.2 (by omega) hv hvl]
  simp [entryText, Nat.mul_add]

theorem runOps_append (ops1 ops2 : List Op) (w : GraphWriter) :
    runOps (ops1 ++ ops2) w = (runOps ops1 w).bind (runOps ops2) := by
  induction ops1 generalizing w with
  | nil => rfl
  | cons op ops ih =>
    simp only [List.cons_append, runOps]
    cases op.apply w with
    | none => rfl
    | some w1 => exact ih w1

theorem pairs_step (buf : Buf) (root : Bool) (n : Nat) (pairs : List (Buf × MemberValue))
    (hn : n > 0)
    (h : ∀ p ∈ pairs, escapeFree p.1 ∧ p.1.length < 2 ^ 32 ∧ p.2.asSpecified ∧
      p.2.fitsSizeType) :
    runOps (pairs.flatMap pairOps)
        { buffer_ := buf, level_stack_ := [{ valueCount := 2 * n, inArray := false }],
          hasRoot_ := root } =
      some { buffer_ := buf ++ (pairs.map (fun p => [','] ++ entryText p)).flatten
             level_stack_ := [{ valueCount := 2 * (n + pairs.length), inArray := false }]
             hasRoot_ := root } := by
  induction pairs generalizing buf n with
  | nil => simp [runOps]
  | cons p ps ih =>
    obtain ⟨h1, h2, h3, h4⟩ := h p (List.mem_cons_self p ps)
    have hps := fun q hq => h q (List.mem_cons_of_mem p hq)
    rw [List.flatMap_cons, runOps_append, pair_step buf root n p h1 h2 h3 h4, Option.some_bind,
      ih _ (n + 1) (by omega) hps]
    simp [hn, Nat.add_assoc, Nat.add_comm 1]

theorem intercalate_cons (sep e : Buf) (es : List Buf) :
    List.intercalate sep (e :: es) = e ++ (es.map (fun x => sep ++ x)).flatten := by
  induction es generalizing e with
  | nil => simp [List.intercalate]
  | cons e2 es ih =>
    have h := ih e2
    simp only [List.intercalate] at h ⊢
    simp only [List.intersperse, List.flatten_cons, h, List.map_cons, List.append_assoc]

theorem writeObject_ok (pairs : List (Buf × MemberValue))
    (h : ∀ p ∈ pairs, escapeFree p.1 ∧ p.1.length < 2 ^ 32 ∧ p.2.asSpecified ∧
      p.2.fitsSizeType) :
    writeObject pairs =
      some { buffer_ := objectText pairs, level_stack_ := [], hasRoot_ := true } := by
  unfold writeObject
  rw [GraphObject.object_new_eq, Option.some_bind]
  cases pairs with
  | nil => rfl
  | cons p ps =>
    obtain ⟨h1, h2, h3, h4⟩ := h p (List.mem_cons_self p ps)
    have hps := fun q hq => h q (List.mem_cons_of_mem p hq)
    rw [List.flatMap_cons, runOps_append]
    rw [show ({ valueCount := 0, inArray := false } : Level) =
      { valueCount := 2 * 0, inArray := false } from rfl]
    rw [pair_step ['{'] true 0 p h1 h2 h3 h4, Option.some_bind,
      pairs_step _ true (0 + 1) ps (by omega) hps, Option.some_bind]
    simp [GraphObject.finish, GraphWriter.is_complete, IsComplete, GraphWriter.end_object,
      EndObject, Put, objectText, intercalate_cons, Function.comp_def]

theorem writeObject_long_key (key : Buf) (v : MemberValue) (h : toSizeType key.length = 0) :
    writeObject [(key, v)] = writeObject [([], v)] := by
  have hkey : ∀ w, (Op.add_key key).apply w = (Op.add_key []).apply w := by
    intro w
    show JString key (toSizeType key.length) w = JString [] (toSizeType ([] : Buf).length) w
    simp only [JString, h, List.take_zero, List.take_nil]
  simp only [writeObject, List.flatMap_cons, List.flatMap_nil, pairOps, List.append_nil, runOps,
    hkey]

theorem objectText_single_length (key : Buf) :
    (objectText [(key, MemberValue.null)]).length = key.length + 9 := by
  simp [objectText, List.intercalate, entryText, MemberValue.text]

/-! ## The claims -/

/-- C1: on a GraphObject or GraphArray, after construction or after a reset,
every accepted sequence of value-appending calls (add_null, add_bool, add_int32,
add_int64, add_double, add_string, add_key, the geometry values, add_writer)
leaves is_complete() false at every point of the sequence, and finish() is then
accepted and makes is_complete() true.  On a plain GraphWriter is_complete() is
false when fresh, every first value is accepted and makes it true, and no
second value is accepted: it is true exactly when the single top-level value
has been written. -/
theorem is_complete_iff_top_level_closed (k : Kind) (start : Option GraphWriter)
    (w0 w : GraphWriter) (ops : List Op)
    (hstart : start = k.new ∨ start = k.reset w0)
    (hrun : start.bind (runOps ops) = some w) :
    (k ≠ Kind.plain →
      (∀ n : Nat, ∃ wn, start.bind (runOps (ops.take n)) = some wn ∧
        GraphWriter.is_complete wn = false) ∧
      GraphWriter.is_complete w = false ∧
      ∃ w1, k.finish w = some w1 ∧ GraphWriter.is_complete w1 = true) ∧
    (k = Kind.plain →
      GraphWriter.is_complete GraphWriter.new = false ∧
      (∀ op : Op, ∃ w1, op.apply GraphWriter.new = some w1 ∧
        GraphWriter.is_complete w1 = true) ∧
      ops.length ≤ 1 ∧
      (GraphWriter.is_complete w = true ↔ ops.length = 1)) := by
  have hs : start = k.new := by
    rcases hstart with h | h
    · exact h
    · rw [h, Kind.reset_eq_new]
  subst hs
  cases h0 : k.new with
  | none => rw [h0] at hrun; simp at hrun
  | some s =>
    rw [h0] at hrun
    have hrun : runOps ops s = some w := hrun
    refine ⟨fun hk => ⟨fun n => ?_, ?_, ?_⟩, fun hk => ⟨rfl, Op.apply_new, ?_⟩⟩
    · obtain ⟨wn, hn⟩ := runOps_take ops n hrun
      obtain ⟨hi, hne⟩ := runOps_open hk (ops.take n) h0 hn
      exact ⟨wn, by simpa using hn, (Kind.finish_open hk hi hne).1⟩
    · obtain ⟨hi, hne⟩ := runOps_open hk ops h0 hrun
      exact (Kind.finish_open hk hi hne).1
    · obtain ⟨hi, hne⟩ := runOps_open hk ops h0 hrun
      obtain ⟨-, hf, hr⟩ := Kind.finish_open hk hi hne
      exact ⟨_, hf, by simp [GraphWriter.is_complete, IsComplete, hr]⟩
    · subst hk
      simp only [Kind.new, Option.some.injEq] at h0
      subst h0
      obtain ⟨h1, h2⟩ := runOps_plain ops hrun
      refine ⟨h1, ?_⟩
      rw [h2]
      cases ops with
      | nil => simp
      | cons op ops =>
        cases ops with
        | nil => simp
        | cons op2 ops => simp at h1

/-- Witness of C1: a GraphObject that received a key and a number. -/
theorem is_complete_iff_top_level_closed_witness :
    (Kind.object ≠ Kind.plain →
      (∀ n : Nat, ∃ wn, Kind.object.new.bind
          (runOps ([Op.add_key ['a'], Op.add_int32 5].take n)) = some wn ∧
        GraphWriter.is_complete wn = false) ∧
      GraphWriter.is_complete
        { buffer_ := ['{', quoteChar, 'a', quoteChar, ':', '5'],
          level_stack_ := [{ valueCount := 2, inArray := false }],
          hasRoot_ := true } = false ∧
      ∃ w1, Kind.object.finish
        { buffer_ := ['{', quoteChar, 'a', quoteChar, ':', '5'],
          level_stack_ := [{ valueCount := 2, inArray := false }],
          hasRoot_ := true } = some w1 ∧ GraphWriter.is_complete w1 = true) ∧
    (Kind.object = Kind.plain →
      GraphWriter.is_complete GraphWriter.new = false ∧
      (∀ op : Op, ∃ w1, op.apply GraphWriter.new = some w1 ∧
        GraphWriter.is_complete w1 = true) ∧
      [Op.add_key ['a'], Op.add_int32 5].length ≤ 1 ∧
      (GraphWriter.is_complete
        { buffer_ := ['{', quoteChar, 'a', quoteChar, ':', '5'],
          level_stack_ := [{ valueCount := 2, inArray := false }],
          hasRoot_ := true } = true ↔ [Op.add_key ['a'], Op.add_int32 5].length = 1)) :=
  is_complete_iff_top_level_closed Kind.object Kind.object.new GraphWriter.new
    { buffer_ := ['{', quoteChar, 'a', quoteChar, ':', '5'],
      level_stack_ := [{ valueCount := 2, inArray := false }],
      hasRoot_ := true }
    [Op.add_key ['a'], Op.add_int32 5] (Or.inl rfl) (by decide)

/-- C2: reset() yields, from every writer state, the state of a freshly
constructed writer of the same kind: a plain GraphWriter has an empty buffer
and is not complete, a GraphObject has exactly the one-byte buffer of an
opening brace and a GraphArray that of an opening bracket, both not complete; every sequence of calls made after
the reset gives the same result (same bytes, same state, same failed
assertion) as on a fresh writer. -/
theorem reset_eq_fresh (k : Kind) (w : GraphWriter) :
    k.reset w = k.new ∧
    GraphWriter.reset w = GraphWriter.new ∧
    GraphWriter.data (GraphWriter.reset w) = [] ∧
    GraphWriter.is_complete (GraphWriter.reset w) = false ∧
    (∃ s, GraphObject.reset w = some s ∧ GraphWriter.data s = ['{'] ∧
      GraphWriter.length s = 1 ∧ GraphWriter.is_complete s = false) ∧
    (∃ s, GraphArray.reset w = some s ∧ GraphWriter.data s = ['['] ∧
      GraphWriter.length s = 1 ∧ GraphWriter.is_complete s = false) ∧
    (∀ cs : List Call, (k.reset w).bind (k.runFrom cs) = k.run cs) ∧
    (∀ cs : List Call, ((k.reset w).bind (k.runFrom cs)).map GraphWriter.data =
      (k.run cs).map GraphWriter.data) := by
  refine ⟨Kind.reset_eq_new k w, rfl, rfl, rfl, ⟨_, rfl, rfl, rfl, rfl⟩, ⟨_, rfl, rfl, rfl, rfl⟩,
    fun cs => ?_, fun cs => ?_⟩
  · rw [Kind.reset_eq_new]; rfl
  · rw [Kind.reset_eq_new]; rfl

/-- C3: finish() on a GraphObject or GraphArray is idempotent.  In every state
the writer can reach through its public interface: when it is not complete,
finish() is accepted, appends exactly the close token (the closing brace for an
object, the closing bracket for an array) and makes is_complete() true; when it
is complete, finish() changes nothing; finishing twice is finishing once. -/
theorem finish_idempotent (k : Kind) (cs : List Call) (w : GraphWriter)
    (hk : k = Kind.object ∨ k = Kind.array) (hrun : k.run cs = some w) :
    (GraphWriter.is_complete w = false →
      ∃ w1, k.finish w = some w1 ∧
        GraphWriter.data w1 = GraphWriter.data w ++ k.closeToken ∧
        GraphWriter.length w1 = GraphWriter.length w + 1 ∧
        GraphWriter.is_complete w1 = true) ∧
    (GraphWriter.is_complete w = true → k.finish w = some w) ∧
    (∃ w1, k.finish w = some w1 ∧ k.finish w1 = some w1) ∧
    (k.finish w).bind k.finish = k.finish w := by
  have hk1 : k ≠ Kind.plain := by rcases hk with h | h <;> subst h <;> decide
  have hi := Kind.inv_run cs hrun
  have hidem : ∃ w1, k.finish w = some w1 ∧ k.finish w1 = some w1 := by
    by_cases hs : w.level_stack_ = []
    · exact ⟨w, (Kind.finish_closed hk1 hi hs).2, (Kind.finish_closed hk1 hi hs).2⟩
    · obtain ⟨-, hf, -⟩ := Kind.finish_open hk1 hi hs
      exact ⟨_, hf, (Kind.finish_closed hk1 (Kind.inv_finish hi hf) rfl).2⟩
  refine ⟨fun hc => ?_, fun hc => ?_, hidem, ?_⟩
  · have hs : w.level_stack_ ≠ [] := by
      intro hs
      rw [(Kind.finish_closed hk1 hi hs).1] at hc
      simp at hc
    obtain ⟨-, hf, hr⟩ := Kind.finish_open hk1 hi hs
    refine ⟨_, hf, ?_, ?_, ?_⟩
    · simp only [GraphWriter.data, Kind.finish_open_token hk1]
    · simp [GraphWriter.length]
    · simp [GraphWriter.is_complete, IsComplete, hr]
  · exact (Kind.finish_closed hk1 hi ((Kind.complete_iff hk1 hi).1 hc)).2
  · obtain ⟨w1, h1, h2⟩ := hidem
    rw [h1]
    exact h2

/-- Witness of C3: a GraphArray that received two values. -/
theorem finish_idempotent_witness :
    (GraphWriter.is_complete
        { buffer_ := ['[', 'n', 'u', 'l', 'l', ',', '7'],
          level_stack_ := [{ valueCount := 2, inArray := true }], hasRoot_ := true } = false →
      ∃ w1, Kind.array.finish
          { buffer_ := ['[', 'n', 'u', 'l', 'l', ',', '7'],
            level_stack_ := [{ valueCount := 2, inArray := true }], hasRoot_ := true } = some w1 ∧
        GraphWriter.data w1 = GraphWriter.data
          { buffer_ := ['[', 'n', 'u', 'l', 'l', ',', '7'],
            level_stack_ := [{ valueCount := 2, inArray := true }], hasRoot_ := true } ++
          Kind.array.closeToken ∧
        GraphWriter.length w1 = GraphWriter.length
          { buffer_ := ['[', 'n', 'u', 'l', 'l', ',', '7'],
            level_stack_ := [{ valueCount := 2, inArray := true }], hasRoot_ := true } + 1 ∧
        GraphWriter.is_complete w1 = true) ∧
    (GraphWriter.is_complete
        { buffer_ := ['[', 'n', 'u', 'l', 'l', ',', '7'],
          level_stack_ := [{ valueCount := 2, inArray := true }], hasRoot_ := true } = true →
      Kind.array.finish
          { buffer_ := ['[', 'n', 'u', 'l', 'l', ',', '7'],
            level_stack_ := [{ valueCount := 2, inArray := true }], hasRoot_ := true } =
        some { buffer_ := ['[', 'n', 'u', 'l', 'l', ',', '7'],
               level_stack_ := [{ valueCount := 2, inArray := true }], hasRoot_ := true }) ∧
    (∃ w1, Kind.array.finish
          { buffer_ := ['[', 'n', 'u', 'l', 'l', ',', '7'],
            level_stack_ := [{ valueCount := 2, inArray := true }], hasRoot_ := true } = some w1 ∧
        Kind.array.finish w1 = some w1) ∧
    (Kind.array.finish
          { buffer_ := ['[', 'n', 'u', 'l', 'l', ',', '7'],
            level_stack_ := [{ valueCount := 2, inArray := true }], hasRoot_ := true }).bind
        Kind.array.finish =
      Kind.array.finish
          { buffer_ := ['[', 'n', 'u', 'l', 'l', ',', '7'],
            level_stack_ := [{ valueCount := 2, inArray := true }], hasRoot_ := true } :=
  finish_idempotent Kind.array [Call.add Op.add_null, Call.add (Op.add_int64 7)]
    { buffer_ := ['[', 'n', 'u', 'l', 'l', ',', '7'],
      level_stack_ := [{ valueCount := 2, inArray := true }], hasRoot_ := true }
    (Or.inr rfl) (by decide)

/-- C4: once a writer is complete, every value-appending call (add_null,
add_bool, add_int32, add_int64, add_double, add_string, add_key, the geometry
values, add_writer) fails the assertion of the writer, in every state
whatever; reset() makes the writer not complete again and a value is accepted
again (any value on a plain writer or an array, any string or key on an
object); and a GraphArray that is not complete, in every state it can reach
through its public interface, accepts every value-appending call. -/
theorem write_after_complete_rejected (k : Kind) (cs : List Call) (w : GraphWriter) (op : Op)
    (hrun : k.run cs = some w) :
    (∀ v : GraphWriter, GraphWriter.is_complete v = true → op.apply v = none) ∧
    (GraphWriter.is_complete w = true → op.apply w = none) ∧
    (∃ s, k.reset w = some s ∧ GraphWriter.is_complete s = false ∧
      (k ≠ Kind.object ∨ op.type = JsonType.kStringType → ∃ w1, op.apply s = some w1)) ∧
    (k = Kind.array → GraphWriter.is_complete w = false → ∃ w1, op.apply w = some w1) := by
  refine ⟨fun v hv => Op.apply_complete op hv, fun hc => Op.apply_complete op hc, ?_, ?_⟩
  · cases k
    · exact ⟨_, rfl, rfl, fun _ => (Op.apply_new op).imp fun _ h => h.1⟩
    · refine ⟨_, GraphObject.object_new_eq, rfl, fun h => ?_⟩
      rcases h with h | h
      · exact absurd rfl h
      · exact Op.apply_key_position op rfl h
    · exact ⟨_, GraphArray.array_new_eq, rfl, fun _ => Op.apply_inArray op rfl⟩
  · intro hk hc
    subst hk
    have hi := Kind.inv_run cs hrun
    have hs : w.level_stack_ ≠ [] := by
      intro hs
      rw [(Kind.finish_closed (by decide) hi hs).1] at hc
      simp at hc
    unfold Kind.inv at hi
    rcases hl : w.level_stack_ with _ | ⟨level, _ | ⟨l2, rest⟩⟩
    · exact absurd hl hs
    · rw [hl] at hi
      simp only [Bool.and_eq_true] at hi
      obtain ⟨n, a⟩ := level
      simp only at hi
      rw [hi.2] at hl
      exact Op.apply_inArray op hl
    · rw [hl] at hi
      simp at hi

/-- Witness of C4: a finished GraphArray and the call add_null(). -/
theorem write_after_complete_rejected_witness :
    (∀ v : GraphWriter, GraphWriter.is_complete v = true → Op.add_null.apply v = none) ∧
    (GraphWriter.is_complete
        { buffer_ := ['[', '7', ']'], level_stack_ := [], hasRoot_ := true } = true →
      Op.add_null.apply
        { buffer_ := ['[', '7', ']'], level_stack_ := [], hasRoot_ := true } = none) ∧
    (∃ s, Kind.array.reset
        { buffer_ := ['[', '7', ']'], level_stack_ := [], hasRoot_ := true } = some s ∧
      GraphWriter.is_complete s = false ∧
      (Kind.array ≠ Kind.object ∨ Op.add_null.type = JsonType.kStringType →
        ∃ w1, Op.add_null.apply s = some w1)) ∧
    (Kind.array = Kind.array →
      GraphWriter.is_complete
        { buffer_ := ['[', '7', ']'], level_stack_ := [], hasRoot_ := true } = false →
      ∃ w1, Op.add_null.apply
        { buffer_ := ['[', '7', ']'], level_stack_ := [], hasRoot_ := true } = some w1) :=
  write_after_complete_rejected Kind.array [Call.add (Op.add_int32 7), Call.finish]
    { buffer_ := ['[', '7', ']'], level_stack_ := [], hasRoot_ := true } Op.add_null
    (by decide)

/-- C5: add_writer(inner, type), when the outer writer accepts a value of that
type, copies the bytes of the inner writer verbatim: the outer buffer becomes
the previous buffer, then the separator its position requires, then exactly
the bytes inner.data()[0..inner.length()); nothing else is written, whatever
the type, and the nesting state changes as for any other value.  Splicing any
inner writer into a fresh GraphArray as an object and finishing gives the
opening bracket, the inner bytes and the closing bracket. -/
theorem add_writer_verbatim (w inner w1 : GraphWriter) (type : JsonType)
    (h : GraphWriter.add_writer inner type w = some w1) :
    GraphWriter.data w1 =
      GraphWriter.data w ++ separator w ++
        (GraphWriter.data inner).take (GraphWriter.length inner) ∧
    (GraphWriter.data inner).take (GraphWriter.length inner) = inner.buffer_ ∧
    GraphWriter.length w1 =
      GraphWriter.length w + (separator w).length + GraphWriter.length inner ∧
    w1.level_stack_ = bump w.level_stack_ ∧
    (∀ (type2 : JsonType) (w2 : GraphWriter),
      GraphWriter.add_writer inner type2 w = some w2 → w2 = w1) ∧
    ((GraphArray.new.bind (GraphWriter.add_writer inner JsonType.kObjectType)).bind
        GraphArray.finish).map GraphWriter.data =
      some (['['] ++ GraphWriter.data inner ++ [']']) := by
  have key : ∀ (t : JsonType) (v : GraphWriter), GraphWriter.add_writer inner t w = some v →
      v = { buffer_ := w.buffer_ ++ separator w ++ inner.buffer_
            level_stack_ := bump w.level_stack_
            hasRoot_ := (w.hasRoot_ || w.level_stack_.isEmpty) } := by
    intro t v hv
    unfold GraphWriter.add_writer at hv
    cases hp : Prefix t w with
    | none => rw [hp] at hv; simp at hv
    | some p =>
      rw [hp] at hv
      obtain ⟨h1, h2, h3⟩ := Prefix_some hp
      simp only [Option.map_some', Option.some.injEq, List.take_length] at hv
      subst hv
      simp [Put, h1, h2, h3]
  have h1 := key type w1 h
  refine ⟨?_, by simp [GraphWriter.data, GraphWriter.length], ?_, ?_, ?_, ?_⟩
  · rw [h1]; simp [GraphWriter.data, GraphWriter.length]
  · rw [h1]; simp [GraphWriter.data, GraphWriter.length, Nat.add_assoc]
  · rw [h1]
  · intro t2 w2 h2
    rw [key t2 w2 h2, h1]
  · rw [GraphArray.array_new_eq]
    simp [GraphWriter.add_writer, Prefix, separator, Put, GraphArray.finish,
      GraphWriter.is_complete, IsComplete, GraphWriter.end_array, EndArray, GraphWriter.data]

/-- Witness of C5: a finished GraphObject spliced into a GraphArray that holds
one element already. -/
theorem add_writer_verbatim_witness :
    GraphWriter.data
        { buffer_ := ['[', '7', ',', '{', '}'],
          level_stack_ := [{ valueCount := 2, inArray := true }], hasRoot_ := true } =
      GraphWriter.data
          { buffer_ := ['[', '7'], level_stack_ := [{ valueCount := 1, inArray := true }],
            hasRoot_ := true } ++
        separator
          { buffer_ := ['[', '7'], level_stack_ := [{ valueCount := 1, inArray := true }],
            hasRoot_ := true } ++
        (GraphWriter.data { buffer_ := ['{', '}'], level_stack_ := [], hasRoot_ := true }).take
          (GraphWriter.length { buffer_ := ['{', '}'], level_stack_ := [], hasRoot_ := true }) ∧
    (GraphWriter.data { buffer_ := ['{', '}'], level_stack_ := [], hasRoot_ := true }).take
        (GraphWriter.length { buffer_ := ['{', '}'], level_stack_ := [], hasRoot_ := true }) =
      ['{', '}'] :=
  have h := add_writer_verbatim
    { buffer_ := ['[', '7'], level_stack_ := [{ valueCount := 1, inArray := true }],
      hasRoot_ := true }
    { buffer_ := ['{', '}'], level_stack_ := [], hasRoot_ := true }
    { buffer_ := ['[', '7', ',', '{', '}'],
      level_stack_ := [{ valueCount := 2, inArray := true }], hasRoot_ := true }
    JsonType.kObjectType (by decide)
  ⟨h.1, h.2.1⟩

/-- C6: for every GraphStatement and every document, bind_values(doc) leaves
the request with exactly one positional parameter, at index 0, whose value is
the byte string doc.data()[0..doc.length()), whatever parameters were bound
before; the bind is accepted, and the rest of the statement is unchanged. -/
theorem bind_values_one_parameter (s : GraphStatement) (doc : GraphWriter) :
    ((GraphStatement.bind_values (some doc) s).2.wrapped_.parameters =
      [some ((GraphWriter.data doc).take (GraphWriter.length doc))]) ∧
    (GraphStatement.bind_values (some doc) s).2.wrapped_.parameters.length = 1 ∧
    (GraphStatement.bind_values (some doc) s).2.wrapped_.parameters[0]? =
      some (some doc.buffer_) ∧
    (GraphStatement.bind_values (some doc) s).1 = CassError.CASS_OK ∧
    (GraphStatement.bind_values (some doc) s).2 =
      { s with wrapped_ := { s.wrapped_ with parameters := [some doc.buffer_] } } := by
  simp [GraphStatement.bind_values, cass_statement_bind_string_n, cass_statement_reset_parameters,
    GraphWriter.data, GraphWriter.length]

/-- C7: for every GraphStatement, bind_values with no document resets the
request to zero parameters and returns CASS_OK, whatever parameters were bound
before; nothing else of the statement changes. -/
theorem bind_values_null (s : GraphStatement) :
    (GraphStatement.bind_values none s).1 = CassError.CASS_OK ∧
    (GraphStatement.bind_values none s).2.wrapped_.parameters = [] ∧
    (GraphStatement.bind_values none s).2.wrapped_.parameters.length = 0 ∧
    (GraphStatement.bind_values none s).2 =
      { s with wrapped_ := { s.wrapped_ with parameters := [] } } := by
  simp [GraphStatement.bind_values, cass_statement_reset_parameters]

/-- C8: a GraphStatement constructed with no options equals the one
constructed with freshly default-constructed GraphOptions: its request has a
header map, which is not empty and holds graph-language = "gremlin-groovy" and
graph-source = "g"; its request timeout is 0 and graph_source() is "g". -/
theorem statement_without_options (query : Buf) (length : Nat) :
    GraphStatement.new query length none =
      GraphStatement.new query length (some GraphOptions.new) ∧
    (∃ payload, (GraphStatement.new query length none).wrapped_.custom_payload = some payload ∧
      payload ≠ [] ∧
      payload.find? "graph-language".toList = some "gremlin-groovy".toList ∧
      payload.find? "graph-source".toList = some "g".toList) ∧
    (GraphStatement.new query length none).wrapped_.request_timeout_ms = 0 ∧
    GraphStatement.graph_source (GraphStatement.new query length none) = "g".toList := by
  refine ⟨rfl, ⟨_, rfl, by decide, by decide, by decide⟩, rfl, rfl⟩

/-- C9: a GraphStatement constructed with options o has the header map of o on
its request, graph_source() equal to o.graph_source(), and as request timeout
o.request_timeout_ms() converted to an unsigned 64-bit value: the timeout
itself when it is not negative, the timeout plus 2^64 when it is negative. -/
theorem statement_with_options (query : Buf) (length : Nat) (o : GraphOptions)
    (hlo : -2 ^ 63 ≤ GraphOptions.request_timeout_ms o)
    (hhi : GraphOptions.request_timeout_ms o < 2 ^ 63) :
    (GraphStatement.new query length (some o)).wrapped_.custom_payload =
      some (GraphOptions.payload o) ∧
    GraphStatement.graph_source (GraphStatement.new query length (some o)) =
      GraphOptions.graph_source o ∧
    (GraphStatement.new query length (some o)).wrapped_.request_timeout_ms =
      toUInt64 (GraphOptions.request_timeout_ms o) ∧
    (GraphStatement.new query length (some o)).wrapped_.request_timeout_ms < 2 ^ 64 ∧
    (0 ≤ GraphOptions.request_timeout_ms o →
      ((GraphStatement.new query length (some o)).wrapped_.request_timeout_ms : Int) =
        GraphOptions.request_timeout_ms o) ∧
    (GraphOptions.request_timeout_ms o < 0 →
      ((GraphStatement.new query length (some o)).wrapped_.request_timeout_ms : Int) =
        GraphOptions.request_timeout_ms o + 2 ^ 64) := by
  have ht : (GraphStatement.new query length (some o)).wrapped_.request_timeout_ms =
      toUInt64 (GraphOptions.request_timeout_ms o) := rfl
  refine ⟨rfl, rfl, ht, ?_, ?_, ?_⟩
  · rw [ht]
    unfold toUInt64
    omega
  · intro h0
    rw [ht]
    unfold toUInt64
    omega
  · intro h0
    rw [ht]
    unfold toUInt64
    omega

/-- Witness of C9: options whose stored timeout is -1. -/
theorem statement_with_options_witness :
    ((GraphStatement.new ['g'] 1
        (some { GraphOptions.new with request_timeout_ms_ := -1 })).wrapped_.request_timeout_ms :
          Int) = -1 + 2 ^ 64 :=
  (statement_with_options ['g'] 1 { GraphOptions.new with request_timeout_ms_ := -1 }
    (by decide) (by decide)).2.2.2.2.2 (by decide)

/-- C10: a default-constructed GraphOptions has a header map with exactly two
entries, graph-language = "gremlin-groovy" and graph-source = "g", and none
for graph-name, the two consistencies or request-timeout; graph_source() is
"g", both consistency fields are unknown and request_timeout_ms() is 0. -/
theorem default_options :
    (GraphOptions.payload GraphOptions.new).length = 2 ∧
    (GraphOptions.payload GraphOptions.new).find? "graph-language".toList =
      some "gremlin-groovy".toList ∧
    (GraphOptions.payload GraphOptions.new).find? "graph-source".toList = some "g".toList ∧
    (GraphOptions.payload GraphOptions.new).find? "graph-name".toList = none ∧
    (GraphOptions.payload GraphOptions.new).find? "graph-read-consistency".toList = none ∧
    (GraphOptions.payload GraphOptions.new).find? "graph-write-consistency".toList = none ∧
    (GraphOptions.payload GraphOptions.new).find? "request-timeout".toList = none ∧
    (∀ name : Buf, name ≠ "graph-language".toList → name ≠ "graph-source".toList →
      (GraphOptions.payload GraphOptions.new).find? name = none) ∧
    GraphOptions.graph_source GraphOptions.new = "g".toList ∧
    GraphOptions.new.graph_language_ = "gremlin-groovy".toList ∧
    GraphOptions.new.graph_name_ = [] ∧
    GraphOptions.new.read_consistency_ = CassConsistency.CASS_CONSISTENCY_UNKNOWN ∧
    GraphOptions.new.write_consistency_ = CassConsistency.CASS_CONSISTENCY_UNKNOWN ∧
    GraphOptions.request_timeout_ms GraphOptions.new = 0 := by
  have hp : GraphOptions.payload GraphOptions.new =
      [("graph-language".toList, "gremlin-groovy".toList), ("graph-source".toList, "g".toList)] := by
    decide
  refine ⟨by decide, by decide, by decide, by decide, by decide, by decide, by decide, ?_,
    rfl, rfl, rfl, rfl, rfl, rfl⟩
  intro name h1 h2
  have e1 : decide ("graph-language".toList = name) = false := decide_eq_false (Ne.symm h1)
  have e2 : decide ("graph-source".toList = name) = false := decide_eq_false (Ne.symm h2)
  rw [hp]
  simp only [CassCustomPayload.find?, List.find?_cons, e1, e2, List.find?_nil, Option.map_none']

/-- C11: after set_graph_language(s), set_graph_source(s) or set_graph_name(s)
the header map holds, for the key of the setter (graph-language, graph-source,
graph-name), exactly one entry, whose value is the bytes of s, whatever it
held before, and the typed field equals s (graph_source() returns s); a second
call of the setter leaves only the last value. -/
theorem setter_syncs_header (s s2 : Buf) (o : GraphOptions) :
    ((GraphOptions.set_graph_language s o).payload.find? "graph-language".toList = some s ∧
      (GraphOptions.set_graph_language s o).payload.count "graph-language".toList = 1 ∧
      (∀ v : Buf, ("graph-language".toList, v) ∈ (GraphOptions.set_graph_language s o).payload ↔
        v = s) ∧
      (GraphOptions.set_graph_language s o).graph_language_ = s) ∧
    ((GraphOptions.set_graph_source s o).payload.find? "graph-source".toList = some s ∧
      (GraphOptions.set_graph_source s o).payload.count "graph-source".toList = 1 ∧
      (∀ v : Buf, ("graph-source".toList, v) ∈ (GraphOptions.set_graph_source s o).payload ↔
        v = s) ∧
      GraphOptions.graph_source (GraphOptions.set_graph_source s o) = s) ∧
    ((GraphOptions.set_graph_name s o).payload.find? "graph-name".toList = some s ∧
      (GraphOptions.set_graph_name s o).payload.count "graph-name".toList = 1 ∧
      (∀ v : Buf, ("graph-name".toList, v) ∈ (GraphOptions.set_graph_name s o).payload ↔
        v = s) ∧
      (GraphOptions.set_graph_name s o).graph_name_ = s) ∧
    ((∀ v : Buf, ("graph-language".toList, v) ∈
        (GraphOptions.set_graph_language s2 (GraphOptions.set_graph_language s o)).payload ↔
        v = s2) ∧
      (GraphOptions.set_graph_language s2 (GraphOptions.set_graph_language s o)).graph_language_ =
        s2) ∧
    ((∀ v : Buf, ("graph-source".toList, v) ∈
        (GraphOptions.set_graph_source s2 (GraphOptions.set_graph_source s o)).payload ↔
        v = s2) ∧
      GraphOptions.graph_source
        (GraphOptions.set_graph_source s2 (GraphOptions.set_graph_source s o)) = s2) ∧
    ((∀ v : Buf, ("graph-name".toList, v) ∈
        (GraphOptions.set_graph_name s2 (GraphOptions.set_graph_name s o)).payload ↔
        v = s2) ∧
      (GraphOptions.set_graph_name s2 (GraphOptions.set_graph_name s o)).graph_name_ = s2) := by
  have hl : ∀ (v : Buf) (q : GraphOptions), (GraphOptions.set_graph_language v q).payload =
      q.payload_.filter (fun item => item.1 ≠ "graph-language".toList) ++
        [("graph-language".toList, v)] := fun v q => set_n_literal _ _ _
  have hs : ∀ (v : Buf) (q : GraphOptions), (GraphOptions.set_graph_source v q).payload =
      q.payload_.filter (fun item => item.1 ≠ "graph-source".toList) ++
        [("graph-source".toList, v)] := fun v q => set_n_literal _ _ _
  have hn : ∀ (v : Buf) (q : GraphOptions), (GraphOptions.set_graph_name v q).payload =
      q.payload_.filter (fun item => item.1 ≠ "graph-name".toList) ++
        [("graph-name".toList, v)] := fun v q => set_n_literal _ _ _
  refine ⟨⟨?_, ?_, fun v => ?_, rfl⟩, ⟨?_, ?_, fun v => ?_, rfl⟩, ⟨?_, ?_, fun v => ?_, rfl⟩,
    ⟨fun v => ?_, rfl⟩, ⟨fun v => ?_, rfl⟩, ⟨fun v => ?_, rfl⟩⟩
  · rw [hl]; exact find?_replace_self _ _ _
  · rw [hl]; exact count_replace_self _ _ _
  · rw [hl]; exact mem_replace_key _ _ _ _
  · rw [hs]; exact find?_replace_self _ _ _
  · rw [hs]; exact count_replace_self _ _ _
  · rw [hs]; exact mem_replace_key _ _ _ _
  · rw [hn]; exact find?_replace_self _ _ _
  · rw [hn]; exact count_replace_self _ _ _
  · rw [hn]; exact mem_replace_key _ _ _ _
  · rw [hl]; exact mem_replace_key _ _ _ _
  · rw [hs]; exact mem_replace_key _ _ _ _
  · rw [hn]; exact mem_replace_key _ _ _ _

/-- C12: every setter of GraphOptions (set_graph_language, set_graph_source,
set_graph_name, set_graph_read_consistency, set_graph_write_consistency,
set_request_timeout_ms) only overwrites: the header entries under every other
key are the same before and after, an entry that is present stays present,
the setter leaves an entry under its own key (set_request_timeout_ms when it
writes a header value), and every typed field other than its own is unchanged;
so over every sequence of setter calls no header entry is ever deleted, and
from a default-constructed GraphOptions the graph-language and graph-source
entries are present in every reachable state.  This whatever header value
set_request_timeout_ms writes, and when it writes none. -/
theorem setters_only_overwrite (header : Int → Option Buf) (c : Setter) (cs : List Setter)
    (o : GraphOptions) :
    (∀ name : Buf, name ≠ c.key →
      (c.apply header o).payload.find? name = o.payload.find? name) ∧
    (∀ item : Buf × Buf, item.1 ≠ c.key →
      (item ∈ (c.apply header o).payload ↔ item ∈ o.payload)) ∧
    (∀ name : Buf, o.payload.find? name ≠ none →
      (c.apply header o).payload.find? name ≠ none) ∧
    ((∀ t, c = Setter.set_request_timeout_ms t → header t ≠ none) →
      (c.apply header o).payload.find? c.key ≠ none) ∧
    (c.key ≠ DSE_GRAPH_OPTION_LANGUAGE_KEY →
      (c.apply header o).graph_language_ = o.graph_language_) ∧
    (c.key ≠ DSE_GRAPH_OPTION_SOURCE_KEY →
      (c.apply header o).graph_source_ = o.graph_source_) ∧
    (c.key ≠ DSE_GRAPH_OPTION_NAME_KEY → (c.apply header o).graph_name_ = o.graph_name_) ∧
    (c.key ≠ DSE_GRAPH_OPTION_READ_CONSISTENCY_KEY →
      (c.apply header o).read_consistency_ = o.read_consistency_) ∧
    (c.key ≠ DSE_GRAPH_OPTION_WRITE_CONSISTENCY_KEY →
      (c.apply header o).write_consistency_ = o.write_consistency_) ∧
    (c.key ≠ DSE_GRAPH_REQUEST_TIMEOUT →
      (c.apply header o).request_timeout_ms_ = o.request_timeout_ms_) ∧
    (∀ name : Buf, o.payload.find? name ≠ none →
      (runSetters header cs o).payload.find? name ≠ none) ∧
    (runSetters header cs GraphOptions.new).payload.find? "graph-language".toList ≠ none ∧
    (runSetters header cs GraphOptions.new).payload.find? "graph-source".toList ≠ none := by
  refine ⟨fun name h => Setter.apply_find?_other header c o h,
    fun item h => Setter.apply_mem_other header c o h,
    fun name h => Setter.apply_keeps header c o h,
    fun hc => Setter.apply_find?_self header c o hc, ?_, ?_, ?_, ?_, ?_, ?_,
    fun name h => runSetters_keeps header cs o h,
    runSetters_keeps header cs _ (by decide), runSetters_keeps header cs _ (by decide)⟩
  · cases c <;> first | (intro _; rfl) | (intro h; exact absurd rfl h)
  · cases c <;> first | (intro _; rfl) | (intro h; exact absurd rfl h)
  · cases c <;> first | (intro _; rfl) | (intro h; exact absurd rfl h)
  · cases c <;> first | (intro _; rfl) | (intro h; exact absurd rfl h)
  · cases c <;> first | (intro _; rfl) | (intro h; exact absurd rfl h)
  · cases c <;> first | (intro _; rfl) | (intro h; exact absurd rfl h)

/-- C13: for every consistency level c, set_graph_read_consistency(c) stores
under graph-read-consistency, and set_graph_write_consistency(c) under
graph-write-consistency, as the only entry of that key, the canonical name of
c: the whole result of the consistency-to-string function, whose strlen is its
length; the name is not empty and has no digit in it, so it is never a numeric
code, and different levels have different names; c is recorded in the typed
field of the setter. -/
theorem consistency_stored_as_name (c : CassConsistency) (o : GraphOptions) :
    (GraphOptions.set_graph_read_consistency c o).payload.find?
        "graph-read-consistency".toList = some (cass_consistency_string c) ∧
    (GraphOptions.set_graph_read_consistency c o).payload.count
        "graph-read-consistency".toList = 1 ∧
    (GraphOptions.set_graph_read_consistency c o).read_consistency_ = c ∧
    (GraphOptions.set_graph_write_consistency c o).payload.find?
        "graph-write-consistency".toList = some (cass_consistency_string c) ∧
    (GraphOptions.set_graph_write_consistency c o).payload.count
        "graph-write-consistency".toList = 1 ∧
    (GraphOptions.set_graph_write_consistency c o).write_consistency_ = c ∧
    strlen (cass_consistency_string c) = (cass_consistency_string c).length ∧
    cass_consistency_string c ≠ [] ∧
    (∀ ch ∈ cass_consistency_string c, ch.isDigit = false) ∧
    (∀ c2 : CassConsistency, cass_consistency_string c2 = cass_consistency_string c → c2 = c) := by
  have hlen : strlen (cass_consistency_string c) = (cass_consistency_string c).length := by
    cases c <;> decide
  have hr : (GraphOptions.set_graph_read_consistency c o).payload =
      o.payload_.filter (fun item => item.1 ≠ "graph-read-consistency".toList) ++
        [("graph-read-consistency".toList, cass_consistency_string c)] := by
    show cass_custom_payload_set_n _ _ _ _ (strlen (cass_consistency_string c)) = _
    rw [hlen]
    exact set_n_literal _ _ _
  have hw : (GraphOptions.set_graph_write_consistency c o).payload =
      o.payload_.filter (fun item => item.1 ≠ "graph-write-consistency".toList) ++
        [("graph-write-consistency".toList, cass_consistency_string c)] := by
    show cass_custom_payload_set_n _ _ _ _ (strlen (cass_consistency_string c)) = _
    rw [hlen]
    exact set_n_literal _ _ _
  refine ⟨?_, ?_, rfl, ?_, ?_, rfl, hlen, ?_, ?_, ?_⟩
  · rw [hr]; exact find?_replace_self _ _ _
  · rw [hr]; exact count_replace_self _ _ _
  · rw [hw]; exact find?_replace_self _ _ _
  · rw [hw]; exact count_replace_self _ _ _
  · cases c <;> decide
  · cases c <;> decide
  · intro c2
    cases c <;> cases c2 <;> decide

/-- C14: status codes of the collaborator are passed on verbatim.  Over every
collaborator, set_timestamp(t) hands t unchanged to the set-timestamp
operation and returns exactly its code, and bind_values(doc) returns exactly
the code of the bind-string operation, whatever code that is; the statement
keeps the request the operation returned.  With the collaborator of the
driver the request then carries the timestamp t. -/
theorem status_codes_verbatim (c : Collaborator) (t : Int) (doc : GraphWriter)
    (s : GraphStatement) (e : CassError) :
    (GraphStatement.set_timestamp_on c t s).1 = (c.set_timestamp s.wrapped_ t).1 ∧
    (GraphStatement.set_timestamp_on c t s).2.wrapped_ = (c.set_timestamp s.wrapped_ t).2 ∧
    (GraphStatement.bind_values_on c (some doc) s).1 =
      (c.bind_string_n (c.reset_parameters s.wrapped_ 1) 0 (GraphWriter.data doc)
        (GraphWriter.length doc)).1 ∧
    (GraphStatement.bind_values_on c (some doc) s).2.wrapped_ =
      (c.bind_string_n (c.reset_parameters s.wrapped_ 1) 0 (GraphWriter.data doc)
        (GraphWriter.length doc)).2 ∧
    (GraphStatement.set_timestamp_on
      { c with set_timestamp := fun statement _ => (e, statement) } t s).1 = e ∧
    (GraphStatement.bind_values_on
      { c with bind_string_n := fun statement _ _ _ => (e, statement) } (some doc) s).1 = e ∧
    GraphStatement.set_timestamp t s = GraphStatement.set_timestamp_on Collaborator.driver t s ∧
    GraphStatement.bind_values (some doc) s =
      GraphStatement.bind_values_on Collaborator.driver (some doc) s ∧
    GraphStatement.bind_values none s =
      GraphStatement.bind_values_on Collaborator.driver none s ∧
    (GraphStatement.set_timestamp t s).1 = (cass_statement_set_timestamp s.wrapped_ t).1 ∧
    (GraphStatement.set_timestamp t s).2.wrapped_.timestamp = some t ∧
    (GraphStatement.bind_values (some doc) s).1 =
      (cass_statement_bind_string_n (cass_statement_reset_parameters s.wrapped_ 1) 0
        (GraphWriter.data doc) (GraphWriter.length doc)).1 :=
  ⟨rfl, rfl, rfl, rfl, rfl, rfl, rfl, rfl, rfl, rfl, rfl, rfl⟩

/-- C15: for every GraphOptions object o in memory (its header map holding
one entry per key), clone() returns a new object, at another address and with
a header map of its own, whose header map (entry by entry, and the value under
every key) and typed fields (language, source, name, read and write
consistency, timeout) equal those of o at the moment of cloning, o itself
being unchanged; afterwards the two are independent: whatever setters are
called on the clone, o stays as it was, and whatever setters are called on o,
the clone stays as it was. -/
theorem clone_equal_and_independent (header : Int → Option Buf) (m : Memory) (p : Nat)
    (o : GraphOptions) (cs : List Setter) (ho : m.read p = some o)
    (hmap : (o.payload.map Prod.fst).Nodup) :
    ∃ (q : Nat) (m1 : Memory) (copy : GraphOptions),
      m.clone p = some (q, m1) ∧ q ≠ p ∧ m.read q = none ∧
      m1.read q = some copy ∧ m1.read p = some o ∧
      m1.payloadOf q ≠ m1.payloadOf p ∧
      copy.payload = o.payload ∧
      (∀ name : Buf, copy.payload.find? name = o.payload.find? name) ∧
      copy.graph_language_ = o.graph_language_ ∧
      GraphOptions.graph_source copy = GraphOptions.graph_source o ∧
      copy.graph_name_ = o.graph_name_ ∧
      copy.read_consistency_ = o.read_consistency_ ∧
      copy.write_consistency_ = o.write_consistency_ ∧
      GraphOptions.request_timeout_ms copy = GraphOptions.request_timeout_ms o ∧
      (m1.calls header q cs).read p = some o ∧
      (m1.calls header q cs).read q = some (runSetters header cs copy) ∧
      (m1.calls header p cs).read q = some copy ∧
      (m1.calls header p cs).read p = some (runSetters header cs o) := by
  have hclone : GraphOptions.clone o = o := GraphOptions.clone_eq o hmap
  obtain ⟨objp, payload, hobjp, hpayload, hview⟩ := Memory.read_some m p o ho
  have hp1 : p < m.objects.length := by
    by_contra hge
    rw [List.getElem?_eq_none (Nat.le_of_not_lt hge)] at hobjp
    exact absurd hobjp (by simp)
  have hp2 : objp.payload_ < m.payloads.length := by
    by_contra hge
    rw [List.getElem?_eq_none (Nat.le_of_not_lt hge)] at hpayload
    exact absurd hpayload (by simp)
  let m1 : Memory :=
    { payloads := m.payloads ++ [o.payload_]
      objects := m.objects ++ [OptionsObject.store m.payloads.length o] }
  have hm1 : m.clone p = some (m.objects.length, m1) := by
    simp only [Memory.clone, ho, hclone, m1]
  have hq : m1.read m.objects.length = some o := by
    simp only [Memory.read, m1, List.getElem?_concat_length, OptionsObject.store]
    cases o
    rfl
  have hp : m1.read p = some o := by
    simp only [Memory.read, m1, List.getElem?_append_left hp1, hobjp,
      List.getElem?_append_left hp2, hpayload, hview]
  have hpq : m1.payloadOf m.objects.length = some m.payloads.length := by
    simp only [Memory.payloadOf, m1, List.getElem?_concat_length]
    rfl
  have hpp : m1.payloadOf p = some objp.payload_ := by
    simp only [Memory.payloadOf, m1, List.getElem?_append_left hp1, hobjp]
    rfl
  have hne1 : objp.payload_ ≠ m.payloads.length := Nat.ne_of_lt hp2
  refine ⟨m.objects.length, m1, o, hm1, Nat.ne_of_gt hp1, ?_, hq, hp, ?_, rfl, fun _ => rfl,
    rfl, rfl, rfl, rfl, rfl, rfl, ?_, ?_, ?_, ?_⟩
  · simp [Memory.read]
  · rw [hpq, hpp]
    intro h
    exact hne1 (Option.some.inj h).symm
  · rw [Memory.calls_read_other header m1 p m.objects.length _ _ cs hpp hpq hne1, hp]
  · exact Memory.calls_read_self header m1 _ cs o hq
  · rw [Memory.calls_read_other header m1 m.objects.length p _ _ cs hpq hpp (Ne.symm hne1), hq]
  · exact Memory.calls_read_self header m1 p cs o hp

/-- Witness of C15: a default-constructed GraphOptions is cloned, then the
graph name and the timeout of the clone are set. -/
theorem clone_equal_and_independent_witness :
    ∃ (q : Nat) (m1 : Memory) (copy : GraphOptions),
      Memory.clone
          { payloads := [GraphOptions.new.payload_]
            objects := [OptionsObject.store 0 GraphOptions.new] } 0 = some (q, m1) ∧
      q ≠ 0 ∧ m1.read q = some copy ∧ copy.payload = GraphOptions.new.payload ∧
      (m1.calls (fun _ => some ['t']) q
          [Setter.set_graph_name ['x'], Setter.set_request_timeout_ms 5]).read 0 =
        some GraphOptions.new :=
  have h := clone_equal_and_independent (fun _ => some ['t'])
    { payloads := [GraphOptions.new.payload_]
      objects := [OptionsObject.store 0 GraphOptions.new] } 0 GraphOptions.new
    [Setter.set_graph_name ['x'], Setter.set_request_timeout_ms 5] (by decide) (by decide)
  match h with
  | ⟨q, m1, copy, h1, h2, _, h4, _, _, h7, _, _, _, _, _, _, _, h15, _⟩ =>
    ⟨q, m1, copy, h1, h2, h4, h7, h15⟩

/-- C17: for every graph-element row of the shape with a "label" L and the
"properties" object whose one property P is an array with the one element
holding "id" I and "value" V (the row is the JSON text of that shape, L, I and
V being any JSON values), next() parses the row and returns it, and traversing
it gives: the label is L; the properties node is an object with member_count 1
and key(0) = P; member(0) is an array whose element(0) is an object with
member_count 2 and key(1) = "value"; member(1) of that object is V.  The
entries of every object are enumerated in their insertion order: for the row
that is the text of any object, member_count, key(i) and member(i) give the
number of members, and the key and the value of member i, as they stand in the
text. -/
theorem graph_element_traversal (rest : List Buf) (L I V : GraphResult) (P : Buf)
    (hL : L.wellFormed = true) (hI : I.wellFormed = true) (hV : V.wellFormed = true) :
    (graphElementRow L P I V).text =
      ['{'] ++ WriteString "label".toList ++ [':'] ++ L.text ++ [','] ++
        WriteString "properties".toList ++ [':', '{'] ++ WriteString P ++ [':', '[', '{'] ++
        WriteString "id".toList ++ [':'] ++ I.text ++ [','] ++
        WriteString "value".toList ++ [':'] ++ V.text ++ ['}', ']', '}', '}'] ∧
    (∃ row props arr elem : GraphResult,
      (GraphResultSet.new ((graphElementRow L P I V).text :: rest)).next.1 =
        NextResult.row row ∧
      (GraphResultSet.new ((graphElementRow L P I V).text :: rest)).next.2.rows_ = 1 ∧
      GraphResultSet.count (GraphResultSet.new ((graphElementRow L P I V).text :: rest)) =
        rest.length + 1 ∧
      row.label = some L ∧
      row.properties = some props ∧
      props.type = DseGraphResultType.DSE_GRAPH_RESULT_TYPE_OBJECT ∧
      props.member_count = some 1 ∧
      props.key 0 = some P ∧
      props.member 0 = some arr ∧
      arr.type = DseGraphResultType.DSE_GRAPH_RESULT_TYPE_ARRAY ∧
      arr.element 0 = some elem ∧
      elem.type = DseGraphResultType.DSE_GRAPH_RESULT_TYPE_OBJECT ∧
      elem.member_count = some 2 ∧
      elem.key 1 = some "value".toList ∧
      elem.member 1 = some V) ∧
    (∀ (members : List (Buf × GraphResult)) (i : Nat),
      GraphResult.membersWellFormed members = true →
      ∃ row : GraphResult,
        (GraphResultSet.new [(GraphResult.object members).text]).next.1 = NextResult.row row ∧
        row.member_count = some members.length ∧
        row.key i = members[i]?.map Prod.fst ∧
        row.member i = members[i]?.map Prod.snd) := by
  have hrow : (graphElementRow L P I V).wellFormed = true := by
    simp [graphElementRow, GraphResult.wellFormed, GraphResult.membersWellFormed,
      GraphResult.elementsWellFormed, hL, hI, hV]
  have hparse := Parse_text (graphElementRow L P I V) hrow
  refine ⟨?_, ⟨graphElementRow L P I V,
    .object [(P, .array [.object [("id".toList, I), ("value".toList, V)]])],
    .array [.object [("id".toList, I), ("value".toList, V)]],
    .object [("id".toList, I), ("value".toList, V)], ?_, ?_, rfl, ?_, ?_, rfl, rfl, rfl, rfl,
    rfl, rfl, rfl, rfl, rfl, rfl⟩, ?_⟩
  · simp [graphElementRow, GraphResult.text, GraphResult.membersText,
      GraphResult.elementsText]
  · simp [GraphResultSet.next, GraphResultSet.new, hparse]
  · simp [GraphResultSet.next, GraphResultSet.new, hparse]
  · simp [GraphResult.label, GraphResult.find_member, graphElementRow]
  · have h : decide ("label".toList = "properties".toList) = false := by decide
    simp only [GraphResult.properties, GraphResult.find_member, graphElementRow,
      List.find?_cons, h, decide_True, Option.map_some']
  · intro members i hm
    have hp := Parse_text (.object members) (by simpa [GraphResult.wellFormed] using hm)
    exact ⟨.object members, by simp [GraphResultSet.next, GraphResultSet.new, hp], rfl, rfl, rfl⟩

/-- Witness of C17: the row of the person "marko". -/
theorem graph_element_traversal_witness :
    ∃ row props arr elem : GraphResult,
      (GraphResultSet.new
        [("\x7b\"label\":\"person\",\"properties\":\x7b\"name\":[\x7b\"id\":\"x\"," ++
          "\"value\":\"marko\"\x7d]\x7d\x7d").toList]).next.1 = NextResult.row row ∧
      row.label = some (.string "person".toList) ∧
      row.properties = some props ∧
      props.member_count = some 1 ∧
      props.key 0 = some "name".toList ∧
      props.member 0 = some arr ∧
      arr.element 0 = some elem ∧
      elem.member_count = some 2 ∧
      elem.key 1 = some "value".toList ∧
      elem.member 1 = some (.string "marko".toList) :=
  have h := (graph_element_traversal [] (.string "person".toList) (.string "x".toList)
    (.string "marko".toList) "name".toList rfl rfl rfl).2.1
  match h with
  | ⟨row, props, arr, elem, h1, _, _, h4, h5, _, h7, h8, h9, _, h11, _, h13, h14, h15⟩ =>
    ⟨row, props, arr, elem, h1, h4, h5, h7, h8, h9, h11, h13, h14, h15⟩

/-- C20: decoding a blob that is empty, or whose leading byte is the tag of no
kind, or whose length is not the length its leading tag requires, reports the
format error.  And the decoder never returns a default or partly decoded
value: whenever it returns a range, for any blob, the blob is exactly the
bytes of that range in the layout, with the length of its kind and a known
precision tag on each bound. -/
theorem decode_rejects_malformed (layout : DateRangeLayout) (bytes : List Byte)
    (hbad : bytes = [] ∨
      (∃ tag rest, bytes = tag :: rest ∧ ∀ k, layout.kindTag k ≠ tag) ∨
      (∃ tag rest k, bytes = tag :: rest ∧ layout.kindTag k = tag ∧ bytes.length ≠ k.length)) :
    decode_date_range layout bytes = Except.error DateRangeError.format_error ∧
    (∀ r, decode_date_range layout bytes ≠ Except.ok r) ∧
    (∀ (blob : List Byte) (r : DseDateRange), decode_date_range layout blob = Except.ok r →
      write_date_range layout r = blob ∧ r.inRange ∧ blob.length = r.kind.length) := by
  have herr : decode_date_range layout bytes = Except.error DateRangeError.format_error := by
    rcases hbad with h | ⟨tag, rest, h, hk⟩ | ⟨tag, rest, k, h, hk, hlen⟩
    · subst h; rfl
    · subst h
      simp [decode_date_range, decode_kind_none hk]
    · subst h
      have hd : decode_kind layout tag = some k := by
        rw [← hk]
        exact decode_kind_tag layout k
      have hlen : rest.length + 1 ≠ k.length := by simpa using hlen
      simp [decode_date_range, hd, hlen]
  refine ⟨herr, fun r => ?_, fun blob r h => decode_date_range_ok h⟩
  rw [herr]
  simp

/-- Witness of C20: a blob of the right length whose leading byte 7 is the tag
of no kind. -/
theorem decode_rejects_malformed_witness :
    decode_date_range DateRangeLayout.example [7, 0, 0, 0, 0, 0, 0, 0, 0, 0] =
      Except.error DateRangeError.format_error :=
  (decode_rejects_malformed DateRangeLayout.example [7, 0, 0, 0, 0, 0, 0, 0, 0, 0]
    (Or.inr (Or.inl ⟨7, [0, 0, 0, 0, 0, 0, 0, 0, 0], rfl,
      by intro k; cases k <;> decide⟩))).1

/-- Counterexample to C21 as stated: a key of 2^32 letters needs no escaping,
but `add_key` converts its length to `SizeType`, which gives 0, so the key is
written as the empty string: the object of this key and null serialises to
the nine bytes of an object with an empty key, not to the text with the key. -/
theorem object_serialisation_counterexample :
    (∀ p ∈ [(List.replicate (2 ^ 32) 'a', MemberValue.null)],
      escapeFree p.1 ∧ p.2.asSpecified) ∧
    (writeObject [(List.replicate (2 ^ 32) 'a', MemberValue.null)]).map GraphWriter.data =
      some ['{', quoteChar, quoteChar, ':', 'n', 'u', 'l', 'l', '}'] ∧
    (writeObject [(List.replicate (2 ^ 32) 'a', MemberValue.null)]).map GraphWriter.data ≠
      some (objectText [(List.replicate (2 ^ 32) 'a', MemberValue.null)]) := by
  have hw : writeObject [(List.replicate (2 ^ 32) 'a', MemberValue.null)] =
      writeObject [([], MemberValue.null)] := by
    apply writeObject_long_key
    rw [List.length_replicate]
    decide
  have hd : (writeObject [([], MemberValue.null)]).map GraphWriter.data =
      some ['{', quoteChar, quoteChar, ':', 'n', 'u', 'l', 'l', '}'] := by decide
  refine ⟨?_, ?_, ?_⟩
  · intro p hp
    rw [List.mem_singleton] at hp
    subst hp
    refine ⟨?_, trivial⟩
    intro c hc
    rw [List.eq_of_mem_replicate hc]
    decide
  · rw [hw, hd]
  · rw [hw, hd]
    intro heq
    have hlen := congrArg (fun o => o.map List.length) heq
    simp only [Option.map_some', objectText_single_length, List.length_replicate,
      Option.some.injEq, List.length_cons, List.length_nil] at hlen
    omega

/-- C21, amended: for every list of (key, value) pairs with keys that need
no JSON escaping and are shorter than 2^32 bytes, and values that are null,
booleans, 32-bit or 64-bit integers, or strings that need no escaping and are
shorter than 2^32 bytes, a fresh GraphObject on which each pair is added with
add_key followed by the matching add_* and which is then finished is complete
and serialises to an opening brace, the entries "key":value in insertion order
separated by commas, and a closing brace, with length() the number of bytes of
that text; the empty list gives the two braces. -/
theorem object_serialisation (pairs : List (Buf × MemberValue))
    (hspec : ∀ p ∈ pairs, escapeFree p.1 ∧ p.2.asSpecified)
    (hsize : ∀ p ∈ pairs, p.1.length < 2 ^ 32 ∧ p.2.fitsSizeType) :
    (∃ w, writeObject pairs = some w ∧
      GraphWriter.data w = objectText pairs ∧
      GraphWriter.length w = (objectText pairs).length ∧
      GraphWriter.is_complete w = true) ∧
    objectText pairs = ['{'] ++ List.intercalate [','] (pairs.map entryText) ++ ['}'] ∧
    (writeObject []).map GraphWriter.data = some ['{', '}'] := by
  have h : ∀ p ∈ pairs, escapeFree p.1 ∧ p.1.length < 2 ^ 32 ∧ p.2.asSpecified ∧
      p.2.fitsSizeType :=
    fun p hp => ⟨(hspec p hp).1, (hsize p hp).1, (hspec p hp).2, (hsize p hp).2⟩
  exact ⟨⟨_, writeObject_ok pairs h, rfl, rfl, rfl⟩, rfl, rfl⟩

/-- Witness of C21: the object of a 32-bit integer, a string and null. -/
theorem object_serialisation_witness :
    ∃ w, writeObject [(['a'], MemberValue.int32 (-5)), (['b'], MemberValue.string ['x']),
        (['c'], MemberValue.null)] = some w ∧
      GraphWriter.data w =
        ['{', quoteChar, 'a', quoteChar, ':', '-', '5', ',', quoteChar, 'b', quoteChar, ':',
          quoteChar, 'x', quoteChar, ',', quoteChar, 'c', quoteChar, ':', 'n', 'u', 'l', 'l',
          '}'] ∧
      GraphWriter.length w = 25 :=
  have h := (object_serialisation
    [(['a'], MemberValue.int32 (-5)), (['b'], MemberValue.string ['x']),
      (['c'], MemberValue.null)]
    (by
      intro p hp
      simp only [List.mem_cons, List.mem_singleton, List.not_mem_nil, or_false] at hp
      rcases hp with hp | hp | hp <;> subst hp <;>
        simp [escapeFree, MemberValue.asSpecified] <;> decide)
    (by
      intro p hp
      simp only [List.mem_cons, List.mem_singleton, List.not_mem_nil, or_false] at hp
      rcases hp with hp | hp | hp <;> subst hp <;>
        simp [MemberValue.fitsSizeType])).1
  match h with
  | ⟨w, h1, h2, h3, _⟩ => ⟨w, h1, h2.trans (by decide), h3.trans (by decide)⟩

end DseGraph
